import Mathlib

/-!
# Verification of the AnatomyDPS combat-log parser and store

A shallow embedding of `AnatomyDPS.py` (Project Gorgon Damage Parser v7):
the regex line classifier, the stateful `LogParser`, the `PandasDataStore`
in-memory event store, the batch/streaming ingestion pipeline
(`BackgroundLoader._load_worker`), and the pure `group_damage_by_alias`
aggregator.

Modelling conventions:
* Python `datetime` values are absolute timestamps in whole seconds (`Int`);
  a calendar day is a day index, one day = 86400 seconds.  The source only
  ever builds datetimes from a midnight anchor plus an `HH:MM:SS`
  time-of-day, so this is exact.
* The source's regexes are hand-compiled to matching functions over
  `List Char` with the same greedy/lazy backtracking semantics, restricted
  to ASCII (`\w` = `[A-Za-z0-9_]`, `\s` = ASCII whitespace; all log input
  relevant to the claims is ASCII).
* `datetime.now()` (used when a corpse line has no timestamp suffix, and as
  the initial day anchor of a parser) is an environment input; it is passed
  in explicitly (`now` arguments / a `Nat → Int` clock stream).
* Python exceptions that escape a function are modelled with an explicit
  error component where a claim observes them (`clear_all_data`); a
  `ValueError` from `strptime` inside `parse_line` is swallowed by every
  caller and happens before any state mutation of the failing branch, so
  those branches are modelled as no-ops.
* The pandas DataFrame caches are pure memoization of the backing lists
  (invalidated on every mutation); queries are modelled directly on the
  lists.  The write-only mirror `_zone_id_to_info` is omitted.  `aggro`
  percentages are kept as the raw captured digit string: the source converts
  them with `float`, and no claim observes the numeric value.
-/

/-- ASCII whitespace, as stripped by `str.strip` and matched by `\s`. -/
def isSpaceChar (c : Char) : Bool :=
  c = ' ' ∨ c = '\t' ∨ c = '\n' ∨ c = '\r' ∨ c = '\x0b' ∨ c = '\x0c'

/-- `\w` word character (ASCII fragment). -/
def isWordChar (c : Char) : Bool :=
  c.isAlphanum ∨ c = '_'

/-- `[\d.]` character class of the aggro capture. -/
def isDigitOrDot (c : Char) : Bool :=
  c.isDigit ∨ c = '.'

/-- `str.strip()` on a character list. -/
def stripChars (cs : List Char) : List Char :=
  ((cs.dropWhile isSpaceChar).reverse.dropWhile isSpaceChar).reverse

/-- `str.strip()`. -/
def stripStr (s : String) : String :=
  ⟨stripChars s.data⟩

/-- Numeric value of a digit string (`int(...)` on a `\d+` capture). -/
def natOfDigits (cs : List Char) : Nat :=
  cs.foldl (fun n c => n * 10 + (c.toNat - '0'.toNat)) 0

/-- Does `cs` start with the literal `lit`? -/
def startsWithLit : List Char → List Char → Bool
  | [], _ => true
  | _ :: _, [] => false
  | l :: ls, c :: cs => l = c ∧ startsWithLit ls cs

/-- `re.search` scanning: try the continuation at each start position from the
left, returning the first success (leftmost match). -/
def searchLeft (f : List Char → Option α) : List Char → Option α
  | [] => f []
  | c :: cs => (f (c :: cs)).orElse (fun _ => searchLeft f cs)

/-- Greedy `.*X` scanning: try the continuation at each start position from the
right, returning the rightmost success (what a greedy `.*` before `X`
backtracks to). -/
def searchRight (f : List Char → Option α) : List Char → Option α
  | [] => f []
  | c :: cs => (searchRight f cs).orElse (fun _ => f (c :: cs))

/-- Split off a maximal run of characters satisfying `p` (a greedy `p+` whose
follower is outside the class): returns the run and the rest. -/
def takeRun (p : Char → Bool) (cs : List Char) : List Char × List Char :=
  (cs.takeWhile p, cs.dropWhile p)

/-- Require a nonempty maximal run of `p`, then hand run and rest to `k`. -/
def runThen (p : Char → Bool) (cs : List Char) (k : List Char → List Char → Option α) :
    Option α :=
  match takeRun p cs with
  | ([], _) => none
  | (r, rest) => k r rest

/-- Drop a literal, or fail. -/
def dropLit (lit : List Char) (cs : List Char) : Option (List Char) :=
  if startsWithLit lit cs then some (cs.drop lit.length) else none

/-- `[HH:MM:SS]` at the start of a (stripped) line: the `TIMESTAMP_PATTERN`
`^\[(\d{2}:\d{2}:\d{2})\]` match, returning the 8-character capture and the
rest of the line. -/
def tsBracket (cs : List Char) : Option (List Char × List Char) :=
  match cs with
  | '[' :: h1 :: h2 :: ':' :: m1 :: m2 :: ':' :: s1 :: s2 :: ']' :: rest =>
    if h1.isDigit ∧ h2.isDigit ∧ m1.isDigit ∧ m2.isDigit ∧ s1.isDigit ∧ s2.isDigit then
      some ([h1, h2, ':', m1, m2, ':', s1, s2], rest)
    else none
  | _ => none

/-- `datetime.strptime(_, '%H:%M:%S')` on an 8-character `\d{2}:\d{2}:\d{2}`
capture: seconds since midnight, or `none` for an out-of-range time
(`strptime` raises `ValueError`). -/
def hmsToSec (s : String) : Option Nat :=
  match s.data with
  | [h1, h2, ':', m1, m2, ':', s1, s2] =>
    if h1.isDigit ∧ h2.isDigit ∧ m1.isDigit ∧ m2.isDigit ∧ s1.isDigit ∧ s2.isDigit then
      let h := natOfDigits [h1, h2]
      let m := natOfDigits [m1, m2]
      let s := natOfDigits [s1, s2]
      if h ≤ 23 ∧ m ≤ 59 ∧ s ≤ 59 then some (h * 3600 + m * 60 + s) else none
    else none
  | _ => none

/-- `CHARACTER_PATTERN = Vivox - LoginAsync\((\w+)\)`, via `re.search`. -/
def charSearch (cs : List Char) : Option String :=
  searchLeft (fun suf => do
    let r ← dropLit "Vivox - LoginAsync(".data suf
    runThen isWordChar r (fun run rest =>
      match rest with
      | ')' :: _ => some ⟨run⟩
      | _ => none)) cs

/-- The `(Area\w+)` capture group: literal `Area` then a nonempty greedy `\w+`. -/
def areaCapture (cs : List Char) : Option String :=
  match dropLit "Area".data cs with
  | some r => runThen isWordChar r (fun run _ => some ⟨'A' :: 'r' :: 'e' :: 'a' :: run⟩)
  | none => none

/-- `ZONE_LOADING_PATTERN = ^\[(\d{2}:\d{2}:\d{2})\].*LOADING LEVEL (Area\w+)`:
after the timestamp, a greedy `.*` backtracks to the rightmost position where
the literal and the capture match. -/
def zoneLoadingMatch (cs : List Char) : Option (String × String) :=
  match tsBracket cs with
  | none => none
  | some (ts, rest) =>
    (searchRight (fun suf => do
      let r ← dropLit "LOADING LEVEL ".data suf
      let z ← areaCapture r
      pure (⟨ts⟩, z)) rest)

/-- After a `:`, the `\s*(Area\w+)` tail of `ZONE_INIT_PATTERN`. -/
def colonAreaTail (cs : List Char) : Option String :=
  match cs with
  | ':' :: r => areaCapture (r.dropWhile isSpaceChar)
  | _ => none

/-- `ZONE_INIT_PATTERN = ^\[ts\].*Initializing area!.*:\s*(Area\w+)`: both `.*`
are greedy, so the rightmost viable literal occurrence is used, and within its
remainder the rightmost viable `:`. -/
def zoneInitMatch (cs : List Char) : Option (String × String) :=
  match tsBracket cs with
  | none => none
  | some (ts, rest) =>
    (searchRight (fun suf => do
      let r ← dropLit "Initializing area!".data suf
      let z ← searchRight colonAreaTail r
      pure (⟨ts⟩, z)) rest)

/-- `ZONE_C_INIT2_PATTERN = ^\[ts\].*C_INIT2 for (Area\w+)`. -/
def zoneCInit2Match (cs : List Char) : Option (String × String) :=
  match tsBracket cs with
  | none => none
  | some (ts, rest) =>
    (searchRight (fun suf => do
      let r ← dropLit "C_INIT2 for ".data suf
      let z ← areaCapture r
      pure (⟨ts⟩, z)) rest)

/-- `CORPSE_PATTERN = ProcessTalkScreen\((\d+),\s*Search Corpse of ([^,]+),`,
via `re.search`. -/
def corpseSearch (cs : List Char) : Option (Nat × String) :=
  searchLeft (fun suf => do
    let r ← dropLit "ProcessTalkScreen(".data suf
    runThen Char.isDigit r (fun digits rest => do
      let r1 ← dropLit ",".data rest
      let r2 := r1.dropWhile isSpaceChar
      let r3 ← dropLit "Search Corpse of ".data r2
      runThen (fun c => ¬ c = ',') r3 (fun nm rest2 =>
        match rest2 with
        | ',' :: _ => some (natOfDigits digits, (⟨nm⟩ : String))
        | _ => none))) cs

/-- `You earned (\d+) Combat Wisdom`, via `re.search`. -/
def wisdomSearch (cs : List Char) : Option Nat :=
  searchLeft (fun suf => do
    let r ← dropLit "You earned ".data suf
    runThen Char.isDigit r (fun digits rest => do
      let _ ← dropLit " Combat Wisdom".data rest
      pure (natOfDigits digits))) cs

/-- The fields extracted by a successful `DAMAGE_PATTERN.match`. -/
structure DmgMatch where
  player_name : String
  health_dmg : Nat
  armor_dmg : Nat
  aggro_raw : Option String
deriving DecidableEq, Repr

/-- `(\d+)\s+NAME\s+dmg` optional sub-group of the damage pattern: a nonempty
digit run, one-or-more whitespace, the literal, whitespace, `dmg`.  Returns the
captured number and the rest on success. -/
def dmgGroup (word : List Char) (cs : List Char) : Option (Nat × List Char) :=
  runThen Char.isDigit cs (fun digits rest =>
    runThen isSpaceChar rest (fun _ r1 => do
      let r2 ← dropLit word r1
      runThen isSpaceChar r2 (fun _ r3 => do
        let r4 ← dropLit "dmg".data r3
        pure (natOfDigits digits, r4))))

/-- The lazy `(?:.*?Aggro\s*\(at death\):\s*([\d.]+)%)?` tail: leftmost
occurrence whose whole suffix matches; the `[\d.]+` capture is a maximal run
that must be followed by `%`. -/
def aggroSearch (cs : List Char) : Option String :=
  searchLeft (fun suf => do
    let r ← dropLit "Aggro".data suf
    let r1 := r.dropWhile isSpaceChar
    let r2 ← dropLit "(at death):".data r1
    let r3 := r2.dropWhile isSpaceChar
    runThen isDigitOrDot r3 (fun run rest =>
      match rest with
      | '%' :: _ => some (⟨run⟩ : String)
      | _ => none)) cs

/-- `DAMAGE_PATTERN.match`: `^([^:]+):` then `\s*`, the optional health group,
`\s*`, the optional armor group, then the optional lazy aggro tail.  All three
groups are independently optional, so the match succeeds on any line whose
first colon is preceded by at least one character. -/
def damageMatch (cs : List Char) : Option DmgMatch :=
  match takeRun (fun c => ¬ c = ':') cs with
  | ([], _) => none
  | (nm, rest) =>
    match rest with
    | ':' :: r0 =>
      let r1 := r0.dropWhile isSpaceChar
      let (h, r2) := match dmgGroup "health".data r1 with
        | some (n, r) => (n, r)
        | none => (0, r1)
      let r3 := r2.dropWhile isSpaceChar
      let (a, r4) := match dmgGroup "armor".data r3 with
        | some (n, r) => (n, r)
        | none => (0, r3)
      let ag := aggroSearch r4
      some { player_name := (⟨nm⟩ : String), health_dmg := h, armor_dmg := a,
             aggro_raw := ag }
    | _ => none

/-- The zones whose transitions are skipped (`SKIP_ZONES`). -/
def SKIP_ZONES : List String := ["ChooseCharacter", "ReconnectToServer", "LoadingScene"]

/-- One zone pattern step of the `parse_line` cascade: the canonical match of
the pattern, unless its captured zone is in `SKIP_ZONES` (the loop then
`continue`s to the next pattern). -/
def zonePatternStep (m : Option (String × String)) : Option (String × String) :=
  match m with
  | some (ts, z) => if z ∈ SKIP_ZONES then none else some (ts, z)
  | none => none

/-- Syntactic classification of one (already stripped) line, mirroring the
pattern cascade of `LogParser.parse_line`: character login, then the three
zone patterns in order (skipping excluded zone names), then corpse search;
all remaining lines carry their (state-independent) damage-pattern and
wisdom-pattern match results, which `parse_line` consults in that order. -/
inductive CLine where
  | charL (name : String)
  | zoneL (ts : String) (zone : String)
  | corpseL (npc : Nat) (npcName : String) (ts : Option String)
  | restL (dm : Option DmgMatch) (wm : Option Nat)
deriving DecidableEq, Repr

/-- Classify a raw line (after `line.strip()`). -/
def classifyLine (line : String) : CLine :=
  let cs := stripChars line.data
  match charSearch cs with
  | some nm => .charL nm
  | none =>
    match zonePatternStep (zoneLoadingMatch cs) with
    | some (ts, z) => .zoneL ts z
    | none =>
      match zonePatternStep (zoneInitMatch cs) with
      | some (ts, z) => .zoneL ts z
      | none =>
        match zonePatternStep (zoneCInit2Match cs) with
        | some (ts, z) => .zoneL ts z
        | none =>
          match corpseSearch cs with
          | some (npc, nm) => .corpseL npc nm ((tsBracket cs).map (fun p => (⟨p.1⟩ : String)))
          | none => .restL (damageMatch cs) (wisdomSearch cs)

/-! ## Data model (`@dataclass` definitions and the `PandasDataStore` rows) -/

/-- The `DamageEvent` dataclass. -/
structure DamageEvent where
  player_name : String
  health_dmg : Nat
  armor_dmg : Nat
  aggro_percent : Option String
  npc_id : Nat
  npc_name : String
  zone_name : String
  timestamp : Int
  character_name : Option String
  zone_id : Option Nat := none
deriving DecidableEq, Repr

/-- The `ZoneInfo` dataclass (display-only zone state of the parser). -/
structure ZoneInfo where
  name : String
  entered_time : Int
  character_name : Option String
deriving DecidableEq, Repr

/-- A row of `_players_list`. -/
structure PlayerRec where
  player_id : Nat
  original_name : String
  «alias» : Option String
deriving DecidableEq, Repr

/-- A row of `_zones_list`. -/
structure ZoneRec where
  zone_id : Nat
  name : String
  character_name : Option String
  entered_time : Int
  left_time : Option Int
  log_date : Option String
deriving DecidableEq, Repr

/-- A row of `_events_list`. -/
structure EventRec where
  event_id : Nat
  zone_id : Option Nat
  npc_id : Nat
  npc_name : String
  player_id : Nat
  health_dmg : Nat
  armor_dmg : Nat
  aggro_percent : Option String
  timestamp : Int
  character_name : Option String
deriving DecidableEq, Repr

/-- A row of `_wisdom_list`. -/
structure WisdomRec where
  zone_id : Nat
  amount : Nat
deriving DecidableEq, Repr

/-- A `_player_id_to_info` value. -/
structure PlayerInfo where
  name : String
  «alias» : Option String
deriving DecidableEq, Repr

/-- The deduplication signature
`(zone_id, npc_id, player_id, health_dmg, armor_dmg)`; the zone component is
`Option Nat` because streaming-mode events can be stored with `zone_id None`. -/
abbrev EventKey := Option Nat × Nat × Nat × Nat × Nat

/-- `PandasDataStore` state.  The lazily rebuilt DataFrame caches are pure
memoization of these lists and are not modelled; the write-only
`_zone_id_to_info` mirror is omitted (the source never reads it). -/
structure PandasDataStore where
  players_list : List PlayerRec
  zones_list : List ZoneRec
  events_list : List EventRec
  wisdom_list : List WisdomRec
  player_name_to_id : List (String × Nat)
  player_id_to_info : List (Nat × PlayerInfo)
  aliases : List (String × String)
  next_player_id : Nat
  next_zone_id : Nat
  next_event_id : Nat
deriving DecidableEq, Repr

/-- A fresh store (`PandasDataStore.__init__`); `aliases` is the mapping read
from the externally persisted alias file at startup. -/
def initStore (aliases : List (String × String)) : PandasDataStore :=
  { players_list := [], zones_list := [], events_list := [], wisdom_list := []
    player_name_to_id := [], player_id_to_info := [], aliases := aliases
    next_player_id := 1, next_zone_id := 1, next_event_id := 1 }

/-- Python `dict` lookup on an association list. -/
def alookup [DecidableEq α] (k : α) : List (α × β) → Option β
  | [] => none
  | (a, b) :: t => if a = k then some b else alookup k t

/-- Python `dict` insert-or-replace (`d[k] = v`), keeping insertion order. -/
def aupdate [DecidableEq α] (k : α) (v : β) : List (α × β) → List (α × β)
  | [] => [(k, v)]
  | (a, b) :: t => if a = k then (k, v) :: t else (a, b) :: aupdate k v t

/-- Python `del d[k]` (no-op when absent, callers guard membership). -/
def aremove [DecidableEq α] (k : α) : List (α × β) → List (α × β)
  | [] => []
  | (a, b) :: t => if a = k then t else (a, b) :: aremove k t

/-! ## `PandasDataStore` operations -/

/-- `get_or_create_player`. -/
def get_or_create_player (s : PandasDataStore) (name : String) :
    Nat × PandasDataStore :=
  match alookup name s.player_name_to_id with
  | some pid => (pid, s)
  | none =>
    let pid := s.next_player_id
    let al := alookup name s.aliases
    (pid,
     { s with
        next_player_id := pid + 1
        players_list := s.players_list ++
          [{ player_id := pid, original_name := name, «alias» := al }]
        player_name_to_id := s.player_name_to_id ++ [(name, pid)]
        player_id_to_info := s.player_id_to_info ++ [(pid, { name := name, «alias» := al })] })

/-- The loop body of `get_or_create_players_batch`, one name at a time. -/
def batchPlayerStep (acc : List (String × Nat) × PandasDataStore)
    (name : String) : List (String × Nat) × PandasDataStore :=
  match alookup name acc.1 with
  | some _ => acc
  | none =>
    let (pid, s') := get_or_create_player acc.2 name
    (acc.1 ++ [(name, pid)], s')

/-- `get_or_create_players_batch`.  The source iterates a Python `set` of
names (unspecified order); the model uses first-occurrence order of the list.
No claim observes the numbering order inside one batch. -/
def get_or_create_players_batch (s : PandasDataStore) (names : List String) :
    List (String × Nat) × PandasDataStore :=
  names.foldl batchPlayerStep ([], s)

/-- `update_player_alias`: truthiness of the Python `alias` string (empty
clears the alias); an unknown `player_id` falls through the guard and is a
complete no-op. -/
def update_player_alias (s : PandasDataStore) (player_id : Nat) («alias» : String) :
    PandasDataStore :=
  match alookup player_id s.player_id_to_info with
  | none => s
  | some info =>
    let a' : Option String := if «alias» = "" then none else some «alias»
    let original_name := info.name
    { s with
        player_id_to_info :=
          aupdate player_id { info with «alias» := a' } s.player_id_to_info
        players_list := updateFirstPlayer player_id a' s.players_list
        aliases :=
          if «alias» = "" then aremove original_name s.aliases
          else aupdate original_name «alias» s.aliases }
where
  -- the source's `for p in self._players_list: ... break` in-place update of
  -- the first matching row
  updateFirstPlayer (pid : Nat) (a' : Option String) :
      List PlayerRec → List PlayerRec
    | [] => []
    | p :: t =>
      if p.player_id = pid then { p with «alias» := a' } :: t
      else p :: updateFirstPlayer pid a' t

/-- Is this zone row the open zone of `char`? -/
def isOpenFor (char : Option String) (z : ZoneRec) : Bool :=
  z.character_name = char ∧ z.left_time = none

/-- The most recent open zone for a character (the source scans
`_zones_list` from the end). -/
def findLastOpen (char : Option String) (zs : List ZoneRec) : Option ZoneRec :=
  zs.reverse.find? (isOpenFor char)

/-- Close the most recent open zone of `char` at time `t` (in-place mutation
of that row in the source). -/
def closeLastOpen (char : Option String) (t : Int) (zs : List ZoneRec) :
    List ZoneRec :=
  (closeFirst zs.reverse).reverse
where
  closeFirst : List ZoneRec → List ZoneRec
    | [] => []
    | z :: t' =>
      if isOpenFor char z then { z with left_time := some t } :: t'
      else z :: closeFirst t'

/-- `create_zone_entry`: reuse the still-open identical zone, otherwise close
the previous open zone (if any) and append a fresh instance. -/
def create_zone_entry (s : PandasDataStore) (name : String)
    (character_name : Option String) (entered_time : Int)
    (log_date : Option String) : Nat × PandasDataStore :=
  match findLastOpen character_name s.zones_list with
  | some z =>
    if z.name = name then (z.zone_id, s)
    else
      let zs := closeLastOpen character_name entered_time s.zones_list
      appendFresh s zs
  | none => appendFresh s s.zones_list
where
  appendFresh (s : PandasDataStore) (zs : List ZoneRec) : Nat × PandasDataStore :=
    let zid := s.next_zone_id
    (zid,
     { s with
        next_zone_id := zid + 1
        zones_list := zs ++
          [{ zone_id := zid, name := name, character_name := character_name,
             entered_time := entered_time, left_time := none, log_date := log_date }] })

/-- `get_current_zone_id`. -/
def get_current_zone_id (s : PandasDataStore) (char : Option String) : Option Nat :=
  (findLastOpen char s.zones_list).map (·.zone_id)

/-- `insert_damage_event`: returns the sentinel `-1` without touching the
store when both damage fields are zero. -/
def insert_damage_event (s : PandasDataStore) (event : DamageEvent)
    (zone_id : Option Nat) : Int × PandasDataStore :=
  if event.health_dmg = 0 ∧ event.armor_dmg = 0 then (-1, s)
  else
    let (pid, s₁) := get_or_create_player s event.player_name
    let eid := s₁.next_event_id
    ((eid : Int),
     { s₁ with
        next_event_id := eid + 1
        events_list := s₁.events_list ++
          [{ event_id := eid, zone_id := zone_id, npc_id := event.npc_id,
             npc_name := event.npc_name, player_id := pid,
             health_dmg := event.health_dmg, armor_dmg := event.armor_dmg,
             aggro_percent := event.aggro_percent, timestamp := event.timestamp,
             character_name := event.character_name }] })

/-- The 9-tuples handed to `insert_damage_events_batch` by `_flush_batch`. -/
structure BatchTuple where
  zone_id : Nat
  npc_id : Nat
  npc_name : String
  player_id : Nat
  health_dmg : Nat
  armor_dmg : Nat
  aggro_percent : Option String
  timestamp : Int
  character_name : Option String
deriving DecidableEq, Repr

/-- The per-tuple append of `insert_damage_events_batch`. -/
def insertTupleStep (st : PandasDataStore) (e : BatchTuple) : PandasDataStore :=
  let eid := st.next_event_id
  { st with
      next_event_id := eid + 1
      events_list := st.events_list ++
        [{ event_id := eid, zone_id := some e.zone_id, npc_id := e.npc_id,
           npc_name := e.npc_name, player_id := e.player_id,
           health_dmg := e.health_dmg, armor_dmg := e.armor_dmg,
           aggro_percent := e.aggro_percent, timestamp := e.timestamp,
           character_name := e.character_name }]}

/-- `insert_damage_events_batch`: unconditionally appends every tuple (no
zero-damage filtering here) and returns the count. -/
def insert_damage_events_batch (s : PandasDataStore) (events : List BatchTuple) :
    PandasDataStore × Nat :=
  if events = [] then (s, 0)
  else (events.foldl insertTupleStep s, events.length)

/-- The dedup signature of a stored event row. -/
def eventKey (e : EventRec) : EventKey :=
  (e.zone_id, e.npc_id, e.player_id, e.health_dmg, e.armor_dmg)

/-- `get_all_existing_event_keys`: all signatures, restricted to the zones of
one log date when a truthy date is given.  (A Python `set` is modelled as the
list of its elements; only membership is ever consulted.) -/
def get_all_existing_event_keys (s : PandasDataStore) (log_date : Option String) :
    List EventKey :=
  if s.events_list = [] then []
  else
    match log_date with
    | some d =>
      if d = "" then s.events_list.map eventKey
      else
        let zone_ids := (s.zones_list.filter (fun z => z.log_date = some d)).map (·.zone_id)
        (s.events_list.filter (fun e =>
          match e.zone_id with
          | some z => z ∈ zone_ids
          | none => false)).map eventKey
    | none => s.events_list.map eventKey

/-- `add_wisdom`. -/
def add_wisdom (s : PandasDataStore) (zone_id : Nat) (amount : Nat) :
    PandasDataStore :=
  { s with wisdom_list := s.wisdom_list ++ [{ zone_id := zone_id, amount := amount }] }

/-- `clear_all_data`: the method clears the four collections and the lookup
indices, then evaluates `self._zone_key_to_id.clear()`.  No `_zone_key_to_id`
attribute is ever assigned on `PandasDataStore` (`__init__` creates none and
no other method sets one), so that access raises `AttributeError` before the
three identifier counters are reset.  The result pairs the partially mutated
store with the raised exception. -/
def clear_all_data (s : PandasDataStore) : PandasDataStore × Option String :=
  ({ s with
      players_list := [], zones_list := [], events_list := [], wisdom_list := []
      player_name_to_id := [], player_id_to_info := [] },
   some "AttributeError: _zone_key_to_id")

/-! ## Stable sorting

Python's `list.sort` and pandas' groupby output ordering are modelled with a
structurally recursive stable insertion sort: `sortStable lt` places each
element after every earlier element it is not strictly `lt`-before, which is
exactly the order any stable sort produces for the comparator. -/

/-- Insert `x` behind all elements it does not strictly precede. -/
def insStable (lt : α → α → Bool) (x : α) : List α → List α
  | [] => [x]
  | y :: ys => if lt x y then x :: y :: ys else y :: insStable lt x ys

/-- Stable sort: `lt a b` means `a` must come strictly before `b`. -/
def sortStable (lt : α → α → Bool) (l : List α) : List α :=
  l.foldl (fun acc x => insStable lt x acc) []

/-! ## Store queries -/

/-- A result row of the grouped damage queries (the Python result dicts).
`player_id` and `original_name` are optional/defaulted because
`group_damage_by_alias` reads them with `dict.get`. -/
structure Row where
  player_id : Option Nat
  original_name : String
  «alias» : Option String
  display_name : String
  health_dmg : Nat
  armor_dmg : Nat
  total_dmg : Nat
  kills : Nat
  first_hit : Option Int
  last_hit : Option Int
deriving DecidableEq, Repr

/-- `_get_display_name`. -/
def get_display_name (s : PandasDataStore) (pid : Nat) : String :=
  match alookup pid s.player_id_to_info with
  | some info => match info.«alias» with
    | some a => a
    | none => info.name
  | none => "Unknown"

/-- `_get_original_name`. -/
def get_original_name (s : PandasDataStore) (pid : Nat) : String :=
  match alookup pid s.player_id_to_info with
  | some info => info.name
  | none => "Unknown"

/-- `_get_alias`. -/
def get_alias (s : PandasDataStore) (pid : Nat) : Option String :=
  match alookup pid s.player_id_to_info with
  | some info => info.«alias»
  | none => none

/-- Minimum of a nonempty list via `foldl` (pandas `min` aggregate). -/
def foldMin (x : Int) (xs : List Int) : Int := xs.foldl min x

/-- Maximum of a nonempty list via `foldl` (pandas `max` aggregate). -/
def foldMax (x : Int) (xs : List Int) : Int := xs.foldl max x

/-- First-occurrence deduplication (pandas `nunique` counts, groupby keys). -/
def dedupFirst [DecidableEq α] (l : List α) : List α :=
  l.foldl (fun acc x => if x ∈ acc then acc else acc ++ [x]) []

/-- The events of one zone that carry damage (the query filter mask). -/
def zoneDamageEvents (s : PandasDataStore) (zone_id : Nat) : List EventRec :=
  s.events_list.filter (fun e =>
    e.zone_id = some zone_id ∧ (0 < e.health_dmg ∨ 0 < e.armor_dmg))

/-- One grouped row of `get_damage_by_zone` for player `pid` over the filtered
events `es` (nonempty by construction). -/
def buildRow (s : PandasDataStore) (pid : Nat) (es : List EventRec) : Row :=
  let mine := es.filter (fun e => e.player_id = pid)
  let h := (mine.map (·.health_dmg)).sum
  let a := (mine.map (·.armor_dmg)).sum
  let k := (dedupFirst (mine.map (·.npc_id))).length
  let ts := mine.map (·.timestamp)
  let fh : Option Int := match ts with
    | [] => none
    | t :: tr => some (foldMin t tr)
  let lh : Option Int := match ts with
    | [] => none
    | t :: tr => some (foldMax t tr)
  { player_id := some pid, original_name := get_original_name s pid,
    «alias» := get_alias s pid, display_name := get_display_name s pid,
    health_dmg := h, armor_dmg := a, total_dmg := h + a, kills := k,
    first_hit := fh, last_hit := lh }

/-- `get_damage_by_zone`: filter, group by `player_id` (pandas emits group
keys in ascending order), aggregate, and sort by `total_dmg` descending.
`sort_values` leaves tie order unspecified; the model uses a stable sort, and
every claim is evaluated on tie-free data. -/
def get_damage_by_zone (s : PandasDataStore) (zone_id : Nat) : List Row :=
  let es := zoneDamageEvents s zone_id
  if es = [] then []
  else
    let pids := sortStable (fun x y => x < y) (dedupFirst (es.map (·.player_id)))
    let rows := pids.map (fun pid => buildRow s pid es)
    sortStable (fun x y => y.total_dmg < x.total_dmg) rows

/-- `get_zone_combat_times`: first hit, last hit, distinct targets of a zone. -/
def get_zone_combat_times (s : PandasDataStore) (zone_id : Nat) :
    Option Int × Option Int × Nat :=
  let es := zoneDamageEvents s zone_id
  match es.map (·.timestamp) with
  | [] => (none, none, 0)
  | t :: tr =>
    (some (foldMin t tr), some (foldMax t tr),
     (dedupFirst (es.map (·.npc_id))).length)

/-! ## `group_damage_by_alias` (the pure alias grouper) -/

/-- A merged output row of `group_damage_by_alias`. -/
structure MergedRow where
  display_name : String
  player_ids : List (Option Nat)
  original_names : List String
  health_dmg : Nat
  armor_dmg : Nat
  total_dmg : Nat
  kills : Nat
  first_hit : Option Int
  last_hit : Option Int
deriving DecidableEq, Repr

/-- The fresh group created on first sight of a display name. -/
def newMerged (key : String) : MergedRow :=
  { display_name := key, player_ids := [], original_names := [],
    health_dmg := 0, armor_dmg := 0, total_dmg := 0, kills := 0,
    first_hit := none, last_hit := none }

/-- Fold one row into its group: the body of the `for d in data` loop. -/
def mergeRow (g : MergedRow) (d : Row) : MergedRow :=
  { g with
      player_ids := g.player_ids ++ [d.player_id]
      original_names := g.original_names ++ [d.original_name]
      health_dmg := g.health_dmg + d.health_dmg
      armor_dmg := g.armor_dmg + d.armor_dmg
      total_dmg := g.total_dmg + d.total_dmg
      kills := g.kills + d.kills
      first_hit :=
        match d.first_hit with
        | none => g.first_hit
        | some df =>
          match g.first_hit with
          | none => some df
          | some gf => if df < gf then some df else some gf
      last_hit :=
        match d.last_hit with
        | none => g.last_hit
        | some dl =>
          match g.last_hit with
          | none => some dl
          | some gl => if gl < dl then some dl else some gl }

/-- One iteration of the `for d in data` grouping loop. -/
def groupStep (acc : List (String × MergedRow)) (d : Row) :
    List (String × MergedRow) :=
  let key := d.display_name
  match alookup key acc with
  | some g => aupdate key (mergeRow g d) acc
  | none => acc ++ [(key, mergeRow (newMerged key) d)]

/-- The `grouped` dict after the loop: an insertion-ordered association list. -/
def groupFold (data : List Row) : List (String × MergedRow) :=
  data.foldl groupStep []

/-- `group_damage_by_alias`: group by display name, then sort the merged rows
by `total_dmg` descending (`list.sort` is stable). -/
def group_damage_by_alias (data : List Row) : List MergedRow :=
  if data = [] then []
  else
    sortStable (fun x y => y.total_dmg < x.total_dmg)
      ((groupFold data).map (·.2))

/-! ## `LogParser` -/

/-- `BATCH_SIZE`. -/
def BATCH_SIZE : Nat := 1000

/-- `LogParser` state.  `current_date` is a day index (the source keeps a
midnight-normalized `datetime`); `zone_debounce_seconds` is 30 by default. -/
structure LogParser where
  current_character : Option String
  current_zone : Option ZoneInfo
  current_zone_id : Option Nat
  current_date : Int
  last_timestamp : Option Int
  pending_corpse : Option (Nat × String × Int)
  log_date : Option String
  batch_mode : Bool
  pending_events : List DamageEvent
  seen_events : List EventKey
  zones_created : List ((String × Option String) × Nat)
  last_zone_name : Option String
  last_zone_time : Option Int
  zone_debounce_seconds : Int
deriving DecidableEq, Repr

/-- `LogParser.__init__`: `day0` is the day of `datetime.now()` (midnight
normalized), an environment input. -/
def initParser (day0 : Int) : LogParser :=
  { current_character := none, current_zone := none, current_zone_id := none
    current_date := day0, last_timestamp := none, pending_corpse := none
    log_date := none, batch_mode := false, pending_events := []
    seen_events := [], zones_created := [], last_zone_name := none
    last_zone_time := none, zone_debounce_seconds := 30 }

/-- Is year `y` a leap year (`datetime`'s Gregorian calendar)? -/
def isLeap (y : Int) : Bool :=
  (y % 4 = 0 ∧ ¬ y % 100 = 0) ∨ y % 400 = 0

/-- Days in a month of the Gregorian calendar. -/
def daysInMonth (y m : Int) : Int :=
  if m = 2 then (if isLeap y then 29 else 28)
  else if m = 4 ∨ m = 6 ∨ m = 9 ∨ m = 11 then 30
  else 31

/-- Day index of a civil date (days since 1970-01-01, Hinnant's algorithm —
what `datetime` arithmetic amounts to at day granularity). -/
def daysFromCivil (y m d : Int) : Int :=
  let y' := if m ≤ 2 then y - 1 else y
  let era := (if 0 ≤ y' then y' else y' - 399) / 400
  let yoe := y' - era * 400
  let mp := (m + 9) % 12
  let doy := (153 * mp + 2) / 5 + d - 1
  let doe := yoe * 365 + yoe / 4 - yoe / 100 + doy
  era * 146097 + doe - 719468

/-- Split a character list on a separator (the pieces between occurrences,
`String.split` on one character). -/
def splitOnChar (c : Char) : List Char → List (List Char)
  | [] => [[]]
  | x :: xs =>
    if x = c then [] :: splitOnChar c xs
    else
      match splitOnChar c xs with
      | [] => [[x]]
      | g :: gs => (x :: g) :: gs

/-- `datetime.strptime(_, '%Y-%m-%d')`: valid `Y-M-D` digit triples (year
1..9999, month/day in calendar range; `strptime` accepts unpadded fields) to
a day index, `none` when `strptime` raises. -/
def dateToDay (s : String) : Option Int :=
  match splitOnChar '-' s.data with
  | [ys, ms, ds] =>
    if ys ≠ [] ∧ ys.all Char.isDigit ∧ ys.length ≤ 4 ∧
       ms ≠ [] ∧ ms.all Char.isDigit ∧ ms.length ≤ 2 ∧
       ds ≠ [] ∧ ds.all Char.isDigit ∧ ds.length ≤ 2 then
      let y : Int := natOfDigits ys
      let m : Int := natOfDigits ms
      let d : Int := natOfDigits ds
      if 1 ≤ y ∧ y ≤ 9999 ∧ 1 ≤ m ∧ m ≤ 12 ∧ 1 ≤ d ∧ d ≤ daysInMonth y m then
        some (daysFromCivil y m d)
      else none
    else none
  | _ => none

/-- `set_log_date`: records the string and re-anchors `current_date`; an
unparsable date leaves the anchor untouched (`except: pass`). -/
def set_log_date (p : LogParser) (date_str : String) : LogParser :=
  { p with
      log_date := some date_str
      current_date := (dateToDay date_str).getD p.current_date }

/-- `reset`. -/
def parserReset (p : LogParser) : LogParser :=
  { p with
      current_character := none, current_zone := none, current_zone_id := none
      last_timestamp := none, pending_corpse := none, pending_events := []
      seen_events := [], zones_created := [], last_zone_name := none
      last_zone_time := none }

/-- `start_batch_mode`. -/
def start_batch_mode (p : LogParser) (existing_events : List EventKey) : LogParser :=
  { p with
      batch_mode := true, pending_events := [], seen_events := existing_events
      zones_created := [] }

/-- `parse_timestamp` on a seconds-since-midnight value (the string has been
taken apart by `hmsToSec`): combine with the current day anchor, bump the
anchor by one day when the result would move backwards. -/
def parse_timestamp (p : LogParser) (sod : Nat) : Int × LogParser :=
  let result : Int := p.current_date * 86400 + sod
  match p.last_timestamp with
  | some l =>
    if result < l then
      let d' := p.current_date + 1
      let r' : Int := d' * 86400 + sod
      (r', { p with current_date := d', last_timestamp := some r' })
    else (result, { p with last_timestamp := some result })
  | none => (result, { p with last_timestamp := some result })

/-- Python truthiness of an optional id (`if not zone_id`, `if not player_id`:
`None` and `0` are falsy). -/
def truthyId : Option Nat → Bool
  | none => false
  | some 0 => false
  | some (_ + 1) => true

/-- The accumulator of the `_flush_batch` loop: the store (zones may be
created on the way), the seen-signature set, the per-batch zone cache, and
the tuples to insert. -/
abbrev FlushAcc :=
  PandasDataStore × List EventKey × List ((String × Option String) × Nat) ×
    List BatchTuple

/-- One buffered event of the `_flush_batch` loop: resolve the player id and
the zone id (buffered id, per-batch cache, or a fresh `create_zone_entry`)
with Python truthiness, then drop the event if its dedup signature was
already seen. -/
def flushStep (log_date : Option String) (player_ids : List (String × Nat))
    (acc : FlushAcc) (e : DamageEvent) : FlushAcc :=
  let (st, seen, zc, out) := acc
  let pidOpt := alookup e.player_name player_ids
  if truthyId pidOpt then
    let pid := pidOpt.getD 0
    let (zidOpt, st', zc') :=
      if truthyId e.zone_id then (e.zone_id, st, zc)
      else
        let cached := alookup (e.zone_name, e.character_name) zc
        if truthyId cached then (cached, st, zc)
        else
          let (zid, st₂) := create_zone_entry st e.zone_name e.character_name
            e.timestamp log_date
          (some zid, st₂, aupdate (e.zone_name, e.character_name) zid zc)
    if truthyId zidOpt then
      let zid := zidOpt.getD 0
      let key : EventKey := (some zid, e.npc_id, pid, e.health_dmg, e.armor_dmg)
      if key ∈ seen then (st', seen, zc', out)
      else
        (st', key :: seen, zc',
         out ++ [{ zone_id := zid, npc_id := e.npc_id, npc_name := e.npc_name,
                   player_id := pid, health_dmg := e.health_dmg,
                   armor_dmg := e.armor_dmg, aggro_percent := e.aggro_percent,
                   timestamp := e.timestamp, character_name := e.character_name }])
    else (st', seen, zc', out)
  else (st, seen, zc, out)

/-- `_flush_batch`: batch-create the players of the buffer, then fold
`flushStep` over the buffer and hand the surviving tuples to
`insert_damage_events_batch`. -/
def flush_batch (s : PandasDataStore) (p : LogParser) :
    PandasDataStore × LogParser × Nat :=
  if p.pending_events = [] then (s, p, 0)
  else
    let names := dedupFirst (p.pending_events.map (·.player_name))
    let (player_ids, s₁) := get_or_create_players_batch s names
    let (s₂, seen', zc', out) := p.pending_events.foldl
      (flushStep p.log_date player_ids) (s₁, p.seen_events, p.zones_created, [])
    let (s₃, count) := insert_damage_events_batch s₂ out
    (s₃, { p with pending_events := [], seen_events := seen', zones_created := zc' }, count)

/-- `end_batch_mode`. -/
def end_batch_mode (s : PandasDataStore) (p : LogParser) :
    PandasDataStore × LogParser × Nat :=
  let p₁ := { p with batch_mode := false }
  let (s', p₂, count) := flush_batch s p₁
  (s', { p₂ with pending_events := [] }, count)

/-- `parse_line`.  `now` is the value `datetime.now()` would return (used only
for a corpse line without a timestamp prefix).  The streaming event queue is
presentation plumbing and not modelled.  A `ValueError` escaping from
`strptime` on an out-of-range `\d{2}` time is raised before the branch's first
state mutation and swallowed by every caller, so such a line is a no-op. -/
def parse_line (now : Int) (s : PandasDataStore) (p : LogParser) (line : String) :
    PandasDataStore × LogParser × Option DamageEvent :=
  match classifyLine line with
  | .charL nm =>
    (s, { p with current_character := some nm }, none)
  | .zoneL tsStr zone_name =>
    match hmsToSec tsStr with
    | none => (s, p, none)
    | some sod =>
      let (timestamp, p₁) := parse_timestamp p sod
      let zi : ZoneInfo :=
        { name := zone_name, entered_time := timestamp,
          character_name := p₁.current_character }
      if p₁.last_zone_name = some zone_name ∧
         (match p₁.last_zone_time with
          | some lt => decide (timestamp - lt < p₁.zone_debounce_seconds)
          | none => false) = true then
        -- debounced duplicate: refresh the display state only
        (s, { p₁ with current_zone := some zi }, none)
      else
        let p₂ := { p₁ with
          current_zone := some zi, last_zone_name := some zone_name,
          last_zone_time := some timestamp }
        let (zone_id, s₁) := create_zone_entry s zone_name p₂.current_character
          timestamp p₂.log_date
        let p₃ := { p₂ with current_zone_id := some zone_id }
        if p₃.batch_mode then
          (s₁, { p₃ with zones_created :=
                  aupdate (zone_name, p₃.current_character) zone_id p₃.zones_created },
           none)
        else (s₁, p₃, none)
  | .corpseL npc_id npc_name tsOpt =>
    match tsOpt with
    | some tstr =>
      match hmsToSec tstr with
      | none => (s, p, none)
      | some sod =>
        let (timestamp, p₁) := parse_timestamp p sod
        (s, { p₁ with pending_corpse := some (npc_id, stripStr npc_name, timestamp) },
         none)
    | none =>
      (s, { p with pending_corpse := some (npc_id, stripStr npc_name, now) }, none)
  | .restL dm wm =>
    match dm, p.pending_corpse with
    | some d, some pc =>
      let (npc_id, npc_name, corpse_timestamp) := pc
      if d.health_dmg = 0 ∧ d.armor_dmg = 0 then (s, p, none)
      else
        let event : DamageEvent :=
          { player_name := stripStr d.player_name, health_dmg := d.health_dmg,
            armor_dmg := d.armor_dmg, aggro_percent := d.aggro_raw,
            npc_id := npc_id, npc_name := npc_name,
            zone_name := (p.current_zone.map (·.name)).getD "Unknown",
            timestamp := corpse_timestamp, character_name := p.current_character,
            zone_id := p.current_zone_id }
        if p.batch_mode then
          let p₁ := { p with pending_events := p.pending_events ++ [event] }
          if BATCH_SIZE ≤ p₁.pending_events.length then
            let (s', p₂, _) := flush_batch s p₁
            (s', p₂, some event)
          else (s, p₁, some event)
        else
          let (_, s') := insert_damage_event s event p.current_zone_id
          (s', p, some event)
    | _, _ =>
      match wm, truthyId p.current_zone_id with
      | some amount, true =>
        (add_wisdom s (p.current_zone_id.getD 0) amount, p, none)
      | _, _ => (s, p, none)

/-! ## Ingestion runners -/

/-- Feed lines one at a time (streaming mode / the batch read loop).
`nowf k` is the wall clock at line index `k`. -/
def runLinesFrom (nowf : Nat → Int) : Nat → PandasDataStore → LogParser →
    List String → PandasDataStore × LogParser
  | _, s, p, [] => (s, p)
  | k, s, p, l :: ls =>
    let (s', p', _) := parse_line (nowf k) s p l
    runLinesFrom nowf (k + 1) s' p' ls

/-- `BackgroundLoader._load_worker` without the presentation callbacks and
with cancellation never requested: build a fresh parser anchored at `day0`
(`datetime.now()`), set the log date, seed the dedup set from the store, parse
every line in batch mode (flushing every `BATCH_SIZE` events), and flush the
remainder; returns the resulting store. -/
def load_worker (nowf : Nat → Int) (day0 : Int) (s : PandasDataStore)
    (lines : List String) (log_date : String) : PandasDataStore :=
  let p0 := set_log_date (initParser day0) log_date
  let existing := get_all_existing_event_keys s (some log_date)
  let p1 := start_batch_mode p0 existing
  let (s', p2) := runLinesFrom nowf 0 s p1 lines
  (end_batch_mode s' p2).1

/-! ## Derived definitions used by the verification statements -/

/-- Feed a list of seconds-since-midnight values through `parse_timestamp`,
collecting the produced absolute timestamps. -/
def parseTimestamps (p : LogParser) : List Nat → List Int × LogParser
  | [] => ([], p)
  | sod :: rest =>
    let (t, p') := parse_timestamp p sod
    let (ts, p'') := parseTimestamps p' rest
    (t :: ts, p'')

/-- The store operations closed over by the zero-damage invariant claim:
single inserts, raw batch inserts, batch control, and whole parsed lines. -/
inductive StoreOp where
  | insertOne (event : DamageEvent) (zone_id : Option Nat)
  | insertBatchRaw (events : List BatchTuple)
  | line (now : Int) (l : String)
  | startBatch (existing : List EventKey)
  | endBatch
deriving Repr

/-- Apply one store operation to a store/parser pair. -/
def applyOp (sp : PandasDataStore × LogParser) : StoreOp → PandasDataStore × LogParser
  | .insertOne e zid => ((insert_damage_event sp.1 e zid).2, sp.2)
  | .insertBatchRaw es => ((insert_damage_events_batch sp.1 es).1, sp.2)
  | .line now l =>
    let (s', p', _) := parse_line now sp.1 sp.2 l
    (s', p')
  | .startBatch ex => (sp.1, start_batch_mode sp.2 ex)
  | .endBatch =>
    let (s', p', _) := end_batch_mode sp.1 sp.2
    (s', p')

/-- Apply a sequence of store operations. -/
def applyOps (sp : PandasDataStore × LogParser) (ops : List StoreOp) :
    PandasDataStore × LogParser :=
  ops.foldl applyOp sp

/-- An event record carries damage. -/
def hasDamage (e : EventRec) : Prop :=
  e.health_dmg ≠ 0 ∨ e.armor_dmg ≠ 0

/-- The zero-damage store invariant: no stored event has both fields zero. -/
def StoreInv (s : PandasDataStore) : Prop :=
  ∀ e ∈ s.events_list, hasDamage e

/-- A buffered parser event carries damage. -/
def pendingDamage (ev : DamageEvent) : Prop :=
  ev.health_dmg ≠ 0 ∨ ev.armor_dmg ≠ 0

/-- The system-level zero-damage invariant (store plus batch buffer). -/
def SysInv (sp : PandasDataStore × LogParser) : Prop :=
  StoreInv sp.1 ∧ ∀ ev ∈ sp.2.pending_events, pendingDamage ev

/-- The aggregate-field projection of a merged row (everything except the
per-member traceability lists, whose order depends on input order). -/
def aggProj (g : MergedRow) : String × Nat × Nat × Nat × Nat × Option Int × Option Int :=
  (g.display_name, g.health_dmg, g.armor_dmg, g.total_dmg, g.kills,
   g.first_hit, g.last_hit)

/-- The aggregate of one display-name key computed directly from the rows:
sums of the members' fields, `Option`-minimum of first hits, `Option`-maximum
of last hits. -/
def keyAgg (key : String) (data : List Row) : MergedRow :=
  (data.filter (fun d => d.display_name = key)).foldl mergeRow (newMerged key)

/-- `Option`-valued minimum (identity `none`). -/
def omin : Option Int → Option Int → Option Int
  | none, y => y
  | some x, none => some x
  | some x, some y => some (min x y)

/-- `Option`-valued maximum (identity `none`). -/
def omax : Option Int → Option Int → Option Int
  | none, y => y
  | some x, none => some x
  | some x, some y => some (max x y)

/-- The spec's example log lines of the end-to-end scenario (§8), verbatim. -/
def exampleSpecLines : List String :=
  [ "[10:00:00] LOADING LEVEL (AreaForest)"
  , "[10:00:05] ProcessTalkScreen(42, Search Corpse of Wolf, ...)"
  , "[10:00:05] Alice: 50 health dmg 10 armor dmg Aggro (at death): 100.0%"
  , "[10:00:06] Bob: 30 health dmg"
  , "[10:00:10] ProcessTalkScreen(43, Search Corpse of Bear, ...)"
  , "[10:00:10] Alice: 100 health dmg" ]

/-- The same scenario written in the line grammar the source's regexes accept:
no parentheses around the zone name after `LOADING LEVEL`, and damage-report
lines without a `[HH:MM:SS]` prefix (the damage pattern takes everything
before the first colon as the player name, and event timestamps come from the
preceding corpse line). -/
def exampleCodeLines : List String :=
  [ "[10:00:00] LOADING LEVEL AreaForest"
  , "[10:00:05] ProcessTalkScreen(42, Search Corpse of Wolf, ...)"
  , "Alice: 50 health dmg 10 armor dmg Aggro (at death): 100.0%"
  , "Bob: 30 health dmg"
  , "[10:00:10] ProcessTalkScreen(43, Search Corpse of Bear, ...)"
  , "Alice: 100 health dmg" ]

/-- Run the example through a fresh streaming parser and store. -/
def exampleRun (lines : List String) : PandasDataStore × LogParser :=
  runLinesFrom (fun _ => 0) 0 (initStore []) (initParser 0) lines

/-- A two-zone log file: each target is searched and damaged inside its own
zone instance. -/
def twoZoneLines : List String :=
  [ "[10:00:00] LOADING LEVEL AreaOne"
  , "[10:00:01] ProcessTalkScreen(7, Search Corpse of Rat, x)"
  , "Alice: 10 health dmg"
  , "[10:01:00] LOADING LEVEL AreaTwo"
  , "[10:01:01] ProcessTalkScreen(8, Search Corpse of Bat, x)"
  , "Alice: 20 health dmg" ]

/-- First batch import of the two-zone file into an empty store. -/
def twoZoneRun1 : PandasDataStore :=
  load_worker (fun _ => 0) 0 (initStore []) twoZoneLines "2024-01-01"

/-- Second batch import of the identical file and log date. -/
def twoZoneRun2 : PandasDataStore :=
  load_worker (fun _ => 0) 0 twoZoneRun1 twoZoneLines "2024-01-01"

/-- Two query rows that share a display name but come from different players
(used to exhibit order sensitivity of the alias grouper). -/
def rowA : Row :=
  { player_id := some 1, original_name := "anna", «alias» := some "Team",
    display_name := "Team", health_dmg := 10, armor_dmg := 0, total_dmg := 10,
    kills := 1, first_hit := some 5, last_hit := some 9 }

/-- Second row with the same display name. -/
def rowB : Row :=
  { rowA with player_id := some 2, original_name := "bert" }

/-! ## Single-zone replay: statement definitions for batch re-import -/

/-- A log line that keeps a batch import inside one zone: no character
switch, and every zone-transition line names the same zone `A`.  Corpse,
damage, wisdom and unrecognized lines are unrestricted. -/
def singleZoneLineB (A : String) (l : String) : Bool :=
  match classifyLine l with
  | .charL _ => false
  | .zoneL _ z => z = A
  | .corpseL _ _ _ => true
  | .restL _ _ => true

/-- Equality of two parsers on every field except the dedup set
`seen_events`. -/
structure ParserMatch (q p : LogParser) : Prop where
  cchar : q.current_character = p.current_character
  czone : q.current_zone = p.current_zone
  czid : q.current_zone_id = p.current_zone_id
  cdate : q.current_date = p.current_date
  lts : q.last_timestamp = p.last_timestamp
  pcorpse : q.pending_corpse = p.pending_corpse
  ldate : q.log_date = p.log_date
  bm : q.batch_mode = p.batch_mode
  pend : q.pending_events = p.pending_events
  zc : q.zones_created = p.zones_created
  lzn : q.last_zone_name = p.last_zone_name
  lzt : q.last_zone_time = p.last_zone_time
  dbs : q.zone_debounce_seconds = p.zone_debounce_seconds

/-- Equality of two stores on every field except `wisdom_list`
(`add_wisdom` appends unconditionally, so wisdom rows repeat on
re-import). -/
structure StoreMatch (t s : PandasDataStore) : Prop where
  players : t.players_list = s.players_list
  zones : t.zones_list = s.zones_list
  events : t.events_list = s.events_list
  pmap : t.player_name_to_id = s.player_name_to_id
  pinfo : t.player_id_to_info = s.player_id_to_info
  al : t.aliases = s.aliases
  np : t.next_player_id = s.next_player_id
  nz : t.next_zone_id = s.next_zone_id
  ne : t.next_event_id = s.next_event_id

/-- Mid-import invariant of a single-zone batch run: the store holds exactly
one zone row `Z` — open, character-free, named `A`, tagged with the run's
log date, with a truthy id — the parser has that zone current, every stored
or buffered event carries `Z`'s id, every seen signature is a stored
signature, and player ids are truthy. -/
structure SingleZoneInv (A ld : String) (Z : ZoneRec)
    (s : PandasDataStore) (p : LogParser) : Prop where
  zones : s.zones_list = [Z]
  zname : Z.name = A
  zchar : Z.character_name = none
  zopen : Z.left_time = none
  zdate : Z.log_date = some ld
  zid : 1 ≤ Z.zone_id
  pdate : p.log_date = some ld
  pchar : p.current_character = none
  pzid : p.current_zone_id = some Z.zone_id
  pend : ∀ e ∈ p.pending_events, e.zone_id = some Z.zone_id
  stored : ∀ e ∈ s.events_list, e.zone_id = some Z.zone_id
  seen : ∀ key ∈ p.seen_events, key ∈ s.events_list.map eventKey
  pids : ∀ q ∈ s.player_name_to_id, 1 ≤ q.2
  pnext : 1 ≤ s.next_player_id

/-- One-run growth: the zone table is unchanged and the event table and
player index only receive appends. -/
def storeGrow (s t : PandasDataStore) : Prop :=
  t.zones_list = s.zones_list ∧
  (∃ u, t.events_list = s.events_list ++ u) ∧
  (∃ v, t.player_name_to_id = s.player_name_to_id ++ v)

/-- The store a batch run leaves behind: parse every line from index `k`,
then flush the remainder (`_load_worker`'s tail). -/
def finishRun (nowf : Nat → Int) (k : Nat) (s : PandasDataStore)
    (p : LogParser) (ls : List String) : PandasDataStore :=
  (end_batch_mode (runLinesFrom nowf k s p ls).1 (runLinesFrom nowf k s p ls).2).1

/-- The dedup signature `_flush_batch` computes for a buffered event whose
zone id is already truthy, under the player index `M`. -/
def flushKey (M : List (String × Nat)) (zid : Nat) (e : DamageEvent) : EventKey :=
  (some zid, e.npc_id, (alookup e.player_name M).getD 0, e.health_dmg, e.armor_dmg)

/-- The dedup signature of a batch tuple. -/
def tupleKey (t : BatchTuple) : EventKey :=
  (some t.zone_id, t.npc_id, t.player_id, t.health_dmg, t.armor_dmg)

/-! ## Helper lemmas -/

theorem parse_timestamp_cases (p : LogParser) (sod : Nat) :
    ∃ D : Int,
      parse_timestamp p sod =
        (D * 86400 + sod,
         { p with current_date := D, last_timestamp := some (D * 86400 + sod) }) ∧
      (D = p.current_date ∨ D = p.current_date + 1) := by
  unfold parse_timestamp
  cases h : p.last_timestamp with
  | none => exact ⟨p.current_date, by simp, Or.inl rfl⟩
  | some L =>
    by_cases hr : (p.current_date * 86400 + sod : Int) < L
    · exact ⟨p.current_date + 1, by simp [hr], Or.inr rfl⟩
    · exact ⟨p.current_date, by simp [hr], Or.inl rfl⟩

theorem parse_timestamp_mono (p : LogParser) (sod : Nat) (L : Int)
    (hL : p.last_timestamp = some L)
    (hG : L < (p.current_date + 1) * 86400) :
    L ≤ (parse_timestamp p sod).1 := by
  unfold parse_timestamp
  rw [hL]
  by_cases hr : (p.current_date * 86400 + sod : Int) < L
  · have h1 : L ≤ (p.current_date + 1) * 86400 + sod := by
      have : (0 : Int) ≤ sod := Int.ofNat_nonneg sod
      omega
    simpa [hr] using h1
  · simpa [hr] using not_lt.mp hr

theorem parseTimestamps_chain_from (sods : List Nat)
    (hv : ∀ x ∈ sods, x < 86400) :
    ∀ (p : LogParser) (t : Int), p.last_timestamp = some t →
      t < (p.current_date + 1) * 86400 →
      List.Chain' (· ≤ ·) (t :: (parseTimestamps p sods).1) := by
  induction sods with
  | nil => intro p t _ _; simp [parseTimestamps]
  | cons sod rest ih =>
    intro p t hlast hG
    have hs : sod < 86400 := hv sod (by simp)
    obtain ⟨D, heq, _⟩ := parse_timestamp_cases p sod
    have hmono : t ≤ (parse_timestamp p sod).1 := parse_timestamp_mono p sod t hlast hG
    have hrec := ih (fun x hx => hv x (by simp [hx]))
      (parse_timestamp p sod).2 (D * 86400 + sod)
      (by rw [heq]) (by rw [heq]; dsimp; omega)
    have hfst : (parse_timestamp p sod).1 = D * 86400 + sod := by rw [heq]
    simp only [parseTimestamps]
    refine List.Chain'.cons ?_ ?_
    · exact hmono
    · rw [hfst]
      exact hrec

/-! ## Claim theorems -/

/-- **C9.** Alias update for an unknown player id is a complete no-op: when
`player_id` has no entry in the id-to-info index, `update_player_alias`
returns the store unchanged (players, persisted aliases, everything), raising
nothing. -/
theorem C9_alias_update_unknown_noop (s : PandasDataStore) (player_id : Nat)
    («alias» : String) (h : alookup player_id s.player_id_to_info = none) :
    update_player_alias s player_id «alias» = s := by
  unfold update_player_alias
  rw [h]

/-- Witness for C9 at a concrete input. -/
theorem C9_alias_update_unknown_noop_witness :
    update_player_alias (initStore []) 5 "x" = initStore [] :=
  C9_alias_update_unknown_noop (initStore []) 5 "x" (by decide)

/-- **C2.** `clear_all_data` empties the four collections and the lookup
indices, but then raises `AttributeError` on the never-assigned
`_zone_key_to_id` attribute, so it does **not** complete normally and the
three identifier counters are **not** reset (they keep their prior values);
the alias mapping is untouched.  This contradicts the claim that the call
completes normally and resets the counters to 1: the code is at fault (the
method's own docstring says "Clear all data (start fresh)"). -/
theorem C2_clear_all_data_raises (s : PandasDataStore) :
    ((clear_all_data s).2).isSome = true ∧
    (clear_all_data s).1.players_list = [] ∧
    (clear_all_data s).1.zones_list = [] ∧
    (clear_all_data s).1.events_list = [] ∧
    (clear_all_data s).1.wisdom_list = [] ∧
    (clear_all_data s).1.next_player_id = s.next_player_id ∧
    (clear_all_data s).1.next_zone_id = s.next_zone_id ∧
    (clear_all_data s).1.next_event_id = s.next_event_id ∧
    (clear_all_data s).1.aliases = s.aliases :=
  ⟨rfl, rfl, rfl, rfl, rfl, rfl, rfl, rfl, rfl⟩

theorem hmsToSec_lt {s : String} {x : Nat} (h : hmsToSec s = some x) : x < 86400 := by
  unfold hmsToSec at h
  split at h
  · split at h
    · dsimp only at h
      split at h
      · rename_i hdigits hrange
        obtain ⟨h23, h59, h59'⟩ := hrange
        simp only [Option.some.injEq] at h
        omega
      · simp at h
    · simp at h
  · simp at h

/-- **C5.** Day-rollover monotonicity: absolute timestamps produced by
`parse_timestamp` over any sequence of valid `HH:MM:SS` strings within one run
are non-decreasing; concretely, `23:59:58` followed by `00:00:02` crosses one
day boundary and yields a 4-second gap (not a negative one). -/
theorem C5_day_rollover_monotonicity :
    (∀ (p₀ : LogParser) (sods : List Nat),
        (∀ x ∈ sods, ∃ str, hmsToSec str = some x) →
        List.Chain' (· ≤ ·) (parseTimestamps p₀ sods).1) ∧
    hmsToSec "23:59:58" = some 86398 ∧ hmsToSec "00:00:02" = some 2 ∧
    (parseTimestamps (initParser 0) [86398, 2]).1 = [86398, 86402] ∧
    (86402 : Int) - 86398 = 4 ∧ (86402 : Int) / 86400 = (86398 : Int) / 86400 + 1 := by
  refine ⟨?_, by decide, by decide, by decide, by decide, by decide⟩
  intro p₀ sods hv
  have hv' : ∀ x ∈ sods, x < 86400 := fun x hx => by
    obtain ⟨str, hs⟩ := hv x hx; exact hmsToSec_lt hs
  cases sods with
  | nil => simp [parseTimestamps]
  | cons sod rest =>
    obtain ⟨D, heq, _⟩ := parse_timestamp_cases p₀ sod
    have hs : sod < 86400 := hv' sod (by simp)
    have hch := parseTimestamps_chain_from rest (fun x hx => hv' x (by simp [hx]))
      (parse_timestamp p₀ sod).2 (D * 86400 + sod) (by rw [heq]) (by rw [heq]; dsimp; omega)
    simp only [parseTimestamps]
    have hfst : (parse_timestamp p₀ sod).1 = D * 86400 + sod := by rw [heq]
    rw [hfst]
    exact hch

/-- Witness for C5: the hypotheses of the universally quantified part
discharged at the concrete rollover inputs. -/
theorem C5_day_rollover_monotonicity_witness :
    List.Chain' (· ≤ ·) (parseTimestamps (initParser 5) [86398, 2]).1 :=
  C5_day_rollover_monotonicity.1 (initParser 5) [86398, 2] (by
    intro x hx
    simp only [List.mem_cons, List.not_mem_nil, or_false] at hx
    rcases hx with h | h
    · exact ⟨"23:59:58", by rw [h]; decide⟩
    · exact ⟨"00:00:02", by rw [h]; decide⟩)

theorem parse_line_zone_debounced (now : Int) (s : PandasDataStore) (p : LogParser)
    (line tsStr zone_name : String) (sod : Nat) (t0 : Int)
    (hcl : classifyLine line = .zoneL tsStr zone_name)
    (hts : hmsToSec tsStr = some sod)
    (hname : p.last_zone_name = some zone_name)
    (ht0 : p.last_zone_time = some t0)
    (hdb : (parse_timestamp p sod).1 - t0 < p.zone_debounce_seconds) :
    parse_line now s p line =
      (s, { (parse_timestamp p sod).2 with
              current_zone :=
                some ⟨zone_name, (parse_timestamp p sod).1, p.current_character⟩ },
       none) := by
  obtain ⟨D, heq, _⟩ := parse_timestamp_cases p sod
  simp only [parse_line, hcl, hts]
  rw [heq]
  simp only [heq] at hdb
  simp [hname, ht0, hdb]

theorem parse_line_zone_normal (now : Int) (s : PandasDataStore) (p : LogParser)
    (line tsStr zone_name : String) (sod : Nat)
    (hcl : classifyLine line = .zoneL tsStr zone_name)
    (hts : hmsToSec tsStr = some sod)
    (hnd : ¬ (p.last_zone_name = some zone_name ∧
              ∃ t0, p.last_zone_time = some t0 ∧
                (parse_timestamp p sod).1 - t0 < p.zone_debounce_seconds)) :
    parse_line now s p line =
      ((create_zone_entry s zone_name p.current_character
          (parse_timestamp p sod).1 p.log_date).2,
       (let zid := (create_zone_entry s zone_name p.current_character
          (parse_timestamp p sod).1 p.log_date).1
        let p₂ := { (parse_timestamp p sod).2 with
          current_zone :=
            some ⟨zone_name, (parse_timestamp p sod).1, p.current_character⟩,
          last_zone_name := some zone_name,
          last_zone_time := some ((parse_timestamp p sod).1),
          current_zone_id := some zid }
        if p.batch_mode then
          { p₂ with zones_created :=
              aupdate (zone_name, p.current_character) zid p₂.zones_created }
        else p₂),
       none) := by
  obtain ⟨D, heq, _⟩ := parse_timestamp_cases p sod
  simp only [parse_line, hcl, hts]
  rw [heq]
  simp only [heq] at hnd
  by_cases h1 : p.last_zone_name = some zone_name
  · cases h2 : p.last_zone_time with
    | none => simp [h1, h2]; split <;> rfl
    | some t0 =>
      have h3 : ¬ ((D * 86400 + (sod : Int)) - t0 < p.zone_debounce_seconds) := by
        intro hlt
        exact hnd ⟨h1, t0, h2, hlt⟩
      simp [h1, h2, h3]; split <;> rfl
  · cases h2 : p.last_zone_time with
    | none => simp [h1, h2]; split <;> rfl
    | some t0 => simp [h1, h2]; split <;> rfl

theorem create_zone_entry_reuse (s : PandasDataStore) (n : String)
    (char : Option String) (t : Int) (d : Option String) (z : ZoneRec)
    (hz : findLastOpen char s.zones_list = some z) (hname : z.name = n) :
    create_zone_entry s n char t d = (z.zone_id, s) := by
  unfold create_zone_entry
  rw [hz]
  simp [hname]

theorem create_zone_entry_fresh_none (s : PandasDataStore) (n : String)
    (char : Option String) (t : Int) (d : Option String)
    (h : findLastOpen char s.zones_list = none) :
    create_zone_entry s n char t d =
      (s.next_zone_id,
       { s with
           next_zone_id := s.next_zone_id + 1,
           zones_list := s.zones_list ++
             [{ zone_id := s.next_zone_id, name := n, character_name := char,
                entered_time := t, left_time := none, log_date := d }] }) := by
  unfold create_zone_entry create_zone_entry.appendFresh
  rw [h]

theorem create_zone_entry_fresh_close (s : PandasDataStore) (n : String)
    (char : Option String) (t : Int) (d : Option String) (z : ZoneRec)
    (hz : findLastOpen char s.zones_list = some z) (hname : ¬ z.name = n) :
    create_zone_entry s n char t d =
      (s.next_zone_id,
       { s with
           next_zone_id := s.next_zone_id + 1,
           zones_list := closeLastOpen char t s.zones_list ++
             [{ zone_id := s.next_zone_id, name := n, character_name := char,
                entered_time := t, left_time := none, log_date := d }] }) := by
  unfold create_zone_entry create_zone_entry.appendFresh
  rw [hz]
  simp [hname]

theorem closeFirst_length (char : Option String) (t : Int) (zs : List ZoneRec) :
    (closeLastOpen.closeFirst char t zs).length = zs.length := by
  induction zs with
  | nil => rfl
  | cons z rest ih =>
    unfold closeLastOpen.closeFirst
    split
    · rfl
    · simpa using ih

theorem closeLastOpen_length (char : Option String) (t : Int) (zs : List ZoneRec) :
    (closeLastOpen char t zs).length = zs.length := by
  unfold closeLastOpen
  simp [closeFirst_length]

/-- **C10.** A zone-transition line suppressed by the debounce window leaves
`current_zone_id`, `last_zone_name` and `last_zone_time` untouched and does
not touch the store at all (so later damage events and wisdom awards keep
accumulating against the previously opened zone instance); only the display
`ZoneInfo` is refreshed to the new timestamp. -/
theorem C10_debounced_duplicate_frame (now : Int) (s : PandasDataStore)
    (p : LogParser) (line tsStr zone_name : String) (sod : Nat) (t0 : Int)
    (hcl : classifyLine line = .zoneL tsStr zone_name)
    (hts : hmsToSec tsStr = some sod)
    (hname : p.last_zone_name = some zone_name)
    (ht0 : p.last_zone_time = some t0)
    (hdb : (parse_timestamp p sod).1 - t0 < p.zone_debounce_seconds) :
    (parse_line now s p line).1 = s ∧
    (parse_line now s p line).2.1.current_zone_id = p.current_zone_id ∧
    (parse_line now s p line).2.1.last_zone_name = p.last_zone_name ∧
    (parse_line now s p line).2.1.last_zone_time = p.last_zone_time ∧
    (parse_line now s p line).2.1.current_zone =
      some ⟨zone_name, (parse_timestamp p sod).1, p.current_character⟩ ∧
    (parse_line now s p line).2.2 = none := by
  obtain ⟨D, heq, _⟩ := parse_timestamp_cases p sod
  rw [parse_line_zone_debounced now s p line tsStr zone_name sod t0 hcl hts hname ht0 hdb]
  rw [heq]
  exact ⟨rfl, rfl, rfl, rfl, rfl, rfl⟩

/-- Witness for C10 at a concrete debounced duplicate. -/
theorem C10_debounced_duplicate_frame_witness :
    (parse_line 0 (initStore [])
        { initParser 0 with
            last_zone_name := some "AreaOne",
            last_zone_time := some 36000, last_timestamp := some 36000,
            current_zone_id := some 1 }
        "[10:00:10] LOADING LEVEL AreaOne").1 = initStore [] ∧
    (parse_line 0 (initStore [])
        { initParser 0 with
            last_zone_name := some "AreaOne",
            last_zone_time := some 36000, last_timestamp := some 36000,
            current_zone_id := some 1 }
        "[10:00:10] LOADING LEVEL AreaOne").2.1.current_zone_id = some 1 := by
  have h := C10_debounced_duplicate_frame 0 (initStore [])
    { initParser 0 with
        last_zone_name := some "AreaOne",
        last_zone_time := some 36000, last_timestamp := some 36000,
        current_zone_id := some 1 }
    "[10:00:10] LOADING LEVEL AreaOne" "10:00:10" "AreaOne" 36010 36000
    (by decide) (by decide) rfl rfl (by decide)
  exact ⟨h.1, h.2.1⟩

/-- **C6 counterexample.** Two `LOADING LEVEL AreaOne` transitions exactly 30
seconds apart (elapsed = the default debounce threshold): the second line is
not debounced (`last_zone_time` advances to the new timestamp), yet **no new
ZoneInstance is created** — the store still holds exactly one instance,
because `create_zone_entry` reuses the still-open same-name zone.  The claim
as stated requires a new (second) instance. -/
theorem C6_counterexample :
    (runLinesFrom (fun _ => 0) 0 (initStore []) (initParser 0)
      ["[10:00:00] LOADING LEVEL AreaOne"]).1.zones_list.length = 1 ∧
    (runLinesFrom (fun _ => 0) 0 (initStore []) (initParser 0)
      ["[10:00:00] LOADING LEVEL AreaOne",
       "[10:00:30] LOADING LEVEL AreaOne"]).1.zones_list.length = 1 ∧
    (runLinesFrom (fun _ => 0) 0 (initStore []) (initParser 0)
      ["[10:00:00] LOADING LEVEL AreaOne",
       "[10:00:30] LOADING LEVEL AreaOne"]).2.last_zone_time = some 36030 := by
  exact ⟨by decide, by decide, by decide⟩

/-- **C6 (amended).** The debounce boundary is exclusive: with the same zone
name recorded, an elapsed time `≥ zone_debounce_seconds` (including exactly
equal) is **not** debounced — the parser takes the normal transition path,
advances `last_zone_time` to the new timestamp and calls the store's
`create_zone_entry`; but that call only creates a new ZoneInstance when the
character's open zone is absent or differently named — when the same-name
zone is still open it returns the existing id and the store is unchanged.
Only an elapsed time strictly below the threshold is debounced. -/
theorem C6_debounce_boundary_amended (now : Int) (s : PandasDataStore)
    (p : LogParser) (line tsStr zone_name : String) (sod : Nat) (t0 : Int)
    (hcl : classifyLine line = .zoneL tsStr zone_name)
    (hts : hmsToSec tsStr = some sod)
    (hname : p.last_zone_name = some zone_name)
    (ht0 : p.last_zone_time = some t0) :
    (p.zone_debounce_seconds ≤ (parse_timestamp p sod).1 - t0 →
      ((parse_line now s p line).2.1.last_zone_time =
         some (parse_timestamp p sod).1 ∧
       (parse_line now s p line).1 =
         (create_zone_entry s zone_name p.current_character
           (parse_timestamp p sod).1 p.log_date).2 ∧
       (parse_line now s p line).2.1.current_zone_id =
         some (create_zone_entry s zone_name p.current_character
           (parse_timestamp p sod).1 p.log_date).1) ∧
      (∀ z, findLastOpen p.current_character s.zones_list = some z →
        z.name = zone_name →
        (parse_line now s p line).1 = s ∧
        (parse_line now s p line).2.1.current_zone_id = some z.zone_id) ∧
      ((findLastOpen p.current_character s.zones_list = none ∨
        (∃ z, findLastOpen p.current_character s.zones_list = some z ∧
          ¬ z.name = zone_name)) →
        (parse_line now s p line).1.zones_list.length =
          s.zones_list.length + 1)) ∧
    ((parse_timestamp p sod).1 - t0 < p.zone_debounce_seconds →
      (parse_line now s p line).1 = s ∧
      (parse_line now s p line).2.1.last_zone_time = some t0) := by
  constructor
  · intro hge
    have hnd : ¬ (p.last_zone_name = some zone_name ∧
        ∃ t0', p.last_zone_time = some t0' ∧
          (parse_timestamp p sod).1 - t0' < p.zone_debounce_seconds) := by
      rintro ⟨-, t0', ht0', hlt⟩
      rw [ht0] at ht0'
      cases ht0'
      omega
    have hnorm := parse_line_zone_normal now s p line tsStr zone_name sod hcl hts hnd
    refine ⟨⟨?_, ?_, ?_⟩, ?_, ?_⟩
    · rw [hnorm]; dsimp only; split <;> rfl
    · rw [hnorm]
    · rw [hnorm]; dsimp only; split <;> rfl
    · intro z hz hzname
      have hcr := create_zone_entry_reuse s zone_name p.current_character
        (parse_timestamp p sod).1 p.log_date z hz hzname
      constructor
      · rw [hnorm, hcr]
      · rw [hnorm, hcr]; dsimp only; split <;> rfl
    · intro hfresh
      rw [hnorm]
      rcases hfresh with hnone | ⟨z, hz, hne⟩
      · rw [create_zone_entry_fresh_none s zone_name p.current_character
          (parse_timestamp p sod).1 p.log_date hnone]
        simp
      · rw [create_zone_entry_fresh_close s zone_name p.current_character
          (parse_timestamp p sod).1 p.log_date z hz hne]
        simp [closeLastOpen_length]
  · intro hlt
    obtain ⟨D, heq, _⟩ := parse_timestamp_cases p sod
    rw [parse_line_zone_debounced now s p line tsStr zone_name sod t0 hcl hts
      hname ht0 hlt]
    refine ⟨rfl, ?_⟩
    rw [heq]
    exact ht0

/-- Witness for the amended C6: a same-name repeat exactly at the threshold is
not debounced (`last_zone_time` advances). -/
theorem C6_debounce_boundary_amended_witness :
    (parse_line 0 (initStore [])
      { initParser 0 with
          last_zone_name := some "AreaOne", last_zone_time := some 36000,
          last_timestamp := some 36000 }
      "[10:00:30] LOADING LEVEL AreaOne").2.1.last_zone_time = some 36030 :=
  ((C6_debounce_boundary_amended 0 (initStore [])
      { initParser 0 with
          last_zone_name := some "AreaOne", last_zone_time := some 36000,
          last_timestamp := some 36000 }
      "[10:00:30] LOADING LEVEL AreaOne" "10:00:30" "AreaOne" 36030 36000
      (by decide) (by decide) rfl rfl).1 (by decide)).1.1

/-- **C7.** Idempotent zone re-entry: (a) feeding the identical
zone-transition line twice in a row to a fresh parser and empty store leaves
exactly one ZoneInstance (the repeat falls inside the debounce window and is
suppressed); (b) `create_zone_entry` returns the open instance's id unchanged
and leaves the store untouched whenever the character is already in that
exact zone. -/
theorem C7_idempotent_reentry :
    (∀ (nowf : Nat → Int) (aliases : List (String × String)) (day0 : Int)
       (l tsStr zone_name : String) (sod : Nat),
        classifyLine l = .zoneL tsStr zone_name →
        hmsToSec tsStr = some sod →
        (runLinesFrom nowf 0 (initStore aliases) (initParser day0)
          [l, l]).1.zones_list.length = 1) ∧
    (∀ (s : PandasDataStore) (n : String) (char : Option String) (t : Int)
       (d : Option String) (z : ZoneRec),
        findLastOpen char s.zones_list = some z → z.name = n →
        create_zone_entry s n char t d = (z.zone_id, s)) := by
  constructor
  · intro nowf aliases day0 l tsStr zone_name sod hcl hts
    -- line 1: fresh parser, no debounce state, empty store
    have hnd : ¬ ((initParser day0).last_zone_name = some zone_name ∧
        ∃ t0, (initParser day0).last_zone_time = some t0 ∧
          (parse_timestamp (initParser day0) sod).1 - t0 <
            (initParser day0).zone_debounce_seconds) := by
      rintro ⟨hn, -⟩
      exact Option.noConfusion hn
    have h1 := parse_line_zone_normal (nowf 0) (initStore aliases)
      (initParser day0) l tsStr zone_name sod hcl hts hnd
    have hpt1 : parse_timestamp (initParser day0) sod =
        (day0 * 86400 + sod,
         { initParser day0 with
             last_timestamp := some (day0 * 86400 + sod) }) := rfl
    set t1 : Int := day0 * 86400 + sod with ht1
    set z1 : ZoneRec :=
      { zone_id := 1, name := zone_name, character_name := none,
        entered_time := t1, left_time := none, log_date := none } with hz1
    have hcz : create_zone_entry (initStore aliases) zone_name none t1 none =
        (1, { initStore aliases with
                next_zone_id := 2
                zones_list := [z1] }) := rfl
    set s1 : PandasDataStore :=
      { initStore aliases with
          next_zone_id := 2
          zones_list := [z1] } with hs1
    set p1 : LogParser :=
      { initParser day0 with
          last_timestamp := some t1
          current_zone := some ⟨zone_name, t1, none⟩
          last_zone_name := some zone_name
          last_zone_time := some t1
          current_zone_id := some 1 } with hp1
    have h1' : parse_line (nowf 0) (initStore aliases) (initParser day0) l =
        (s1, p1, none) := by
      rw [h1]
      rfl
    -- line 2: same timestamp again, inside the debounce window
    have hlast1 : p1.last_timestamp = some t1 := rfl
    have hdate1 : p1.current_date = day0 := rfl
    have hpt2 : parse_timestamp p1 sod = (t1, p1) := by
      unfold parse_timestamp
      rw [hlast1]
      dsimp only
      rw [hdate1, ht1, if_neg (lt_irrefl (day0 * 86400 + (sod : Int)))]
      rfl
    have hdb : (parse_timestamp p1 sod).1 - t1 < p1.zone_debounce_seconds := by
      rw [hpt2]
      show t1 - t1 < (30 : Int)
      omega
    have h2 := parse_line_zone_debounced (nowf 1) s1 p1 l tsStr zone_name sod t1
      hcl hts rfl rfl hdb
    rw [hpt2] at h2
    show (runLinesFrom nowf 0 (initStore aliases) (initParser day0)
      [l, l]).1.zones_list.length = 1
    unfold runLinesFrom
    rw [h1']
    unfold runLinesFrom
    rw [h2]
    unfold runLinesFrom
    rfl
  · intro s n char t d z hz hzname
    exact create_zone_entry_reuse s n char t d z hz hzname

/-- Witness for C7: both parts applied at a concrete zone line and store. -/
theorem C7_idempotent_reentry_witness :
    (runLinesFrom (fun _ => 0) 0 (initStore []) (initParser 0)
      ["[10:00:00] LOADING LEVEL AreaOne",
       "[10:00:00] LOADING LEVEL AreaOne"]).1.zones_list.length = 1 ∧
    create_zone_entry
      { initStore [] with
          next_zone_id := 2
          zones_list := [
            { zone_id := 1, name := "AreaOne", character_name := none,
              entered_time := 0, left_time := none, log_date := none }] }
      "AreaOne" none 99 none =
      (1,
       { initStore [] with
           next_zone_id := 2
           zones_list := [
             { zone_id := 1, name := "AreaOne", character_name := none,
               entered_time := 0, left_time := none, log_date := none }] }) :=
  ⟨C7_idempotent_reentry.1 (fun _ => 0) [] 0 "[10:00:00] LOADING LEVEL AreaOne"
     "10:00:00" "AreaOne" 36000 (by decide) (by decide),
   C7_idempotent_reentry.2 _ "AreaOne" none 99 none
     { zone_id := 1, name := "AreaOne", character_name := none,
       entered_time := 0, left_time := none, log_date := none }
     (by decide) rfl⟩

/-- **C4 counterexample.** Feeding the spec's six example lines verbatim into
a fresh parser and store produces **no** ZoneInstance and **no** DamageEvent
at all: `LOADING LEVEL (AreaForest)` does not match `ZONE_LOADING_PATTERN`
(the `(` before `Area\w+` is a regex group, not a literal parenthesis), and
each damage line's `[HH:MM:SS]` prefix makes `DAMAGE_PATTERN` capture `"[10"`
as the player name with both damage fields empty, so the events are dropped
as zero-damage.  The claim expects one zone and three stored events. -/
theorem C4_counterexample :
    (exampleRun exampleSpecLines).1.zones_list = [] ∧
    (exampleRun exampleSpecLines).1.events_list = [] := by
  exact ⟨by rfl, by rfl⟩

/-- **C4 (amended).** The end-to-end scenario holds for the same log content
written in the grammar the source's patterns accept (zone name not
parenthesized, damage lines without timestamp prefixes): exactly one
ZoneInstance `AreaForest`; two DamageEvents for target 42 (Alice 60 total,
Bob 30) and one for target 43 (Alice 100), all in that zone with timestamps
taken from their corpse lines; the zone query returns Alice
(total 160, kills 2) before Bob (total 30, kills 1); and the combat window is
10:00:05–10:00:10, i.e. 5 seconds. -/
theorem C4_end_to_end_amended :
    ((exampleRun exampleCodeLines).1.zones_list.map
      (fun z => (z.zone_id, z.name))) = [(1, "AreaForest")] ∧
    ((exampleRun exampleCodeLines).1.players_list.map
      (fun q => (q.player_id, q.original_name))) = [(1, "Alice"), (2, "Bob")] ∧
    ((exampleRun exampleCodeLines).1.events_list.map
      (fun e => (e.npc_id, e.npc_name, e.player_id, e.health_dmg, e.armor_dmg,
                 e.zone_id, e.timestamp))) =
      ([(42, "Wolf", 1, 50, 10, some 1, 36005),
        (42, "Wolf", 2, 30, 0, some 1, 36005),
        (43, "Bear", 1, 100, 0, some 1, 36010)] :
       List (Nat × String × Nat × Nat × Nat × Option Nat × Int)) ∧
    ((get_damage_by_zone (exampleRun exampleCodeLines).1 1).map
      (fun r => (r.display_name, r.total_dmg, r.kills, r.first_hit, r.last_hit))) =
      ([("Alice", 160, 2, some 36005, some 36010),
        ("Bob", 30, 1, some 36005, some 36005)] :
       List (String × Nat × Nat × Option Int × Option Int)) ∧
    get_zone_combat_times (exampleRun exampleCodeLines).1 1 =
      (some 36005, some 36010, 2) ∧
    (36010 : Int) - 36005 = 5 := by
  exact ⟨by rfl, by rfl, by rfl, by rfl, by rfl, by decide⟩

theorem storeInv_of_events_eq {s s' : PandasDataStore}
    (h : s'.events_list = s.events_list) (hs : StoreInv s) : StoreInv s' := by
  intro e he
  exact hs e (h ▸ he)

theorem get_or_create_player_events (s : PandasDataStore) (name : String) :
    (get_or_create_player s name).2.events_list = s.events_list := by
  unfold get_or_create_player
  split <;> rfl

theorem batch_players_events (s : PandasDataStore) (names : List String) :
    (get_or_create_players_batch s names).2.events_list = s.events_list := by
  unfold get_or_create_players_batch
  suffices h : ∀ acc : List (String × Nat) × PandasDataStore,
      (names.foldl batchPlayerStep acc).2.events_list = acc.2.events_list from
    h ([], s)
  induction names with
  | nil => intro acc; rfl
  | cons n rest ih =>
    intro acc
    rw [List.foldl_cons, ih]
    unfold batchPlayerStep
    split
    · rfl
    · exact get_or_create_player_events acc.2 n

theorem create_zone_entry_events (s : PandasDataStore) (n : String)
    (char : Option String) (t : Int) (d : Option String) :
    (create_zone_entry s n char t d).2.events_list = s.events_list := by
  unfold create_zone_entry create_zone_entry.appendFresh
  split
  · split <;> rfl
  · rfl

theorem insert_batch_raw_inv (es : List BatchTuple) :
    ∀ s : PandasDataStore, StoreInv s →
    (∀ e ∈ es, e.health_dmg ≠ 0 ∨ e.armor_dmg ≠ 0) →
    StoreInv (insert_damage_events_batch s es).1 := by
  intro s hs hes
  unfold insert_damage_events_batch
  split
  · exact hs
  · dsimp only
    clear * - hs hes
    induction es generalizing s with
    | nil => exact hs
    | cons e rest ih =>
      rw [List.foldl_cons]
      refine ih (insertTupleStep s e) ?_ (fun x hx => hes x (by simp [hx]))
      intro x hx
      unfold insertTupleStep at hx
      dsimp only at hx
      rw [List.mem_append] at hx
      rcases hx with hx | hx
      · exact hs x hx
      · simp only [List.mem_singleton] at hx
        subst hx
        exact hes e (by simp)

theorem flush_fold_events (ld : Option String) (pids : List (String × Nat))
    (pend : List DamageEvent) :
    ∀ acc : FlushAcc,
      (pend.foldl (flushStep ld pids) acc).1.events_list = acc.1.events_list ∧
      ∀ tup ∈ (pend.foldl (flushStep ld pids) acc).2.2.2,
        tup ∈ acc.2.2.2 ∨
        ∃ e ∈ pend, tup.health_dmg = e.health_dmg ∧ tup.armor_dmg = e.armor_dmg := by
  induction pend with
  | nil => intro acc; exact ⟨rfl, fun tup h => Or.inl h⟩
  | cons e rest ih =>
    intro acc
    rw [List.foldl_cons]
    obtain ⟨ihev, ihout⟩ := ih (flushStep ld pids acc e)
    have hstep_ev : (flushStep ld pids acc e).1.events_list = acc.1.events_list := by
      obtain ⟨st, seen, zc, out⟩ := acc
      unfold flushStep
      dsimp only
      repeat' split
      all_goals
        first
          | rfl
          | exact create_zone_entry_events st e.zone_name e.character_name
              e.timestamp ld
    have hstep_out : ∀ tup ∈ (flushStep ld pids acc e).2.2.2,
        tup ∈ acc.2.2.2 ∨
        (tup.health_dmg = e.health_dmg ∧ tup.armor_dmg = e.armor_dmg) := by
      obtain ⟨st, seen, zc, out⟩ := acc
      intro tup htup
      unfold flushStep at htup
      dsimp only at htup
      repeat' split at htup
      all_goals
        first
          | exact Or.inl htup
          | (rw [List.mem_append] at htup
             rcases htup with h | h
             · exact Or.inl h
             · simp only [List.mem_singleton] at h
               subst h
               exact Or.inr ⟨rfl, rfl⟩)
    refine ⟨by rw [ihev, hstep_ev], ?_⟩
    intro tup htup
    rcases ihout tup htup with h | ⟨e', he', h⟩
    · rcases hstep_out tup h with h' | h'
      · exact Or.inl h'
      · exact Or.inr ⟨e, by simp, h'⟩
    · exact Or.inr ⟨e', by simp [he'], h⟩

theorem flush_batch_inv (s : PandasDataStore) (p : LogParser)
    (h : SysInv (s, p)) :
    StoreInv (flush_batch s p).1 ∧ (flush_batch s p).2.1.pending_events = [] := by
  obtain ⟨hs, hp⟩ := h
  unfold flush_batch
  split
  · rename_i hemp
    exact ⟨hs, hemp⟩
  · dsimp only
    obtain ⟨hev, hout⟩ := flush_fold_events p.log_date
      (get_or_create_players_batch s
        (dedupFirst (p.pending_events.map (·.player_name)))).1
      p.pending_events
      ((get_or_create_players_batch s
        (dedupFirst (p.pending_events.map (·.player_name)))).2,
       p.seen_events, p.zones_created, [])
    refine ⟨?_, rfl⟩
    refine insert_batch_raw_inv _ _ ?_ ?_
    · refine storeInv_of_events_eq ?_ hs
      rw [hev]
      exact batch_players_events s _
    · intro tup htup
      rcases hout tup htup with h | ⟨e', he', h1, h2⟩
      · simp at h
      · rw [h1, h2]
        exact hp e' he'

theorem insert_damage_event_zero (s : PandasDataStore) (e : DamageEvent)
    (zid : Option Nat) (h1 : e.health_dmg = 0) (h2 : e.armor_dmg = 0) :
    insert_damage_event s e zid = (-1, s) := by
  unfold insert_damage_event
  rw [if_pos ⟨h1, h2⟩]

theorem insert_damage_event_inv (s : PandasDataStore) (e : DamageEvent)
    (zid : Option Nat) (hs : StoreInv s) :
    StoreInv (insert_damage_event s e zid).2 := by
  unfold insert_damage_event
  split
  · exact hs
  · rename_i hne
    rcases hgc : get_or_create_player s e.player_name with ⟨pid, s₁⟩
    dsimp only
    intro x hx
    dsimp only at hx
    rw [List.mem_append] at hx
    rcases hx with hx | hx
    · have hev : s₁.events_list = s.events_list := by
        have := get_or_create_player_events s e.player_name
        rw [hgc] at this
        exact this
      exact hs x (hev ▸ hx)
    · simp only [List.mem_singleton] at hx
      subst hx
      dsimp [hasDamage]
      omega

theorem flush_pair_inv (s : PandasDataStore) (p' : LogParser)
    (ev? : Option DamageEvent) (h : SysInv (s, p')) :
    SysInv ((match flush_batch s p' with | (s', p₂, _) => (s', p₂, ev?)).1,
            (match flush_batch s p' with | (s', p₂, _) => (s', p₂, ev?)).2.1) := by
  have hfb := flush_batch_inv s p' h
  rcases hq : flush_batch s p' with ⟨s', p₂, c⟩
  rw [hq] at hfb
  exact ⟨hfb.1, fun ev hev => by rw [hfb.2] at hev; simp at hev⟩

theorem parse_line_sysinv (now : Int) (s : PandasDataStore) (p : LogParser)
    (line : String) (h : SysInv (s, p)) :
    SysInv ((parse_line now s p line).1, (parse_line now s p line).2.1) := by
  obtain ⟨hs, hp⟩ := h
  unfold parse_line
  cases hc : classifyLine line with
  | charL nm => exact ⟨hs, hp⟩
  | zoneL ts zn =>
    dsimp only
    cases hts : hmsToSec ts with
    | none => exact ⟨hs, hp⟩
    | some sod =>
      dsimp only
      obtain ⟨D, heq, _⟩ := parse_timestamp_cases p sod
      rw [heq]
      dsimp only
      split
      · exact ⟨hs, hp⟩
      · have hcr := create_zone_entry_events s zn p.current_character
          (D * 86400 + sod) p.log_date
        split
        · exact ⟨storeInv_of_events_eq hcr hs, hp⟩
        · exact ⟨storeInv_of_events_eq hcr hs, hp⟩
  | corpseL npc nm tsOpt =>
    dsimp only
    cases tsOpt with
    | none => exact ⟨hs, hp⟩
    | some tstr =>
      dsimp only
      cases hts : hmsToSec tstr with
      | none => exact ⟨hs, hp⟩
      | some sod =>
        dsimp only
        obtain ⟨D, heq, _⟩ := parse_timestamp_cases p sod
        rw [heq]
        exact ⟨hs, hp⟩
  | restL dm wm =>
    dsimp only
    cases dm with
    | none =>
      dsimp only
      split
      · exact ⟨storeInv_of_events_eq rfl hs, hp⟩
      · exact ⟨hs, hp⟩
    | some d =>
      cases hpc : p.pending_corpse with
      | none =>
        dsimp only
        split
        · exact ⟨storeInv_of_events_eq rfl hs, hp⟩
        · exact ⟨hs, hp⟩
      | some pc =>
        obtain ⟨npc, nm, cts⟩ := pc
        dsimp only
        split
        · exact ⟨hs, hp⟩
        · rename_i hnz
          have hd : d.health_dmg ≠ 0 ∨ d.armor_dmg ≠ 0 := by
            by_cases h1 : d.health_dmg = 0
            · right
              intro h2
              exact hnz ⟨h1, h2⟩
            · exact Or.inl h1
          split
          · -- batch mode: buffer, maybe flush
            split
            · refine flush_pair_inv s _ _ ⟨hs, ?_⟩
              intro ev hev
              dsimp only at hev
              rw [List.mem_append] at hev
              rcases hev with hev | hev
              · exact hp ev hev
              · simp only [List.mem_singleton] at hev
                subst hev
                exact hd
            · refine ⟨hs, ?_⟩
              intro ev hev
              dsimp only at hev
              rw [List.mem_append] at hev
              rcases hev with hev | hev
              · exact hp ev hev
              · simp only [List.mem_singleton] at hev
                subst hev
                exact hd
          · -- streaming: immediate insert
            exact ⟨insert_damage_event_inv s _ p.current_zone_id hs, hp⟩

theorem applyOp_sysinv (sp : PandasDataStore × LogParser) (op : StoreOp)
    (h : SysInv sp)
    (hraw : ∀ es, op = .insertBatchRaw es →
      ∀ e ∈ es, e.health_dmg ≠ 0 ∨ e.armor_dmg ≠ 0) :
    SysInv (applyOp sp op) := by
  obtain ⟨s, p⟩ := sp
  cases op with
  | insertOne e zid => exact ⟨insert_damage_event_inv s e zid h.1, h.2⟩
  | insertBatchRaw es =>
    exact ⟨insert_batch_raw_inv es s h.1 (hraw es rfl), h.2⟩
  | line now l => exact parse_line_sysinv now s p l h
  | startBatch ex =>
    refine ⟨h.1, ?_⟩
    intro ev hev
    simp [applyOp, start_batch_mode] at hev
  | endBatch =>
    have hsys : SysInv (s, { p with batch_mode := false }) := ⟨h.1, h.2⟩
    have hfb := flush_batch_inv s { p with batch_mode := false } hsys
    rcases hq : flush_batch s { p with batch_mode := false } with ⟨s', p₂, c⟩
    rw [hq] at hfb
    dsimp only [applyOp, end_batch_mode]
    rw [hq]
    exact ⟨hfb.1, fun ev hev => by simp at hev⟩

/-- **C3 counterexample.** `insert_damage_events_batch` performs no
zero-damage filtering: calling it directly with a tuple whose both damage
fields are zero stores a zero-damage event, so the invariant as claimed (over
a sequence including raw batch inserts) fails. -/
theorem C3_counterexample :
    ((insert_damage_events_batch (initStore [])
        [{ zone_id := 1, npc_id := 5, npc_name := "X", player_id := 1,
           health_dmg := 0, armor_dmg := 0, aggro_percent := none,
           timestamp := 0, character_name := none }]).1.events_list.map
      (fun e => (e.health_dmg, e.armor_dmg))) = [(0, 0)] := by
  decide

/-- **C3 (amended).** Zero-damage events are never stored under the
operations the program actually performs: `insert_damage_event` returns the
sentinel `-1` and leaves the store untouched whenever both damage fields are
zero, and any sequence of store operations — single inserts, parsed lines in
either mode (including the batch flush path, which only buffers events the
parser has already checked to be non-zero), batch start/end — preserves the
invariant that every stored event carries damage.  Raw
`insert_damage_events_batch` calls preserve it only when their tuples carry
damage, which is how the only call site (`_flush_batch`) uses it. -/
theorem C3_zero_damage_amended :
    (∀ (s : PandasDataStore) (e : DamageEvent) (zid : Option Nat),
        e.health_dmg = 0 → e.armor_dmg = 0 →
        insert_damage_event s e zid = (-1, s)) ∧
    (∀ (sp : PandasDataStore × LogParser) (ops : List StoreOp),
        SysInv sp →
        (∀ op ∈ ops, ∀ es, op = .insertBatchRaw es →
          ∀ e ∈ es, e.health_dmg ≠ 0 ∨ e.armor_dmg ≠ 0) →
        SysInv (applyOps sp ops)) := by
  constructor
  · exact insert_damage_event_zero
  · intro sp ops
    induction ops generalizing sp with
    | nil => intro h _; exact h
    | cons op rest ih =>
      intro h hraw
      rw [applyOps, List.foldl_cons]
      exact ih (applyOp sp op)
        (applyOp_sysinv sp op h (fun es he => hraw op (by simp) es he))
        (fun op' hop' es he => hraw op' (by simp [hop']) es he)

/-- Witness for the amended C3: the sentinel rejection and the preserved
invariant over a concrete operation sequence. -/
theorem C3_zero_damage_amended_witness :
    insert_damage_event (initStore [])
      { player_name := "Alice", health_dmg := 0, armor_dmg := 0,
        aggro_percent := none, npc_id := 1, npc_name := "Rat",
        zone_name := "AreaOne", timestamp := 0, character_name := none,
        zone_id := none } (some 1) = (-1, initStore []) ∧
    SysInv (applyOps (initStore [], initParser 0)
      [.line 0 "[10:00:00] ProcessTalkScreen(7, Search Corpse of Rat, x)",
       .line 0 "Alice: 5 health dmg",
       .insertBatchRaw [
         { zone_id := 1, npc_id := 5, npc_name := "X", player_id := 1,
           health_dmg := 3, armor_dmg := 0, aggro_percent := none,
           timestamp := 0, character_name := none }]]) :=
  ⟨C3_zero_damage_amended.1 (initStore []) _ (some 1) rfl rfl,
   C3_zero_damage_amended.2 (initStore [], initParser 0) _
     ⟨fun e he => by simp [initStore] at he,
      fun ev hev => by simp [initParser] at hev⟩
     (by
       intro op hop es he e hee
       fin_cases hop <;> simp_all
       · cases he
         fin_cases hee
         · left; decide)⟩

theorem alookup_aupdate_self [DecidableEq α] (k : α) (v : β)
    (l : List (α × β)) : alookup k (aupdate k v l) = some v := by
  induction l with
  | nil => simp [aupdate, alookup]
  | cons kv t ih =>
    obtain ⟨a, b⟩ := kv
    by_cases h : a = k
    · subst h
      simp [aupdate, alookup]
    · simp [aupdate, alookup, h, ih]

theorem alookup_aupdate_ne [DecidableEq α] (k k' : α) (v : β)
    (l : List (α × β)) (h : ¬ k' = k) :
    alookup k (aupdate k' v l) = alookup k l := by
  induction l with
  | nil => simp [aupdate, alookup, h]
  | cons kv t ih =>
    obtain ⟨a, b⟩ := kv
    by_cases ha : a = k'
    · subst ha
      simp [aupdate, alookup, h]
    · simp only [aupdate, if_neg ha, alookup]
      by_cases hak : a = k
      · simp [hak]
      · simp [hak, ih]

theorem alookup_append_some [DecidableEq α] (k : α) (l m : List (α × β))
    (w : β) (h : alookup k l = some w) : alookup k (l ++ m) = some w := by
  induction l with
  | nil => simp [alookup] at h
  | cons kv t ih =>
    obtain ⟨a, b⟩ := kv
    by_cases ha : a = k
    · subst ha
      simp [alookup] at h ⊢
      exact h
    · simp [alookup, ha] at h ⊢
      exact ih h

theorem alookup_append_none [DecidableEq α] (k : α) (l m : List (α × β))
    (h : alookup k l = none) : alookup k (l ++ m) = alookup k m := by
  induction l with
  | nil => simp
  | cons kv t ih =>
    obtain ⟨a, b⟩ := kv
    by_cases ha : a = k
    · subst ha
      simp [alookup] at h
    · simp [alookup, ha] at h ⊢
      exact ih h

theorem alookup_none_of_not_mem_keys [DecidableEq α] (k : α)
    (l : List (α × β)) (h : k ∉ l.map Prod.fst) : alookup k l = none := by
  induction l with
  | nil => rfl
  | cons kv t ih =>
    obtain ⟨a, b⟩ := kv
    simp only [List.map_cons, List.mem_cons] at h
    push_neg at h
    have hak : ¬ a = k := fun he => h.1 he.symm
    simp [alookup, hak, ih h.2]

theorem alookup_of_mem_nodup [DecidableEq α] (k : α) (v : β)
    (l : List (α × β)) (hnd : (l.map Prod.fst).Nodup)
    (hmem : (k, v) ∈ l) : alookup k l = some v := by
  induction l with
  | nil => simp at hmem
  | cons kv t ih =>
    obtain ⟨a, b⟩ := kv
    simp only [List.map_cons, List.nodup_cons] at hnd
    rcases List.mem_cons.mp hmem with h | h
    · cases h
      simp [alookup]
    · have hk : ¬ a = k := by
        intro he
        subst he
        exact hnd.1 (List.mem_map.mpr ⟨(a, v), h, rfl⟩)
      simp [alookup, hk, ih hnd.2 h]

theorem aupdate_keys [DecidableEq α] (k : α) (v : β) (l : List (α × β))
    (h : k ∈ l.map Prod.fst) : (aupdate k v l).map Prod.fst = l.map Prod.fst := by
  induction l with
  | nil => simp at h
  | cons kv t ih =>
    obtain ⟨a, b⟩ := kv
    by_cases ha : a = k
    · subst ha
      simp [aupdate]
    · simp only [List.map_cons, List.mem_cons] at h
      rcases h with h | h
      · exact absurd h.symm ha
      · simp [aupdate, ha, ih h]

theorem insStable_perm (lt : α → α → Bool) (x : α) (l : List α) :
    (insStable lt x l).Perm (x :: l) := by
  induction l with
  | nil => exact List.Perm.refl _
  | cons y ys ih =>
    unfold insStable
    split
    · exact List.Perm.refl _
    · exact (ih.cons y).trans (List.Perm.swap x y ys)

theorem sortStable_perm (lt : α → α → Bool) (l : List α) :
    (sortStable lt l).Perm l := by
  suffices h : ∀ acc : List α,
      (l.foldl (fun a x => insStable lt x a) acc).Perm (l ++ acc) by
    simpa using h []
  induction l with
  | nil => intro acc; simp
  | cons x xs ih =>
    intro acc
    rw [List.foldl_cons]
    refine ((ih _).trans ?_)
    refine (List.Perm.append_left xs (insStable_perm lt x acc)).trans ?_
    exact List.perm_middle

theorem insStable_sorted (lt : α → α → Bool)
    (hasym : ∀ a b, lt a b = true → lt b a = false)
    (htrans : ∀ a b c, lt a b = true → lt c b = false → lt c a = false)
    (x : α) (l : List α)
    (hl : l.Pairwise (fun a b => lt b a = false)) :
    (insStable lt x l).Pairwise (fun a b => lt b a = false) := by
  induction l with
  | nil => simp [insStable]
  | cons y ys ih =>
    unfold insStable
    rcases List.pairwise_cons.mp hl with ⟨hy, hys⟩
    split
    · rename_i hxy
      refine List.pairwise_cons.mpr ⟨?_, hl⟩
      intro z hz
      rcases List.mem_cons.mp hz with h | h
      · subst h
        exact hasym x z hxy
      · exact htrans x y z hxy (hy z h)
    · rename_i hxy
      refine List.pairwise_cons.mpr ⟨?_, ih hys⟩
      intro z hz
      have hz' := (insStable_perm lt x ys).mem_iff.mp hz
      rcases List.mem_cons.mp hz' with h | h
      · subst h
        exact Bool.eq_false_iff.mpr hxy
      · exact hy z h

theorem sortStable_sorted (lt : α → α → Bool)
    (hasym : ∀ a b, lt a b = true → lt b a = false)
    (htrans : ∀ a b c, lt a b = true → lt c b = false → lt c a = false)
    (l : List α) :
    (sortStable lt l).Pairwise (fun a b => lt b a = false) := by
  suffices h : ∀ acc : List α, acc.Pairwise (fun a b => lt b a = false) →
      (l.foldl (fun a x => insStable lt x a) acc).Pairwise
        (fun a b => lt b a = false) by
    exact h [] (by simp)
  induction l with
  | nil => intro acc hacc; exact hacc
  | cons x xs ih =>
    intro acc hacc
    rw [List.foldl_cons]
    exact ih _ (insStable_sorted lt hasym htrans x acc hacc)

theorem mem_of_alookup [DecidableEq α] {k : α} {v : β} {l : List (α × β)}
    (h : alookup k l = some v) : (k, v) ∈ l := by
  induction l with
  | nil => simp [alookup] at h
  | cons kv t ih =>
    obtain ⟨a, b⟩ := kv
    by_cases ha : a = k
    · subst ha
      have hbv : b = v := by simpa [alookup] using h
      subst hbv
      simp
    · simp only [alookup, if_neg ha] at h
      exact List.mem_cons_of_mem _ (ih h)

theorem mem_keys_of_alookup [DecidableEq α] {k : α} {v : β} {l : List (α × β)}
    (h : alookup k l = some v) : k ∈ l.map Prod.fst :=
  List.mem_map.mpr ⟨(k, v), mem_of_alookup h, rfl⟩

theorem not_mem_keys_of_alookup_none [DecidableEq α] {k : α}
    {l : List (α × β)} (h : alookup k l = none) : k ∉ l.map Prod.fst := by
  intro hmem
  induction l with
  | nil => simp at hmem
  | cons kv t ih =>
    obtain ⟨a, b⟩ := kv
    by_cases ha : a = k
    · subst ha
      simp [alookup] at h
    · simp only [alookup, if_neg ha] at h
      simp only [List.map_cons, List.mem_cons] at hmem
      rcases hmem with hmem | hmem
      · exact ha hmem.symm
      · exact ih h hmem

theorem aupdate_mem [DecidableEq α] {k : α} {v : β} {l : List (α × β)}
    {kg : α × β} (h : kg ∈ aupdate k v l) : kg ∈ l ∨ kg = (k, v) := by
  induction l with
  | nil =>
    simp only [aupdate, List.mem_singleton] at h
    exact Or.inr h
  | cons ab t ih =>
    obtain ⟨a, b⟩ := ab
    by_cases ha : a = k
    · rw [show aupdate k v ((a, b) :: t) = (k, v) :: t from by
        simp [aupdate, ha]] at h
      rcases List.mem_cons.mp h with h1 | h1
      · exact Or.inr h1
      · exact Or.inl (List.mem_cons_of_mem _ h1)
    · rw [show aupdate k v ((a, b) :: t) = (a, b) :: aupdate k v t from by
        simp [aupdate, ha]] at h
      rcases List.mem_cons.mp h with h1 | h1
      · exact Or.inl (List.mem_cons.mpr (Or.inl h1))
      · rcases ih h1 with h2 | h2
        · exact Or.inl (List.mem_cons_of_mem _ h2)
        · exact Or.inr h2

theorem mergeRow_display (g : MergedRow) (d : Row) :
    (mergeRow g d).display_name = g.display_name := rfl

theorem groupStep_some (acc : List (String × MergedRow)) (d : Row)
    (g : MergedRow) (h : alookup d.display_name acc = some g) :
    groupStep acc d = aupdate d.display_name (mergeRow g d) acc := by
  unfold groupStep
  dsimp only
  rw [h]

theorem groupStep_none (acc : List (String × MergedRow)) (d : Row)
    (h : alookup d.display_name acc = none) :
    groupStep acc d = acc ++ [(d.display_name, mergeRow (newMerged d.display_name) d)] := by
  unfold groupStep
  dsimp only
  rw [h]

/-- The grouping fold keeps one entry per display name, and each entry's row
carries its key as display name. -/
theorem groupFold_wf (data : List Row) :
    ((groupFold data).map Prod.fst).Nodup ∧
    ∀ kg ∈ groupFold data, (kg.2).display_name = kg.1 := by
  unfold groupFold
  suffices h : ∀ acc : List (String × MergedRow),
      (acc.map Prod.fst).Nodup → (∀ kg ∈ acc, (kg.2).display_name = kg.1) →
      ((data.foldl groupStep acc).map Prod.fst).Nodup ∧
      ∀ kg ∈ data.foldl groupStep acc, (kg.2).display_name = kg.1 by
    exact h [] (by simp) (by simp)
  induction data with
  | nil => intro acc h1 h2; exact ⟨h1, h2⟩
  | cons d rest ih =>
    intro acc h1 h2
    rw [List.foldl_cons]
    unfold groupStep
    dsimp only
    cases hl : alookup d.display_name acc with
    | some g =>
      refine ih _ ?_ ?_
      · rw [aupdate_keys _ _ _ (mem_keys_of_alookup hl)]
        exact h1
      · intro kg hkg
        rcases aupdate_mem hkg with hm | hm
        · exact h2 kg hm
        · subst hm
          exact h2 (d.display_name, g) (mem_of_alookup hl)
    | none =>
      refine ih _ ?_ ?_
      · rw [List.map_append]
        refine List.Nodup.append h1 (by simp) ?_
        intro x hx hy
        simp only [List.map_cons, List.map_nil, List.mem_singleton] at hy
        subst hy
        exact not_mem_keys_of_alookup_none hl hx
      · intro kg hkg
        rcases List.mem_append.mp hkg with hm | hm
        · exact h2 kg hm
        · simp only [List.mem_singleton] at hm
          subst hm
          rfl

/-- Looking up a key in the grouping fold yields the fold of `mergeRow` over
exactly that key's rows. -/
theorem groupFold_lookup (data : List Row) (key : String) :
    alookup key (groupFold data) =
      if (data.filter (fun d => d.display_name = key)) = [] then none
      else some (keyAgg key data) := by
  unfold groupFold keyAgg
  suffices h : ∀ acc : List (String × MergedRow),
      alookup key (data.foldl groupStep acc) =
        (match alookup key acc with
         | some g =>
           some ((data.filter (fun d => d.display_name = key)).foldl mergeRow g)
         | none =>
           if (data.filter (fun d => d.display_name = key)) = [] then none
           else some ((data.filter (fun d => d.display_name = key)).foldl
             mergeRow (newMerged key))) by
    rw [h []]
    rfl
  induction data with
  | nil =>
    intro acc
    cases h : alookup key acc <;> simp [h]
  | cons d rest ih =>
    intro acc
    rw [List.foldl_cons]
    by_cases hd : d.display_name = key
    · subst hd
      rw [List.filter_cons_of_pos (by simp)]
      cases hl : alookup d.display_name acc with
      | some g =>
        rw [groupStep_some acc d g hl,
          ih (aupdate d.display_name (mergeRow g d) acc),
          alookup_aupdate_self]
        simp
      | none =>
        rw [groupStep_none acc d hl,
          ih (acc ++ [(d.display_name, mergeRow (newMerged d.display_name) d)]),
          alookup_append_none _ _ _ hl]
        simp only [alookup, if_pos rfl]
        simp
    · rw [List.filter_cons_of_neg (by simpa using hd)]
      cases hl : alookup d.display_name acc with
      | some g =>
        rw [groupStep_some acc d g hl,
          ih (aupdate d.display_name (mergeRow g d) acc),
          alookup_aupdate_ne _ _ _ _ (fun he => hd he)]
      | none =>
        rw [groupStep_none acc d hl,
          ih (acc ++ [(d.display_name, mergeRow (newMerged d.display_name) d)])]
        cases hk : alookup key acc with
        | some g' =>
          rw [alookup_append_some _ _ _ _ hk]
        | none =>
          rw [alookup_append_none _ _ _ hk]
          have hne : ¬ d.display_name = key := hd
          simp [alookup, hne]

theorem mergeRow_first (g : MergedRow) (d : Row) :
    (mergeRow g d).first_hit = omin g.first_hit d.first_hit := by
  unfold mergeRow omin
  cases d.first_hit with
  | none => cases g.first_hit <;> rfl
  | some df =>
    cases g.first_hit with
    | none => rfl
    | some gf =>
      dsimp only
      split
      · rename_i hlt
        congr 1
        omega
      · rename_i hlt
        congr 1
        omega

theorem mergeRow_last (g : MergedRow) (d : Row) :
    (mergeRow g d).last_hit = omax g.last_hit d.last_hit := by
  unfold mergeRow omax
  cases d.last_hit with
  | none => cases g.last_hit <;> rfl
  | some dl =>
    cases g.last_hit with
    | none => rfl
    | some gl =>
      dsimp only
      split
      · rename_i hlt
        congr 1
        omega
      · rename_i hlt
        congr 1
        omega

theorem foldl_mergeRow_display (l : List Row) :
    ∀ g : MergedRow, (l.foldl mergeRow g).display_name = g.display_name := by
  induction l with
  | nil => intro g; rfl
  | cons d rest ih =>
    intro g
    rw [List.foldl_cons, ih, mergeRow_display]

theorem foldl_mergeRow_health (l : List Row) :
    ∀ g : MergedRow,
      (l.foldl mergeRow g).health_dmg = g.health_dmg + (l.map (·.health_dmg)).sum := by
  induction l with
  | nil => intro g; simp
  | cons d rest ih =>
    intro g
    rw [List.foldl_cons, ih]
    simp [mergeRow]
    omega

theorem foldl_mergeRow_armor (l : List Row) :
    ∀ g : MergedRow,
      (l.foldl mergeRow g).armor_dmg = g.armor_dmg + (l.map (·.armor_dmg)).sum := by
  induction l with
  | nil => intro g; simp
  | cons d rest ih =>
    intro g
    rw [List.foldl_cons, ih]
    simp [mergeRow]
    omega

theorem foldl_mergeRow_total (l : List Row) :
    ∀ g : MergedRow,
      (l.foldl mergeRow g).total_dmg = g.total_dmg + (l.map (·.total_dmg)).sum := by
  induction l with
  | nil => intro g; simp
  | cons d rest ih =>
    intro g
    rw [List.foldl_cons, ih]
    simp [mergeRow]
    omega

theorem foldl_mergeRow_kills (l : List Row) :
    ∀ g : MergedRow,
      (l.foldl mergeRow g).kills = g.kills + (l.map (·.kills)).sum := by
  induction l with
  | nil => intro g; simp
  | cons d rest ih =>
    intro g
    rw [List.foldl_cons, ih]
    simp [mergeRow]
    omega

theorem foldl_mergeRow_first (l : List Row) :
    ∀ g : MergedRow,
      (l.foldl mergeRow g).first_hit = (l.map (·.first_hit)).foldl omin g.first_hit := by
  induction l with
  | nil => intro g; rfl
  | cons d rest ih =>
    intro g
    rw [List.foldl_cons, ih, List.map_cons, List.foldl_cons, mergeRow_first]

theorem foldl_mergeRow_last (l : List Row) :
    ∀ g : MergedRow,
      (l.foldl mergeRow g).last_hit = (l.map (·.last_hit)).foldl omax g.last_hit := by
  induction l with
  | nil => intro g; rfl
  | cons d rest ih =>
    intro g
    rw [List.foldl_cons, ih, List.map_cons, List.foldl_cons, mergeRow_last]

theorem omin_right_comm (b a₁ a₂ : Option Int) :
    omin (omin b a₁) a₂ = omin (omin b a₂) a₁ := by
  cases b <;> cases a₁ <;> cases a₂ <;> simp [omin] <;> omega

theorem omax_right_comm (b a₁ a₂ : Option Int) :
    omax (omax b a₁) a₂ = omax (omax b a₂) a₁ := by
  cases b <;> cases a₁ <;> cases a₂ <;> simp [omax] <;> omega

theorem foldl_omin_perm {l₁ l₂ : List (Option Int)} (h : l₁.Perm l₂)
    (a : Option Int) : l₁.foldl omin a = l₂.foldl omin a := by
  haveI : RightCommutative omin := ⟨fun b a₁ a₂ => omin_right_comm b a₁ a₂⟩
  exact h.foldl_eq a

theorem foldl_omax_perm {l₁ l₂ : List (Option Int)} (h : l₁.Perm l₂)
    (a : Option Int) : l₁.foldl omax a = l₂.foldl omax a := by
  haveI : RightCommutative omax := ⟨fun b a₁ a₂ => omax_right_comm b a₁ a₂⟩
  exact h.foldl_eq a

theorem ominFold_le (L : List (Option Int)) :
    ∀ (a : Option Int) (v : Int), L.foldl omin a = some v →
      (∀ x : Int, some x ∈ L → v ≤ x) ∧ (∀ w : Int, a = some w → v ≤ w) := by
  induction L with
  | nil =>
    intro a v h
    refine ⟨fun x hx => absurd hx (by simp), fun w hw => ?_⟩
    simp only [List.foldl_nil] at h
    rw [hw] at h
    cases h
    exact le_refl _
  | cons y ys ih =>
    intro a v h
    rw [List.foldl_cons] at h
    obtain ⟨hmem, hacc⟩ := ih (omin a y) v h
    constructor
    · intro x hx
      rcases List.mem_cons.mp hx with hx | hx
      · -- x is the head value
        subst hx
        cases a with
        | none => exact hacc x rfl
        | some w =>
          have := hacc (min w x) rfl
          calc v ≤ min w x := this
            _ ≤ x := min_le_right w x
      · exact hmem x hx
    · intro w hw
      subst hw
      cases y with
      | none => exact hacc w rfl
      | some yv =>
        have := hacc (min w yv) rfl
        calc v ≤ min w yv := this
          _ ≤ w := min_le_left w yv

theorem omaxFold_le (L : List (Option Int)) :
    ∀ (a : Option Int) (v : Int), L.foldl omax a = some v →
      (∀ x : Int, some x ∈ L → x ≤ v) ∧ (∀ w : Int, a = some w → w ≤ v) := by
  induction L with
  | nil =>
    intro a v h
    refine ⟨fun x hx => absurd hx (by simp), fun w hw => ?_⟩
    simp only [List.foldl_nil] at h
    rw [hw] at h
    cases h
    exact le_refl _
  | cons y ys ih =>
    intro a v h
    rw [List.foldl_cons] at h
    obtain ⟨hmem, hacc⟩ := ih (omax a y) v h
    constructor
    · intro x hx
      rcases List.mem_cons.mp hx with hx | hx
      · subst hx
        cases a with
        | none => exact hacc x rfl
        | some w =>
          calc x ≤ max w x := le_max_right w x
            _ ≤ v := hacc (max w x) rfl
      · exact hmem x hx
    · intro w hw
      subst hw
      cases y with
      | none => exact hacc w rfl
      | some yv =>
        calc w ≤ max w yv := le_max_left w yv
          _ ≤ v := hacc (max w yv) rfl

theorem ominFold_mem (L : List (Option Int)) :
    ∀ (a : Option Int) (v : Int), L.foldl omin a = some v →
      some v ∈ L ∨ a = some v := by
  induction L with
  | nil =>
    intro a v h
    simp only [List.foldl_nil] at h
    exact Or.inr h
  | cons y ys ih =>
    intro a v h
    rw [List.foldl_cons] at h
    rcases ih (omin a y) v h with hmem | hacc
    · exact Or.inl (List.mem_cons_of_mem _ hmem)
    · cases a with
      | none =>
        simp only [omin] at hacc
        exact Or.inl (List.mem_cons.mpr (Or.inl hacc.symm))
      | some w =>
        cases y with
        | none =>
          simp only [omin] at hacc
          exact Or.inr hacc
        | some yv =>
          simp only [omin, Option.some.injEq] at hacc
          rcases min_choice w yv with hc | hc
          · exact Or.inr (by rw [← hacc, hc])
          · refine Or.inl (List.mem_cons.mpr (Or.inl ?_))
            rw [← hacc, hc]

theorem omaxFold_mem (L : List (Option Int)) :
    ∀ (a : Option Int) (v : Int), L.foldl omax a = some v →
      some v ∈ L ∨ a = some v := by
  induction L with
  | nil =>
    intro a v h
    simp only [List.foldl_nil] at h
    exact Or.inr h
  | cons y ys ih =>
    intro a v h
    rw [List.foldl_cons] at h
    rcases ih (omax a y) v h with hmem | hacc
    · exact Or.inl (List.mem_cons_of_mem _ hmem)
    · cases a with
      | none =>
        simp only [omax] at hacc
        exact Or.inl (List.mem_cons.mpr (Or.inl hacc.symm))
      | some w =>
        cases y with
        | none =>
          simp only [omax] at hacc
          exact Or.inr hacc
        | some yv =>
          simp only [omax, Option.some.injEq] at hacc
          rcases max_choice w yv with hc | hc
          · exact Or.inr (by rw [← hacc, hc])
          · refine Or.inl (List.mem_cons.mpr (Or.inl ?_))
            rw [← hacc, hc]

theorem group_find_agg (data : List Row) (key : String) :
    (((group_damage_by_alias data).find?
        (fun g => g.display_name = key)).map aggProj) =
      if (data.filter (fun d => d.display_name = key)) = [] then none
      else some (aggProj (keyAgg key data)) := by
  by_cases hdat : data = []
  · subst hdat
    simp [group_damage_by_alias]
  · unfold group_damage_by_alias
    rw [if_neg hdat]
    obtain ⟨hnd, hdisp⟩ := groupFold_wf data
    have hlk := groupFold_lookup data key
    by_cases hfil : (data.filter (fun d => d.display_name = key)) = []
    · rw [if_pos hfil]
      rw [if_pos hfil] at hlk
      cases hf : (sortStable (fun x y => y.total_dmg < x.total_dmg)
          ((groupFold data).map (·.2))).find? (fun g => g.display_name = key) with
      | none => rfl
      | some g =>
        exfalso
        have hmem := List.mem_of_find?_eq_some hf
        have hkey : g.display_name = key := by simpa using List.find?_some hf
        have hmem' : g ∈ (groupFold data).map (·.2) :=
          (sortStable_perm _ _).mem_iff.mp hmem
        obtain ⟨kg, hkg, heq⟩ := List.mem_map.mp hmem'
        have hk1 : kg.1 = key := by rw [← hkey, ← heq, hdisp kg hkg]
        have hpair : (key, g) ∈ groupFold data := by
          have : kg = (key, g) := by
            obtain ⟨k1, g1⟩ := kg
            simp only at hk1 heq
            rw [hk1, heq]
          rw [← this]
          exact hkg
        have := alookup_of_mem_nodup key g _ hnd hpair
        rw [hlk] at this
        cases this
    · rw [if_neg hfil]
      rw [if_neg hfil] at hlk
      have hmemf : (key, keyAgg key data) ∈ groupFold data := mem_of_alookup hlk
      have hval : keyAgg key data ∈ (groupFold data).map (·.2) :=
        List.mem_map.mpr ⟨_, hmemf, rfl⟩
      have hsort : keyAgg key data ∈ sortStable
          (fun x y => y.total_dmg < x.total_dmg) ((groupFold data).map (·.2)) :=
        (sortStable_perm _ _).mem_iff.mpr hval
      have hkey : (keyAgg key data).display_name = key := hdisp _ hmemf
      cases hf : (sortStable (fun x y => y.total_dmg < x.total_dmg)
          ((groupFold data).map (·.2))).find? (fun g => g.display_name = key) with
      | none =>
        exfalso
        exact (List.find?_eq_none.mp hf _ hsort) (by simp [hkey])
      | some g'' =>
        have hmem'' := List.mem_of_find?_eq_some hf
        have hkey'' : g''.display_name = key := by simpa using List.find?_some hf
        have hvals_eq : ((groupFold data).map (·.2)).map (·.display_name) =
            (groupFold data).map Prod.fst := by
          rw [List.map_map]
          exact List.map_congr_left (fun kg hkg => hdisp kg hkg)
        have hndv : (((groupFold data).map (·.2)).map (·.display_name)).Nodup := by
          rw [hvals_eq]
          exact hnd
        have hnds : ((sortStable (fun x y => y.total_dmg < x.total_dmg)
            ((groupFold data).map (·.2))).map (·.display_name)).Nodup :=
          (((sortStable_perm _ _).map _).nodup_iff).mpr hndv
        have hgg : g'' = keyAgg key data :=
          List.inj_on_of_nodup_map hnds hmem'' hsort (by rw [hkey'', hkey])
        rw [hgg]
        rfl

theorem keyAgg_aggProj_perm {data data' : List Row} (h : data.Perm data')
    (key : String) : aggProj (keyAgg key data) = aggProj (keyAgg key data') := by
  have hfil : (data.filter (fun d => d.display_name = key)).Perm
      (data'.filter (fun d => d.display_name = key)) := h.filter _
  unfold aggProj keyAgg
  simp only [Prod.mk.injEq]
  refine ⟨?_, ?_, ?_, ?_, ?_, ?_, ?_⟩
  · rw [foldl_mergeRow_display, foldl_mergeRow_display]
  · rw [foldl_mergeRow_health, foldl_mergeRow_health,
      (hfil.map (·.health_dmg)).sum_eq]
  · rw [foldl_mergeRow_armor, foldl_mergeRow_armor,
      (hfil.map (·.armor_dmg)).sum_eq]
  · rw [foldl_mergeRow_total, foldl_mergeRow_total,
      (hfil.map (·.total_dmg)).sum_eq]
  · rw [foldl_mergeRow_kills, foldl_mergeRow_kills,
      (hfil.map (·.kills)).sum_eq]
  · rw [foldl_mergeRow_first, foldl_mergeRow_first,
      foldl_omin_perm (hfil.map (·.first_hit))]
  · rw [foldl_mergeRow_last, foldl_mergeRow_last,
      foldl_omax_perm (hfil.map (·.last_hit))]

theorem group_mem_keyAgg {data : List Row} {g : MergedRow}
    (h : g ∈ group_damage_by_alias data) :
    g = keyAgg g.display_name data ∧
    (data.filter (fun d => d.display_name = g.display_name)) ≠ [] := by
  unfold group_damage_by_alias at h
  by_cases hdat : data = []
  · subst hdat
    simp at h
  · rw [if_neg hdat] at h
    obtain ⟨hnd, hdisp⟩ := groupFold_wf data
    have hval : g ∈ (groupFold data).map (·.2) :=
      (sortStable_perm _ _).mem_iff.mp h
    obtain ⟨kg, hkg, heq⟩ := List.mem_map.mp hval
    have hpair : (g.display_name, g) ∈ groupFold data := by
      have hk1 : kg.1 = g.display_name := by rw [← heq, hdisp kg hkg]
      have hkg' : kg = (g.display_name, g) := by
        obtain ⟨k1, g1⟩ := kg
        simp only at hk1 heq
        rw [hk1, heq]
      rw [← hkg']
      exact hkg
    have hlk := alookup_of_mem_nodup _ _ _ hnd hpair
    rw [groupFold_lookup] at hlk
    by_cases hfil : (data.filter (fun d => d.display_name = g.display_name)) = []
    · rw [if_pos hfil] at hlk
      cases hlk
    · rw [if_neg hfil] at hlk
      exact ⟨(Option.some.injEq _ _ ▸ hlk).symm, hfil⟩

/-- **C8 counterexample.** `group_damage_by_alias` is not invariant under
input row order: two rows sharing one display name but coming from different
players produce merged rows whose `player_ids`/`original_names` traceability
lists record the input order, so the two orderings of the same multiset of
rows give different results. -/
theorem C8_counterexample :
    ([rowA, rowB] : List Row).Perm [rowB, rowA] ∧
    group_damage_by_alias [rowA, rowB] ≠ group_damage_by_alias [rowB, rowA] := by
  constructor
  · decide
  · decide

/-- **C8 (amended).** Alias grouping is order-invariant in every aggregate
field: (1) for any permutation of the input rows, each display name's merged
row has identical display name, health/armor/total damage, kill count,
first-hit and last-hit (only the member traceability lists `player_ids` /
`original_names` depend on input order, and on ties the output order does);
(2) each merged row's damage and kill fields are the sums over its
constituent rows, its `first_hit` is the minimum and `last_hit` the maximum
of the members' non-null hit times; and (3) the output is sorted by total
damage descending. -/
theorem C8_alias_grouping_amended :
    (∀ (data data' : List Row), data.Perm data' → ∀ key : String,
        (((group_damage_by_alias data).find?
            (fun g => g.display_name = key)).map aggProj) =
        (((group_damage_by_alias data').find?
            (fun g => g.display_name = key)).map aggProj)) ∧
    (∀ (data : List Row), ∀ g ∈ group_damage_by_alias data,
        g.health_dmg = ((data.filter
          (fun d => d.display_name = g.display_name)).map (·.health_dmg)).sum ∧
        g.armor_dmg = ((data.filter
          (fun d => d.display_name = g.display_name)).map (·.armor_dmg)).sum ∧
        g.total_dmg = ((data.filter
          (fun d => d.display_name = g.display_name)).map (·.total_dmg)).sum ∧
        g.kills = ((data.filter
          (fun d => d.display_name = g.display_name)).map (·.kills)).sum ∧
        g.first_hit = ((data.filter
          (fun d => d.display_name = g.display_name)).map (·.first_hit)).foldl omin none ∧
        g.last_hit = ((data.filter
          (fun d => d.display_name = g.display_name)).map (·.last_hit)).foldl omax none ∧
        (∀ v : Int, g.first_hit = some v →
          (∀ d ∈ data.filter (fun d => d.display_name = g.display_name),
            ∀ x : Int, d.first_hit = some x → v ≤ x) ∧
          (∃ d ∈ data.filter (fun d => d.display_name = g.display_name),
            d.first_hit = some v)) ∧
        (∀ v : Int, g.last_hit = some v →
          (∀ d ∈ data.filter (fun d => d.display_name = g.display_name),
            ∀ x : Int, d.last_hit = some x → x ≤ v) ∧
          (∃ d ∈ data.filter (fun d => d.display_name = g.display_name),
            d.last_hit = some v))) ∧
    (∀ data : List Row, (group_damage_by_alias data).Pairwise
        (fun a b => b.total_dmg ≤ a.total_dmg)) := by
  refine ⟨?_, ?_, ?_⟩
  · intro data data' hperm key
    rw [group_find_agg, group_find_agg]
    have hfp := hperm.filter (fun d => d.display_name = key)
    by_cases hfil : (data.filter (fun d => d.display_name = key)) = []
    · rw [if_pos hfil]
      rw [hfil] at hfp
      rw [if_pos (hfp.symm.eq_nil)]
    · rw [if_neg hfil, if_neg (fun hc => hfil (by rw [hc] at hfp; exact hfp.eq_nil))]
      rw [keyAgg_aggProj_perm hperm key]
  · intro data g hg
    obtain ⟨hEq, hfil⟩ := group_mem_keyAgg hg
    have hh := foldl_mergeRow_health
      (data.filter (fun d => d.display_name = g.display_name)) (newMerged g.display_name)
    have ha := foldl_mergeRow_armor
      (data.filter (fun d => d.display_name = g.display_name)) (newMerged g.display_name)
    have ht := foldl_mergeRow_total
      (data.filter (fun d => d.display_name = g.display_name)) (newMerged g.display_name)
    have hk := foldl_mergeRow_kills
      (data.filter (fun d => d.display_name = g.display_name)) (newMerged g.display_name)
    have hf := foldl_mergeRow_first
      (data.filter (fun d => d.display_name = g.display_name)) (newMerged g.display_name)
    have hl := foldl_mergeRow_last
      (data.filter (fun d => d.display_name = g.display_name)) (newMerged g.display_name)
    refine ⟨?_, ?_, ?_, ?_, ?_, ?_, ?_, ?_⟩
    · conv_lhs => rw [hEq]
      unfold keyAgg
      rw [hh]
      simp [newMerged]
    · conv_lhs => rw [hEq]
      unfold keyAgg
      rw [ha]
      simp [newMerged]
    · conv_lhs => rw [hEq]
      unfold keyAgg
      rw [ht]
      simp [newMerged]
    · conv_lhs => rw [hEq]
      unfold keyAgg
      rw [hk]
      simp [newMerged]
    · conv_lhs => rw [hEq]
      unfold keyAgg
      rw [hf]
      simp [newMerged]
    · conv_lhs => rw [hEq]
      unfold keyAgg
      rw [hl]
      simp [newMerged]
    · intro v hv
      have hv' : ((data.filter (fun d => d.display_name = g.display_name)).map
          (·.first_hit)).foldl omin none = some v := by
        rw [← hv]
        conv_rhs => rw [hEq]
        unfold keyAgg
        rw [hf]
        simp [newMerged]
      obtain ⟨hle, -⟩ := ominFold_le _ none v hv'
      constructor
      · intro d hd x hx
        exact hle x (List.mem_map.mpr ⟨d, hd, hx⟩)
      · rcases ominFold_mem _ none v hv' with hm | hm
        · obtain ⟨d, hd, hdx⟩ := List.mem_map.mp hm
          exact ⟨d, hd, hdx⟩
        · cases hm
    · intro v hv
      have hv' : ((data.filter (fun d => d.display_name = g.display_name)).map
          (·.last_hit)).foldl omax none = some v := by
        rw [← hv]
        conv_rhs => rw [hEq]
        unfold keyAgg
        rw [hl]
        simp [newMerged]
      obtain ⟨hle, -⟩ := omaxFold_le _ none v hv'
      constructor
      · intro d hd x hx
        exact hle x (List.mem_map.mpr ⟨d, hd, hx⟩)
      · rcases omaxFold_mem _ none v hv' with hm | hm
        · obtain ⟨d, hd, hdx⟩ := List.mem_map.mp hm
          exact ⟨d, hd, hdx⟩
        · cases hm
  · intro data
    unfold group_damage_by_alias
    by_cases hdat : data = []
    · rw [if_pos hdat]
      simp
    · rw [if_neg hdat]
      have hs := sortStable_sorted (fun x y : MergedRow => y.total_dmg < x.total_dmg)
        (fun a b hab => by simp at hab ⊢; omega)
        (fun a b c hab hcb => by simp at hab hcb ⊢; omega)
        ((groupFold data).map (·.2))
      exact hs.imp (fun hab => by simp at hab; omega)

/-- Witness for the amended C8: the permutation hypothesis discharged at the
two orderings used by the counterexample. -/
theorem C8_alias_grouping_amended_witness :
    (((group_damage_by_alias [rowA, rowB]).find?
        (fun g => g.display_name = "Team")).map aggProj) =
    (((group_damage_by_alias [rowB, rowA]).find?
        (fun g => g.display_name = "Team")).map aggProj) :=
  C8_alias_grouping_amended.1 [rowA, rowB] [rowB, rowA] (by decide) "Team"

/-- **C1 counterexample.** Batch re-import of the identical file with the
identical log date is not idempotent in general: over `twoZoneLines` (two
zone transitions, one damage event in each zone) the first run stores 2
events but the second run inserts 2 more.  The second import re-creates both
zone instances under fresh zone ids (entering `AreaOne` closes the still-open
`AreaTwo` of run 1 and appends a new instance, and vice versa), so every
re-parsed event carries an unseen `(zone_id, npc, player, health, armor)`
signature, and the signature set after run 2 differs from the one after
run 1. -/
theorem C1_counterexample :
    twoZoneRun1.events_list.length = 2 ∧
    twoZoneRun2.events_list.length = 4 ∧
    get_all_existing_event_keys twoZoneRun2 (some "2024-01-01") ≠
      get_all_existing_event_keys twoZoneRun1 (some "2024-01-01") := by
  refine ⟨by rfl, by rfl, by decide⟩

theorem alookup_singleton_cases [DecidableEq α] {k a : α} {b v : β}
    (h : alookup k [(a, b)] = some v) : a = k ∧ b = v := by
  by_cases hk : a = k
  · subst hk
    simp [alookup] at h
    exact ⟨rfl, h⟩
  · simp [alookup, hk] at h

theorem batch_fold_spec (names : List String) :
    ∀ (L : List (String × Nat)) (st : PandasDataStore),
    (∀ n pid, alookup n L = some pid →
      alookup n st.player_name_to_id = some pid ∧ 1 ≤ pid) →
    (∀ q ∈ st.player_name_to_id, 1 ≤ q.2) → 1 ≤ st.next_player_id →
    (names.foldl batchPlayerStep (L, st)).2.zones_list = st.zones_list ∧
    (names.foldl batchPlayerStep (L, st)).2.events_list = st.events_list ∧
    (names.foldl batchPlayerStep (L, st)).2.wisdom_list = st.wisdom_list ∧
    (names.foldl batchPlayerStep (L, st)).2.next_event_id = st.next_event_id ∧
    (names.foldl batchPlayerStep (L, st)).2.next_zone_id = st.next_zone_id ∧
    (names.foldl batchPlayerStep (L, st)).2.aliases = st.aliases ∧
    (∃ v, (names.foldl batchPlayerStep (L, st)).2.player_name_to_id =
      st.player_name_to_id ++ v) ∧
    (∀ q ∈ (names.foldl batchPlayerStep (L, st)).2.player_name_to_id, 1 ≤ q.2) ∧
    1 ≤ (names.foldl batchPlayerStep (L, st)).2.next_player_id ∧
    (∀ n pid, alookup n (names.foldl batchPlayerStep (L, st)).1 = some pid →
      alookup n (names.foldl batchPlayerStep (L, st)).2.player_name_to_id = some pid ∧
      1 ≤ pid) ∧
    (∀ n pid, alookup n L = some pid →
      alookup n (names.foldl batchPlayerStep (L, st)).1 = some pid) ∧
    (∀ n ∈ names, ∃ pid, alookup n (names.foldl batchPlayerStep (L, st)).1 = some pid) := by
  induction names with
  | nil =>
    intro L st hcons hpids hnext
    refine ⟨rfl, rfl, rfl, rfl, rfl, rfl, ⟨[], by simp⟩, hpids, hnext, hcons,
      fun n pid h => h, fun n hn => absurd hn (List.not_mem_nil n)⟩
  | cons name rest ih =>
    intro L st hcons hpids hnext
    rw [List.foldl_cons]
    cases hL : alookup name L with
    | some pid0 =>
      have hstep : batchPlayerStep (L, st) name = (L, st) := by
        unfold batchPlayerStep
        rw [hL]
      rw [hstep]
      obtain ⟨z, e, w, ne, nz, al, mp, pi, nx, co, mo, cov⟩ := ih L st hcons hpids hnext
      exact ⟨z, e, w, ne, nz, al, mp, pi, nx, co, mo, fun n hn => by
        rcases List.mem_cons.mp hn with h | h
        · exact ⟨pid0, mo n pid0 (h ▸ hL)⟩
        · exact cov n h⟩
    | none =>
      cases hm : alookup name st.player_name_to_id with
      | some pid0 =>
        have hstep : batchPlayerStep (L, st) name = (L ++ [(name, pid0)], st) := by
          unfold batchPlayerStep
          rw [hL]
          unfold get_or_create_player
          rw [hm]
        rw [hstep]
        have hcons' : ∀ n pid, alookup n (L ++ [(name, pid0)]) = some pid →
            alookup n st.player_name_to_id = some pid ∧ 1 ≤ pid := by
          intro n pid h
          cases hn : alookup n L with
          | some q =>
            rw [alookup_append_some n L _ q hn] at h
            exact hcons n pid (h ▸ hn)
          | none =>
            rw [alookup_append_none n L _ hn] at h
            obtain ⟨hnm, hpv⟩ := alookup_singleton_cases h
            subst hnm
            subst hpv
            exact ⟨hm, hpids _ (mem_of_alookup hm) ⟩
        obtain ⟨z, e, w, ne, nz, al, mp, pi, nx, co, mo, cov⟩ :=
          ih (L ++ [(name, pid0)]) st hcons' hpids hnext
        refine ⟨z, e, w, ne, nz, al, mp, pi, nx, co, ?_, ?_⟩
        · intro n pid h
          exact mo n pid (alookup_append_some n L _ pid h)
        · intro n hn
          rcases List.mem_cons.mp hn with h | h
          · have hL2 : alookup n L = none := by rw [h]; exact hL
            refine ⟨pid0, mo n pid0 ?_⟩
            rw [alookup_append_none n L _ hL2]
            simp [alookup, h]
          · exact cov n h
      | none =>
        have hstep : batchPlayerStep (L, st) name =
            (L ++ [(name, st.next_player_id)],
             { st with
                next_player_id := st.next_player_id + 1
                players_list := st.players_list ++
                  [{ player_id := st.next_player_id, original_name := name,
                     «alias» := alookup name st.aliases }]
                player_name_to_id := st.player_name_to_id ++ [(name, st.next_player_id)]
                player_id_to_info := st.player_id_to_info ++
                  [(st.next_player_id,
                    { name := name, «alias» := alookup name st.aliases })] }) := by
          unfold batchPlayerStep
          rw [hL]
          unfold get_or_create_player
          rw [hm]
        rw [hstep]
        have hcons' : ∀ n pid, alookup n (L ++ [(name, st.next_player_id)]) = some pid →
            alookup n (st.player_name_to_id ++ [(name, st.next_player_id)]) = some pid ∧
            1 ≤ pid := by
          intro n pid h
          cases hn : alookup n L with
          | some q =>
            rw [alookup_append_some n L _ q hn] at h
            obtain ⟨hb, hp⟩ := hcons n pid (h ▸ hn)
            exact ⟨alookup_append_some n _ _ pid hb, hp⟩
          | none =>
            rw [alookup_append_none n L _ hn] at h
            obtain ⟨hnm, hpv⟩ := alookup_singleton_cases h
            subst hnm
            subst hpv
            refine ⟨?_, hnext⟩
            rw [alookup_append_none name _ _ hm]
            simp [alookup]
        have hpids' : ∀ q ∈ st.player_name_to_id ++ [(name, st.next_player_id)],
            1 ≤ q.2 := by
          intro q hq
          rcases List.mem_append.mp hq with h | h
          · exact hpids q h
          · rcases List.mem_singleton.mp h with rfl
            exact hnext
        obtain ⟨z, e, w, ne, nz, al, mp, pi, nx, co, mo, cov⟩ :=
          ih (L ++ [(name, st.next_player_id)])
            { st with
                next_player_id := st.next_player_id + 1
                players_list := st.players_list ++
                  [{ player_id := st.next_player_id, original_name := name,
                     «alias» := alookup name st.aliases }]
                player_name_to_id := st.player_name_to_id ++ [(name, st.next_player_id)]
                player_id_to_info := st.player_id_to_info ++
                  [(st.next_player_id,
                    { name := name, «alias» := alookup name st.aliases })] }
            hcons' hpids' (by show 1 ≤ st.next_player_id + 1; omega)
        refine ⟨z, e, w, ne, nz, al, ?_, pi, nx, co, ?_, ?_⟩
        · obtain ⟨v, hv⟩ := mp
          exact ⟨[(name, st.next_player_id)] ++ v, by rw [hv]; simp⟩
        · intro n pid h
          exact mo n pid (alookup_append_some n L _ pid h)
        · intro n hn
          rcases List.mem_cons.mp hn with h | h
          · have hL2 : alookup n L = none := by rw [h]; exact hL
            refine ⟨st.next_player_id, mo n _ ?_⟩
            rw [alookup_append_none n L _ hL2]
            simp [alookup, h]
          · exact cov n h

theorem batchPlayerStep_fst (L : List (String × Nat)) (st : PandasDataStore)
    (name : String) :
    (batchPlayerStep (L, st) name).1 = L ∨
    ∃ x, (batchPlayerStep (L, st) name).1 = L ++ [(name, x)] := by
  unfold batchPlayerStep
  cases hL : alookup name L with
  | some q => exact Or.inl rfl
  | none =>
    right
    dsimp only
    unfold get_or_create_player
    cases hm : alookup name st.player_name_to_id with
    | some q => exact ⟨q, rfl⟩
    | none => exact ⟨st.next_player_id, rfl⟩

theorem batch_first_persists (names : List String) :
    ∀ (L : List (String × Nat)) (st : PandasDataStore) (n : String) (pid : Nat),
    alookup n L = some pid →
    alookup n (names.foldl batchPlayerStep (L, st)).1 = some pid := by
  induction names with
  | nil =>
    intro L st n pid h
    exact h
  | cons name rest ih =>
    intro L st n pid h
    rw [List.foldl_cons]
    rcases hacc : batchPlayerStep (L, st) name with ⟨L2, st2⟩
    have hfst := batchPlayerStep_fst L st name
    rw [hacc] at hfst
    rcases hfst with he | ⟨x, he⟩
    · exact ih L2 st2 n pid (by dsimp only at he; rw [he]; exact h)
    · exact ih L2 st2 n pid
        (by dsimp only at he; rw [he]; exact alookup_append_some n L _ pid h)

theorem batch_fold_noop (names : List String) :
    ∀ (L : List (String × Nat)) (st : PandasDataStore),
    (∀ n ∈ names, ∃ pid, alookup n st.player_name_to_id = some pid) →
    (∀ n pid, alookup n L = some pid → alookup n st.player_name_to_id = some pid) →
    (names.foldl batchPlayerStep (L, st)).2 = st ∧
    (∀ n pid, alookup n (names.foldl batchPlayerStep (L, st)).1 = some pid →
      alookup n st.player_name_to_id = some pid) ∧
    (∀ n ∈ names, ∃ pid,
      alookup n (names.foldl batchPlayerStep (L, st)).1 = some pid ∧
      alookup n st.player_name_to_id = some pid) := by
  induction names with
  | nil =>
    intro L st hcov hcons
    exact ⟨rfl, hcons, fun n hn => absurd hn (List.not_mem_nil n)⟩
  | cons name rest ih =>
    intro L st hcov hcons
    rw [List.foldl_cons]
    obtain ⟨pid0, hm⟩ := hcov name (List.mem_cons_self name rest)
    cases hL : alookup name L with
    | some q =>
      have hstep : batchPlayerStep (L, st) name = (L, st) := by
        unfold batchPlayerStep
        rw [hL]
      rw [hstep]
      obtain ⟨hst, hco, hcv⟩ :=
        ih L st (fun n hn => hcov n (List.mem_cons_of_mem _ hn)) hcons
      refine ⟨hst, hco, fun n hn => ?_⟩
      rcases List.mem_cons.mp hn with h | h
      · refine ⟨q, ?_, ?_⟩
        · exact batch_first_persists rest L st n q (by rw [h]; exact hL)
        · exact hcons n q (by rw [h]; exact hL)
      · exact hcv n h
    | none =>
      have hstep : batchPlayerStep (L, st) name = (L ++ [(name, pid0)], st) := by
        unfold batchPlayerStep
        rw [hL]
        dsimp only
        unfold get_or_create_player
        rw [hm]
      rw [hstep]
      have hcons' : ∀ n pid, alookup n (L ++ [(name, pid0)]) = some pid →
          alookup n st.player_name_to_id = some pid := by
        intro n pid h
        cases hn : alookup n L with
        | some r =>
          rw [alookup_append_some n L _ r hn] at h
          exact hcons n pid (h ▸ hn)
        | none =>
          rw [alookup_append_none n L _ hn] at h
          obtain ⟨hnm, hpv⟩ := alookup_singleton_cases h
          subst hnm
          subst hpv
          exact hm
      obtain ⟨hst, hco, hcv⟩ :=
        ih (L ++ [(name, pid0)]) st (fun n hn => hcov n (List.mem_cons_of_mem _ hn)) hcons'
      refine ⟨hst, hco, fun n hn => ?_⟩
      rcases List.mem_cons.mp hn with h | h
      · have hL2 : alookup n L = none := by rw [h]; exact hL
        have hone : alookup n (L ++ [(name, pid0)]) = some pid0 := by
          rw [alookup_append_none n L _ hL2]
          simp [alookup, h]
        exact ⟨pid0, batch_first_persists rest _ st n pid0 hone, hcons' n pid0 hone⟩
      · exact hcv n h

theorem truthyId_pos (n : Nat) (h : 1 ≤ n) : truthyId (some n) = true := by
  cases n with
  | zero => omega
  | succ m => rfl

theorem dedupFirst_acc_mem [DecidableEq α] (l : List α) :
    ∀ acc : List α, ∀ x, (x ∈ acc ∨ x ∈ l) →
    x ∈ l.foldl (fun acc x => if x ∈ acc then acc else acc ++ [x]) acc := by
  induction l with
  | nil =>
    intro acc x h
    rcases h with h | h
    · exact h
    · exact absurd h (List.not_mem_nil x)
  | cons y t ih =>
    intro acc x h
    rw [List.foldl_cons]
    by_cases hy : y ∈ acc
    · rw [if_pos hy]
      rcases h with h | h
      · exact ih acc x (Or.inl h)
      · rcases List.mem_cons.mp h with h | h
        · exact ih acc x (Or.inl (h ▸ hy))
        · exact ih acc x (Or.inr h)
    · rw [if_neg hy]
      rcases h with h | h
      · exact ih _ x (Or.inl (List.mem_append_left _ h))
      · rcases List.mem_cons.mp h with h | h
        · exact ih _ x (Or.inl (List.mem_append_right _ (by simp [h])))
        · exact ih _ x (Or.inr h)

theorem mem_dedupFirst [DecidableEq α] (l : List α) (x : α) (h : x ∈ l) :
    x ∈ dedupFirst l :=
  dedupFirst_acc_mem l [] x (Or.inr h)

theorem flush_fold_noop (ld : Option String) (M : List (String × Nat)) (zid : Nat)
    (hz : 1 ≤ zid) (buffer : List DamageEvent) :
    ∀ (st : PandasDataStore) (seen : List EventKey)
      (zc : List ((String × Option String) × Nat)) (out : List BatchTuple),
    (∀ e ∈ buffer, e.zone_id = some zid) →
    (∀ e ∈ buffer, flushKey M zid e ∈ seen) →
    buffer.foldl (flushStep ld M) (st, seen, zc, out) = (st, seen, zc, out) := by
  induction buffer with
  | nil =>
    intro st seen zc out _ _
    rfl
  | cons e rest ih =>
    intro st seen zc out hzs hks
    rw [List.foldl_cons]
    have hstep : flushStep ld M (st, seen, zc, out) e = (st, seen, zc, out) := by
      have hk := hks e (List.mem_cons_self e rest)
      rw [flushKey] at hk
      unfold flushStep
      dsimp only
      cases htr : truthyId (alookup e.player_name M) with
      | false => rfl
      | true =>
        simp only [hzs e (List.mem_cons_self e rest), truthyId_pos zid hz,
          eq_self_iff_true, if_true, Option.getD_some]
        rw [if_pos hk]
    rw [hstep]
    exact ih st seen zc out (fun x hx => hzs x (List.mem_cons_of_mem e hx))
      (fun x hx => hks x (List.mem_cons_of_mem e hx))

theorem flushStep_truthy_cases (ld : Option String) (M : List (String × Nat))
    (zid : Nat) (hz : 1 ≤ zid) (e : DamageEvent) (hze : e.zone_id = some zid)
    (st : PandasDataStore) (seen : List EventKey)
    (zc : List ((String × Option String) × Nat)) (out : List BatchTuple) :
    (truthyId (alookup e.player_name M) = false ∧
      flushStep ld M (st, seen, zc, out) e = (st, seen, zc, out)) ∨
    (truthyId (alookup e.player_name M) = true ∧ flushKey M zid e ∈ seen ∧
      flushStep ld M (st, seen, zc, out) e = (st, seen, zc, out)) ∨
    (truthyId (alookup e.player_name M) = true ∧ flushKey M zid e ∉ seen ∧
      flushStep ld M (st, seen, zc, out) e =
        (st, flushKey M zid e :: seen, zc,
         out ++ [{ zone_id := zid, npc_id := e.npc_id, npc_name := e.npc_name,
                   player_id := (alookup e.player_name M).getD 0,
                   health_dmg := e.health_dmg, armor_dmg := e.armor_dmg,
                   aggro_percent := e.aggro_percent, timestamp := e.timestamp,
                   character_name := e.character_name }])) := by
  unfold flushStep
  dsimp only
  cases htr : truthyId (alookup e.player_name M) with
  | false => exact Or.inl ⟨rfl, rfl⟩
  | true =>
    by_cases hk : flushKey M zid e ∈ seen
    · refine Or.inr (Or.inl ⟨rfl, hk, ?_⟩)
      rw [flushKey] at hk
      simp only [hze, truthyId_pos zid hz, eq_self_iff_true, if_true, Option.getD_some]
      rw [if_pos hk]
    · refine Or.inr (Or.inr ⟨rfl, hk, ?_⟩)
      rw [flushKey] at hk
      simp only [hze, truthyId_pos zid hz, eq_self_iff_true, if_true, Option.getD_some]
      rw [if_neg hk]
      rw [flushKey]

theorem flush_fold_spec (ld : Option String) (M : List (String × Nat)) (zid : Nat)
    (hz : 1 ≤ zid) (buffer : List DamageEvent)
    (hzs : ∀ e ∈ buffer, e.zone_id = some zid) :
    ∀ (st : PandasDataStore) (seen : List EventKey)
      (zc : List ((String × Option String) × Nat)) (out : List BatchTuple),
    (buffer.foldl (flushStep ld M) (st, seen, zc, out)).1 = st ∧
    (buffer.foldl (flushStep ld M) (st, seen, zc, out)).2.2.1 = zc ∧
    (∃ w, (buffer.foldl (flushStep ld M) (st, seen, zc, out)).2.2.2 = out ++ w) ∧
    (∀ k ∈ seen, k ∈ (buffer.foldl (flushStep ld M) (st, seen, zc, out)).2.1) ∧
    (∀ k ∈ (buffer.foldl (flushStep ld M) (st, seen, zc, out)).2.1,
      k ∈ seen ∨
      k ∈ ((buffer.foldl (flushStep ld M) (st, seen, zc, out)).2.2.2).map tupleKey) ∧
    (∀ e ∈ buffer, truthyId (alookup e.player_name M) = true →
      flushKey M zid e ∈ (buffer.foldl (flushStep ld M) (st, seen, zc, out)).2.1) ∧
    (∀ t ∈ (buffer.foldl (flushStep ld M) (st, seen, zc, out)).2.2.2,
      t ∈ out ∨ t.zone_id = zid) := by
  induction buffer with
  | nil =>
    intro st seen zc out
    exact ⟨rfl, rfl, ⟨[], by simp⟩, fun k hk => hk, fun k hk => Or.inl hk,
      fun e he => absurd he (List.not_mem_nil e),
      fun t ht => Or.inl ht⟩
  | cons e rest ih =>
    intro st seen zc out
    rw [List.foldl_cons]
    have hze := hzs e (List.mem_cons_self e rest)
    have hzs' : ∀ x ∈ rest, x.zone_id = some zid :=
      fun x hx => hzs x (List.mem_cons_of_mem e hx)
    rcases flushStep_truthy_cases ld M zid hz e hze st seen zc out with
      ⟨htr, hs⟩ | ⟨htr, hks, hs⟩ | ⟨htr, hks, hs⟩
    · rw [hs]
      obtain ⟨h1, h2, h3, h4, h5, h6, h7⟩ := ih hzs' st seen zc out
      refine ⟨h1, h2, h3, h4, h5, fun x hx htx => ?_, h7⟩
      rcases List.mem_cons.mp hx with h | h
      · rw [h] at htx
        rw [htx] at htr
        cases htr
      · exact h6 x h htx
    · rw [hs]
      obtain ⟨h1, h2, h3, h4, h5, h6, h7⟩ := ih hzs' st seen zc out
      refine ⟨h1, h2, h3, h4, h5, fun x hx htx => ?_, h7⟩
      rcases List.mem_cons.mp hx with h | h
      · exact h4 _ (by rw [h]; exact hks)
      · exact h6 x h htx
    · rw [hs]
      obtain ⟨h1, h2, h3, h4, h5, h6, h7⟩ :=
        ih hzs' st (flushKey M zid e :: seen) zc
          (out ++ [{ zone_id := zid, npc_id := e.npc_id, npc_name := e.npc_name,
                     player_id := (alookup e.player_name M).getD 0,
                     health_dmg := e.health_dmg, armor_dmg := e.armor_dmg,
                     aggro_percent := e.aggro_percent, timestamp := e.timestamp,
                     character_name := e.character_name }])
      refine ⟨h1, h2, ?_, ?_, ?_, ?_, ?_⟩
      · obtain ⟨w, hw⟩ := h3
        exact ⟨_, by rw [hw, List.append_assoc]⟩
      · intro k hk
        exact h4 k (List.mem_cons_of_mem _ hk)
      · intro k hk
        rcases h5 k hk with h | h
        · rcases List.mem_cons.mp h with h | h
          · right
            obtain ⟨w, hw⟩ := h3
            refine List.mem_map.mpr
              ⟨{ zone_id := zid, npc_id := e.npc_id, npc_name := e.npc_name,
                 player_id := (alookup e.player_name M).getD 0,
                 health_dmg := e.health_dmg, armor_dmg := e.armor_dmg,
                 aggro_percent := e.aggro_percent, timestamp := e.timestamp,
                 character_name := e.character_name }, ?_, ?_⟩
            · rw [hw]
              exact List.mem_append_left w (List.mem_append_right out (by simp))
            · rw [h]
              rfl
          · exact Or.inl h
        · exact Or.inr h
      · intro x hx htx
        rcases List.mem_cons.mp hx with h | h
        · exact h4 _ (by rw [h]; exact List.mem_cons_self _ _)
        · exact h6 x h htx
      · intro t ht
        rcases h7 t ht with h | h
        · rcases List.mem_append.mp h with h | h
          · exact Or.inl h
          · right
            rcases List.mem_singleton.mp h with rfl
            rfl
        · exact Or.inr h

theorem insert_fold_shape (out : List BatchTuple) :
    ∀ st : PandasDataStore,
    ∃ rows,
      (out.foldl insertTupleStep st).events_list = st.events_list ++ rows ∧
      rows.map eventKey = out.map tupleKey ∧
      (∀ r ∈ rows, ∃ t ∈ out, r.zone_id = some t.zone_id) ∧
      (out.foldl insertTupleStep st).zones_list = st.zones_list ∧
      (out.foldl insertTupleStep st).players_list = st.players_list ∧
      (out.foldl insertTupleStep st).player_name_to_id = st.player_name_to_id ∧
      (out.foldl insertTupleStep st).player_id_to_info = st.player_id_to_info ∧
      (out.foldl insertTupleStep st).wisdom_list = st.wisdom_list ∧
      (out.foldl insertTupleStep st).aliases = st.aliases ∧
      (out.foldl insertTupleStep st).next_player_id = st.next_player_id ∧
      (out.foldl insertTupleStep st).next_zone_id = st.next_zone_id := by
  induction out with
  | nil =>
    intro st
    exact ⟨[], by simp, rfl, fun r hr => absurd hr (List.not_mem_nil r),
      rfl, rfl, rfl, rfl, rfl, rfl, rfl, rfl⟩
  | cons t rest ih =>
    intro st
    rw [List.foldl_cons]
    obtain ⟨rows, he, hk, hz, z1, z2, z3, z4, z5, z6, z7, z8⟩ := ih (insertTupleStep st t)
    refine ⟨{ event_id := st.next_event_id, zone_id := some t.zone_id,
              npc_id := t.npc_id, npc_name := t.npc_name, player_id := t.player_id,
              health_dmg := t.health_dmg, armor_dmg := t.armor_dmg,
              aggro_percent := t.aggro_percent, timestamp := t.timestamp,
              character_name := t.character_name } :: rows,
      ?_, ?_, ?_, z1, z2, z3, z4, z5, z6, z7, z8⟩
    · rw [he]
      show st.events_list ++ [_] ++ rows = _
      rw [List.append_assoc]
      rfl
    · rw [List.map_cons, hk]
      rfl
    · intro r hr
      rcases List.mem_cons.mp hr with h | h
      · exact ⟨t, List.mem_cons_self t rest, by rw [h]⟩
      · obtain ⟨u, hu, hru⟩ := hz r h
        exact ⟨u, List.mem_cons_of_mem t hu, hru⟩

theorem flush_batch_single_zone (A ld : String) (Z : ZoneRec)
    (s : PandasDataStore) (p : LogParser) (inv : SingleZoneInv A ld Z s p) :
    SingleZoneInv A ld Z (flush_batch s p).1 (flush_batch s p).2.1 ∧
    storeGrow s (flush_batch s p).1 ∧
    (∃ se, (flush_batch s p).2.1 = { p with pending_events := [], seen_events := se }) ∧
    (∀ e ∈ p.pending_events, ∃ pid,
      alookup e.player_name (flush_batch s p).1.player_name_to_id = some pid ∧
      1 ≤ pid ∧
      flushKey (flush_batch s p).1.player_name_to_id Z.zone_id e ∈
        (flush_batch s p).1.events_list.map eventKey) := by
  unfold flush_batch
  by_cases hpe : p.pending_events = []
  · rw [if_pos hpe]
    refine ⟨inv, ⟨rfl, ⟨[], by simp⟩, ⟨[], by simp⟩⟩, ⟨p.seen_events, ?_⟩, ?_⟩
    · show p = _
      rw [← hpe]
    · intro e he
      rw [hpe] at he
      exact absurd he (List.not_mem_nil e)
  · rw [if_neg hpe]
    have hcons0 : ∀ (n : String) (pid : Nat), alookup n ([] : List (String × Nat)) = some pid →
        alookup n s.player_name_to_id = some pid ∧ 1 ≤ pid := by
      intro n pid h
      simp [alookup] at h
    obtain ⟨bz, be, bw, bne, bnz, bal, bmp, bpi, bnx, bco, bmo, bcov⟩ :=
      batch_fold_spec (dedupFirst (p.pending_events.map (·.player_name))) [] s
        hcons0 inv.pids inv.pnext
    rcases hb : get_or_create_players_batch s
        (dedupFirst (p.pending_events.map (·.player_name))) with ⟨L, s₁⟩
    have hbf : (dedupFirst (p.pending_events.map (·.player_name))).foldl
        batchPlayerStep ([], s) = (L, s₁) := hb
    rw [hbf] at bz be bw bne bnz bal bmp bpi bnx bco bmo bcov
    dsimp only at bz be bw bne bnz bal bmp bpi bnx bco bmo bcov
    obtain ⟨f1, f2, f3, f4, f5, f6, f7⟩ :=
      flush_fold_spec p.log_date L Z.zone_id inv.zid p.pending_events inv.pend
        s₁ p.seen_events p.zones_created []
    rcases hf : p.pending_events.foldl (flushStep p.log_date L)
        (s₁, p.seen_events, p.zones_created, []) with ⟨s₂, seen', zc', out⟩
    rw [hf] at f1 f2 f3 f4 f5 f6 f7
    dsimp only at f1 f2 f3 f4 f5 f6 f7
    have hrows : ∃ rows,
        (insert_damage_events_batch s₂ out).1.events_list = s₂.events_list ++ rows ∧
        rows.map eventKey = out.map tupleKey ∧
        (∀ r ∈ rows, ∃ t ∈ out, r.zone_id = some t.zone_id) ∧
        (insert_damage_events_batch s₂ out).1.zones_list = s₂.zones_list ∧
        (insert_damage_events_batch s₂ out).1.players_list = s₂.players_list ∧
        (insert_damage_events_batch s₂ out).1.player_name_to_id = s₂.player_name_to_id ∧
        (insert_damage_events_batch s₂ out).1.player_id_to_info = s₂.player_id_to_info ∧
        (insert_damage_events_batch s₂ out).1.wisdom_list = s₂.wisdom_list ∧
        (insert_damage_events_batch s₂ out).1.aliases = s₂.aliases ∧
        (insert_damage_events_batch s₂ out).1.next_player_id = s₂.next_player_id ∧
        (insert_damage_events_batch s₂ out).1.next_zone_id = s₂.next_zone_id := by
      unfold insert_damage_events_batch
      by_cases ho : out = []
      · rw [if_pos ho]
        exact ⟨[], by simp, by simp [ho], fun r hr => absurd hr (List.not_mem_nil r),
          rfl, rfl, rfl, rfl, rfl, rfl, rfl, rfl⟩
      · rw [if_neg ho]
        obtain ⟨rows, h⟩ := insert_fold_shape out s₂
        exact ⟨rows, h⟩
    obtain ⟨rows, i1, i2, i3, i4, i5, i6, i7, i8, i9, i10, i11⟩ := hrows
    rcases hi : insert_damage_events_batch s₂ out with ⟨s₃, count⟩
    rw [hi] at i1 i4 i5 i6 i7 i8 i9 i10 i11
    dsimp only at i1 i4 i5 i6 i7 i8 i9 i10 i11
    dsimp only
    have hs21 : s₂ = s₁ := f1
    subst hs21
    rw [hb]
    dsimp only
    rw [hf]
    dsimp only
    rw [hi]
    dsimp only
    have hkeys : ∀ k ∈ seen', k ∈ s₃.events_list.map eventKey := by
      intro k hk
      rw [i1, List.map_append]
      rcases f5 k hk with h | h
      · exact List.mem_append_left _ (by
          rw [be]
          exact inv.seen k h)
      · rw [← i2] at h
        exact List.mem_append_right _ h
    have hmap3 : s₃.player_name_to_id = s₂.player_name_to_id := i6
    refine ⟨?_, ?_, ?_, ?_⟩
    · refine ⟨?_, inv.zname, inv.zchar, inv.zopen, inv.zdate, inv.zid,
        inv.pdate, inv.pchar, inv.pzid, ?_, ?_, ?_, ?_, ?_⟩
      · rw [i4, bz]
        exact inv.zones
      · intro e he
        exact absurd he (List.not_mem_nil e)
      · intro e he
        rw [i1] at he
        rcases List.mem_append.mp he with h | h
        · rw [be] at h
          exact inv.stored e h
        · obtain ⟨t, ht, hrt⟩ := i3 e h
          rcases f7 t ht with h' | h'
          · exact absurd h' (List.not_mem_nil t)
          · rw [hrt, h']
      · exact hkeys
      · intro q hq
        rw [hmap3] at hq
        exact bpi q hq
      · rw [i10]
        exact bnx
    · refine ⟨?_, ⟨rows, ?_⟩, ?_⟩
      · rw [i4, bz]
      · rw [i1, be]
      · obtain ⟨v, hv⟩ := bmp
        exact ⟨v, by rw [hmap3, hv]⟩
    · exact ⟨seen', by rw [f2]⟩
    · intro e he
      have hname : e.player_name ∈ dedupFirst (p.pending_events.map (·.player_name)) :=
        mem_dedupFirst _ _ (List.mem_map.mpr ⟨e, he, rfl⟩)
      obtain ⟨pid, hpid⟩ := bcov e.player_name hname
      obtain ⟨hmappid, hpos⟩ := bco e.player_name pid hpid
      refine ⟨pid, by rw [hmap3]; exact hmappid, hpos, ?_⟩
      have hkey : flushKey s₃.player_name_to_id Z.zone_id e = flushKey L Z.zone_id e := by
        rw [flushKey, flushKey, hmap3, hmappid, hpid]
      rw [hkey]
      exact hkeys _ (f6 e he (by rw [hpid]; exact truthyId_pos pid hpos))

theorem findLastOpen_single (Z : ZoneRec) (hch : Z.character_name = none)
    (hop : Z.left_time = none) : findLastOpen none [Z] = some Z := by
  unfold findLastOpen isOpenFor
  simp [hch, hop]

theorem parse_line_single_zone (A ld : String) (Z : ZoneRec) (now : Int)
    (s : PandasDataStore) (p : LogParser) (l : String)
    (hl : singleZoneLineB A l = true) (hb : p.batch_mode = true)
    (inv : SingleZoneInv A ld Z s p) :
    SingleZoneInv A ld Z (parse_line now s p l).1 (parse_line now s p l).2.1 ∧
    (parse_line now s p l).2.1.batch_mode = true ∧
    storeGrow s (parse_line now s p l).1 := by
  have hgrow0 : storeGrow s s := ⟨rfl, ⟨[], by simp⟩, ⟨[], by simp⟩⟩
  cases hcl : classifyLine l with
  | charL nm =>
    rw [singleZoneLineB, hcl] at hl
    cases hl
  | zoneL ts z =>
    have hzA : z = A := by
      rw [singleZoneLineB, hcl] at hl
      exact of_decide_eq_true hl
    subst hzA
    cases hts : hmsToSec ts with
    | none =>
      have hres : parse_line now s p l = (s, p, none) := by
        simp only [parse_line, hcl, hts]
      rw [hres]
      exact ⟨inv, hb, hgrow0⟩
    | some sod =>
      by_cases hdbc : p.last_zone_name = some z ∧
          ∃ t0, p.last_zone_time = some t0 ∧
            (parse_timestamp p sod).1 - t0 < p.zone_debounce_seconds
      · obtain ⟨hname, t0, ht0, hdb⟩ := hdbc
        rw [parse_line_zone_debounced now s p l ts z sod t0 hcl hts hname ht0 hdb]
        obtain ⟨D, heq, _⟩ := parse_timestamp_cases p sod
        rw [heq]
        exact ⟨⟨inv.zones, inv.zname, inv.zchar, inv.zopen, inv.zdate, inv.zid,
          inv.pdate, inv.pchar, inv.pzid, inv.pend, inv.stored, inv.seen,
          inv.pids, inv.pnext⟩, hb, hgrow0⟩
      · rw [parse_line_zone_normal now s p l ts z sod hcl hts hdbc]
        have hcz : create_zone_entry s z p.current_character
            (parse_timestamp p sod).1 p.log_date = (Z.zone_id, s) := by
          rw [inv.pchar]
          exact create_zone_entry_reuse s z none (parse_timestamp p sod).1 p.log_date Z
            (by rw [inv.zones]; exact findLastOpen_single Z inv.zchar inv.zopen)
            inv.zname
        rw [hcz]
        dsimp only
        rw [hb]
        simp only [eq_self_iff_true, if_true]
        obtain ⟨D, heq, _⟩ := parse_timestamp_cases p sod
        rw [heq]
        dsimp only
        refine ⟨⟨inv.zones, inv.zname, inv.zchar, inv.zopen, inv.zdate, inv.zid,
          inv.pdate, inv.pchar, rfl, inv.pend, inv.stored, inv.seen,
          inv.pids, inv.pnext⟩, hb, hgrow0⟩
  | corpseL npc_id npc_name tsOpt =>
    cases tsOpt with
    | some tstr =>
      cases hts : hmsToSec tstr with
      | none =>
        have hres : parse_line now s p l = (s, p, none) := by
          simp only [parse_line, hcl, hts]
        rw [hres]
        exact ⟨inv, hb, hgrow0⟩
      | some sod =>
        obtain ⟨D, heq, _⟩ := parse_timestamp_cases p sod
        have hres : parse_line now s p l =
            (s, { (parse_timestamp p sod).2 with
                    pending_corpse :=
                      some (npc_id, stripStr npc_name, (parse_timestamp p sod).1) },
             none) := by
          simp only [parse_line, hcl, hts]
        rw [hres, heq]
        exact ⟨⟨inv.zones, inv.zname, inv.zchar, inv.zopen, inv.zdate, inv.zid,
          inv.pdate, inv.pchar, inv.pzid, inv.pend, inv.stored, inv.seen,
          inv.pids, inv.pnext⟩, hb, hgrow0⟩
    | none =>
      have hres : parse_line now s p l =
          (s, { p with pending_corpse := some (npc_id, stripStr npc_name, now) },
           none) := by
        simp only [parse_line, hcl]
      rw [hres]
      exact ⟨⟨inv.zones, inv.zname, inv.zchar, inv.zopen, inv.zdate, inv.zid,
        inv.pdate, inv.pchar, inv.pzid, inv.pend, inv.stored, inv.seen,
        inv.pids, inv.pnext⟩, hb, hgrow0⟩
  | restL dm wm =>
    have hwisInv : SingleZoneInv A ld Z
        (add_wisdom s Z.zone_id (wm.getD 0)) p :=
      ⟨inv.zones, inv.zname, inv.zchar, inv.zopen, inv.zdate, inv.zid,
       inv.pdate, inv.pchar, inv.pzid, inv.pend,
       (fun e he => inv.stored e he), (fun k hk => inv.seen k hk),
       inv.pids, inv.pnext⟩
    have hwisGrow : storeGrow s (add_wisdom s Z.zone_id (wm.getD 0)) :=
      ⟨rfl, ⟨[], by simp [add_wisdom]⟩, ⟨[], by simp [add_wisdom]⟩⟩
    cases dm with
    | none =>
      simp only [parse_line, hcl]
      cases wm with
      | none => exact ⟨inv, hb, hgrow0⟩
      | some amount =>
        rw [inv.pzid, truthyId_pos Z.zone_id inv.zid]
        dsimp only
        exact ⟨hwisInv, hb, hwisGrow⟩
    | some d =>
      cases hpc : p.pending_corpse with
      | none =>
        simp only [parse_line, hcl, hpc]
        cases wm with
        | none => exact ⟨inv, hb, hgrow0⟩
        | some amount =>
          rw [inv.pzid, truthyId_pos Z.zone_id inv.zid]
          dsimp only
          exact ⟨hwisInv, hb, hwisGrow⟩
      | some pc =>
        rcases pc with ⟨npc_id, npc_name, cts⟩
        by_cases hzero : d.health_dmg = 0 ∧ d.armor_dmg = 0
        · have hres : parse_line now s p l = (s, p, none) := by
            simp only [parse_line, hcl, hpc]
            rw [if_pos hzero]
          rw [hres]
          exact ⟨inv, hb, hgrow0⟩
        · set event : DamageEvent :=
            { player_name := stripStr d.player_name, health_dmg := d.health_dmg,
              armor_dmg := d.armor_dmg, aggro_percent := d.aggro_raw,
              npc_id := npc_id, npc_name := npc_name,
              zone_name := (p.current_zone.map (·.name)).getD "Unknown",
              timestamp := cts, character_name := p.current_character,
              zone_id := p.current_zone_id } with hev
          have hinv1 : SingleZoneInv A ld Z s
              { p with pending_events := p.pending_events ++ [event] } :=
            ⟨inv.zones, inv.zname, inv.zchar, inv.zopen, inv.zdate, inv.zid,
             inv.pdate, inv.pchar, inv.pzid,
             (by
               intro e he
               rcases List.mem_append.mp he with h | h
               · exact inv.pend e h
               · rcases List.mem_singleton.mp h with rfl
                 rw [hev]
                 exact inv.pzid),
             inv.stored, inv.seen, inv.pids, inv.pnext⟩
          by_cases hbs : BATCH_SIZE ≤ (p.pending_events ++ [event]).length
          · have hres : parse_line now s p l =
                ((flush_batch s { p with pending_events := p.pending_events ++ [event] }).1,
                 (flush_batch s { p with pending_events := p.pending_events ++ [event] }).2.1,
                 some event) := by
              simp only [parse_line, hcl, hpc]
              rw [if_neg hzero, hb]
              simp only [eq_self_iff_true, if_true]
              rw [if_pos hbs]
            rw [hres]
            obtain ⟨ji, jg, ⟨se, jp⟩, _⟩ := flush_batch_single_zone A ld Z s
              { p with pending_events := p.pending_events ++ [event] } hinv1
            refine ⟨ji, ?_, jg⟩
            rw [jp]
            exact hb
          · have hres : parse_line now s p l =
                (s, { p with pending_events := p.pending_events ++ [event] },
                 some event) := by
              simp only [parse_line, hcl, hpc]
              rw [if_neg hzero, hb]
              simp only [eq_self_iff_true, if_true]
              rw [if_neg hbs]
            rw [hres]
            exact ⟨hinv1, hb, hgrow0⟩

theorem storeGrow_trans {a b c : PandasDataStore}
    (h1 : storeGrow a b) (h2 : storeGrow b c) : storeGrow a c := by
  obtain ⟨z1, ⟨u1, e1⟩, ⟨v1, m1⟩⟩ := h1
  obtain ⟨z2, ⟨u2, e2⟩, ⟨v2, m2⟩⟩ := h2
  refine ⟨by rw [z2, z1], ⟨u1 ++ u2, ?_⟩, ⟨v1 ++ v2, ?_⟩⟩
  · rw [e2, e1, List.append_assoc]
  · rw [m2, m1, List.append_assoc]

theorem finishRun_single_zone (A ld : String) (Z : ZoneRec) (nowf : Nat → Int) :
    ∀ (ls : List String) (k : Nat) (s : PandasDataStore) (p : LogParser),
    (∀ l ∈ ls, singleZoneLineB A l = true) →
    p.batch_mode = true →
    SingleZoneInv A ld Z s p →
    SingleZoneInv A ld Z (finishRun nowf k s p ls)
      (end_batch_mode (runLinesFrom nowf k s p ls).1
        (runLinesFrom nowf k s p ls).2).2.1 ∧
    storeGrow s (finishRun nowf k s p ls) := by
  intro ls
  induction ls with
  | nil =>
    intro k s p hls hb inv
    have hinv1 : SingleZoneInv A ld Z s { p with batch_mode := false } :=
      ⟨inv.zones, inv.zname, inv.zchar, inv.zopen, inv.zdate, inv.zid,
       inv.pdate, inv.pchar, inv.pzid, inv.pend, inv.stored, inv.seen,
       inv.pids, inv.pnext⟩
    obtain ⟨ji, jg, ⟨se, jp⟩, _⟩ :=
      flush_batch_single_zone A ld Z s { p with batch_mode := false } hinv1
    unfold finishRun end_batch_mode
    dsimp only
    show SingleZoneInv A ld Z (flush_batch s { p with batch_mode := false }).1 _ ∧ _
    refine ⟨⟨ji.zones, ji.zname, ji.zchar, ji.zopen, ji.zdate, ji.zid,
      ji.pdate, ji.pchar, ji.pzid,
      (fun e he => absurd he (List.not_mem_nil e)),
      ji.stored, ji.seen, ji.pids, ji.pnext⟩, jg⟩
  | cons l rest ih =>
    intro k s p hls hb inv
    obtain ⟨inv', hb', hg'⟩ := parse_line_single_zone A ld Z (nowf k) s p l
      (hls l (List.mem_cons_self l rest)) hb inv
    have hstep : runLinesFrom nowf k s p (l :: rest) =
        runLinesFrom nowf (k + 1) (parse_line (nowf k) s p l).1
          (parse_line (nowf k) s p l).2.1 rest := rfl
    have hfin : finishRun nowf k s p (l :: rest) =
        finishRun nowf (k + 1) (parse_line (nowf k) s p l).1
          (parse_line (nowf k) s p l).2.1 rest := by
      unfold finishRun
      rw [hstep]
    obtain ⟨jinv, jg⟩ := ih (k + 1) (parse_line (nowf k) s p l).1
      (parse_line (nowf k) s p l).2.1
      (fun x hx => hls x (List.mem_cons_of_mem l hx)) hb' inv'
    rw [hfin]
    refine ⟨?_, storeGrow_trans hg' jg⟩
    unfold finishRun
    rw [hstep]
    exact jinv

theorem dedupFirst_acc_sub [DecidableEq α] (l : List α) :
    ∀ acc : List α, ∀ x,
    x ∈ l.foldl (fun acc x => if x ∈ acc then acc else acc ++ [x]) acc →
    x ∈ acc ∨ x ∈ l := by
  induction l with
  | nil =>
    intro acc x h
    exact Or.inl h
  | cons y t ih =>
    intro acc x h
    rw [List.foldl_cons] at h
    by_cases hy : y ∈ acc
    · rw [if_pos hy] at h
      rcases ih acc x h with h | h
      · exact Or.inl h
      · exact Or.inr (List.mem_cons_of_mem y h)
    · rw [if_neg hy] at h
      rcases ih _ x h with h | h
      · rcases List.mem_append.mp h with h | h
        · exact Or.inl h
        · rcases List.mem_singleton.mp h with rfl
          exact Or.inr (List.mem_cons_self x t)
      · exact Or.inr (List.mem_cons_of_mem y h)

theorem mem_of_dedupFirst [DecidableEq α] {l : List α} {x : α}
    (h : x ∈ dedupFirst l) : x ∈ l := by
  rcases dedupFirst_acc_sub l [] x h with h | h
  · exact absurd h (List.not_mem_nil x)
  · exact h

theorem flush_batch_replay (Z : ZoneRec) (s2 : PandasDataStore) (q : LogParser)
    (hz : 1 ≤ Z.zone_id)
    (hzs : ∀ e ∈ q.pending_events, e.zone_id = some Z.zone_id)
    (hnames : ∀ e ∈ q.pending_events, ∃ pid,
      alookup e.player_name s2.player_name_to_id = some pid)
    (hkeys : ∀ e ∈ q.pending_events,
      flushKey s2.player_name_to_id Z.zone_id e ∈ q.seen_events) :
    flush_batch s2 q = (s2, { q with pending_events := [] }, 0) := by
  unfold flush_batch
  by_cases hpe : q.pending_events = []
  · rw [if_pos hpe]
    show (s2, q, 0) = _
    rw [← hpe]
  · rw [if_neg hpe]
    have hcov : ∀ n ∈ dedupFirst (q.pending_events.map (·.player_name)),
        ∃ pid, alookup n s2.player_name_to_id = some pid := by
      intro n hn
      obtain ⟨e, he, hne⟩ := List.mem_map.mp (mem_of_dedupFirst hn)
      rw [← hne]
      exact hnames e he
    have hcons0 : ∀ (n : String) (pid : Nat),
        alookup n ([] : List (String × Nat)) = some pid →
        alookup n s2.player_name_to_id = some pid := by
      intro n pid h
      simp [alookup] at h
    obtain ⟨hst, hco, hcv⟩ := batch_fold_noop
      (dedupFirst (q.pending_events.map (·.player_name))) [] s2 hcov hcons0
    dsimp only
    unfold get_or_create_players_batch
    rw [hst]
    have hkey2 : ∀ e ∈ q.pending_events,
        flushKey ((dedupFirst (q.pending_events.map (·.player_name))).foldl
          batchPlayerStep ([], s2)).1 Z.zone_id e ∈ q.seen_events := by
      intro e he
      obtain ⟨pid, hL, hsm⟩ := hcv e.player_name
        (mem_dedupFirst _ _ (List.mem_map.mpr ⟨e, he, rfl⟩))
      have : flushKey ((dedupFirst (q.pending_events.map (·.player_name))).foldl
          batchPlayerStep ([], s2)).1 Z.zone_id e =
          flushKey s2.player_name_to_id Z.zone_id e := by
        rw [flushKey, flushKey, hL, hsm]
      rw [this]
      exact hkeys e he
    rw [flush_fold_noop q.log_date _ Z.zone_id hz q.pending_events s2 q.seen_events
      q.zones_created [] hzs hkey2]
    rfl

theorem parse_timestamp_match (q p : LogParser) (sod : Nat) (pm : ParserMatch q p) :
    (parse_timestamp q sod).1 = (parse_timestamp p sod).1 ∧
    ParserMatch (parse_timestamp q sod).2 (parse_timestamp p sod).2 ∧
    (parse_timestamp q sod).2.seen_events = q.seen_events := by
  obtain ⟨D1, heq1, hD1⟩ := parse_timestamp_cases p sod
  obtain ⟨D2, heq2, hD2⟩ := parse_timestamp_cases q sod
  have hD : D2 = D1 := by
    unfold parse_timestamp at heq1 heq2
    rw [pm.lts, pm.cdate] at heq2
    cases h : p.last_timestamp with
    | none =>
      rw [h] at heq1 heq2
      dsimp only at heq1 heq2
      have h1 := congrArg Prod.fst heq1
      have h2 := congrArg Prod.fst heq2
      dsimp only at h1 h2
      have h2' : (p.current_date * 86400 + sod : Int) = D2 * 86400 + sod := h2
      have h1' : (p.current_date * 86400 + sod : Int) = D1 * 86400 + sod := h1
      omega
    | some L =>
      rw [h] at heq1 heq2
      dsimp only at heq1 heq2
      by_cases hr : (p.current_date * 86400 + sod : Int) < L
      · rw [if_pos hr] at heq1 heq2
        have h1 := congrArg Prod.fst heq1
        have h2 := congrArg Prod.fst heq2
        dsimp only at h1 h2
        omega
      · rw [if_neg hr] at heq1 heq2
        have h1 := congrArg Prod.fst heq1
        have h2 := congrArg Prod.fst heq2
        dsimp only at h1 h2
        omega
  subst hD
  rw [heq1, heq2]
  refine ⟨rfl, ⟨pm.cchar, pm.czone, pm.czid, rfl, rfl, pm.pcorpse, pm.ldate,
    pm.bm, pm.pend, pm.zc, pm.lzn, pm.lzt, pm.dbs⟩, rfl⟩

theorem replay_single_zone (A ld : String) (Z : ZoneRec) (nowf : Nat → Int) :
    ∀ (ls : List String) (k : Nat) (s1 s2 : PandasDataStore) (p1 p2 : LogParser),
    (∀ l ∈ ls, singleZoneLineB A l = true) →
    p1.batch_mode = true →
    SingleZoneInv A ld Z s1 p1 →
    ParserMatch p2 p1 →
    StoreMatch s2 (finishRun nowf k s1 p1 ls) →
    (∀ key ∈ (finishRun nowf k s1 p1 ls).events_list.map eventKey,
      key ∈ p2.seen_events) →
    StoreMatch (finishRun nowf k s2 p2 ls) (finishRun nowf k s1 p1 ls) := by
  intro ls
  induction ls with
  | nil =>
    intro k s1 s2 p1 p2 hls hb inv pm hm hseed
    have hinv1 : SingleZoneInv A ld Z s1 { p1 with batch_mode := false } :=
      ⟨inv.zones, inv.zname, inv.zchar, inv.zopen, inv.zdate, inv.zid,
       inv.pdate, inv.pchar, inv.pzid, inv.pend, inv.stored, inv.seen,
       inv.pids, inv.pnext⟩
    obtain ⟨ji, jg, ⟨se, jp⟩, jcov⟩ :=
      flush_batch_single_zone A ld Z s1 { p1 with batch_mode := false } hinv1
    have hS1 : finishRun nowf k s1 p1 [] =
        (flush_batch s1 { p1 with batch_mode := false }).1 := rfl
    have hS2 : finishRun nowf k s2 p2 [] =
        (flush_batch s2 { p2 with batch_mode := false }).1 := rfl
    rw [hS1] at hm hseed ⊢
    rw [hS2]
    have hq : flush_batch s2 { p2 with batch_mode := false } =
        (s2, { { p2 with batch_mode := false } with pending_events := [] }, 0) := by
      refine flush_batch_replay Z s2 { p2 with batch_mode := false } inv.zid ?_ ?_ ?_
      · intro e he
        show e.zone_id = some Z.zone_id
        exact inv.pend e (pm.pend ▸ he)
      · intro e he
        obtain ⟨pid, hmap, _, _⟩ := jcov e (pm.pend ▸ he)
        exact ⟨pid, by rw [hm.pmap]; exact hmap⟩
      · intro e he
        have hkeq : flushKey s2.player_name_to_id Z.zone_id e =
            flushKey (flush_batch s1 { p1 with batch_mode := false }).1.player_name_to_id
              Z.zone_id e := by
          rw [flushKey, flushKey, hm.pmap]
        rw [hkeq]
        obtain ⟨pid, _, _, hkey⟩ := jcov e (pm.pend ▸ he)
        exact hseed _ hkey
    rw [hq]
    exact hm
  | cons l rest ih =>
    intro k s1 s2 p1 p2 hls hb inv pm hm hseed
    have hl := hls l (List.mem_cons_self l rest)
    have hls' : ∀ x ∈ rest, singleZoneLineB A x = true :=
      fun x hx => hls x (List.mem_cons_of_mem l hx)
    obtain ⟨inv', hb', hg'⟩ := parse_line_single_zone A ld Z (nowf k) s1 p1 l hl hb inv
    have hfin1 : finishRun nowf k s1 p1 (l :: rest) =
        finishRun nowf (k + 1) (parse_line (nowf k) s1 p1 l).1
          (parse_line (nowf k) s1 p1 l).2.1 rest := rfl
    have hfin2 : finishRun nowf k s2 p2 (l :: rest) =
        finishRun nowf (k + 1) (parse_line (nowf k) s2 p2 l).1
          (parse_line (nowf k) s2 p2 l).2.1 rest := rfl
    rw [hfin1] at hm hseed ⊢
    rw [hfin2]
    cases hcl : classifyLine l with
    | charL nm =>
      rw [singleZoneLineB, hcl] at hl
      cases hl
    | zoneL ts z =>
      have hzA : z = A := by
        rw [singleZoneLineB, hcl] at hl
        exact of_decide_eq_true hl
      subst hzA
      cases hts : hmsToSec ts with
      | none =>
        have hres1 : parse_line (nowf k) s1 p1 l = (s1, p1, none) := by
          simp only [parse_line, hcl, hts]
        have hres2 : parse_line (nowf k) s2 p2 l = (s2, p2, none) := by
          simp only [parse_line, hcl, hts]
        rw [hres1] at hm hseed ⊢
        rw [hres2]
        exact ih (k + 1) s1 s2 p1 p2 hls' hb inv pm hm hseed
      | some sod =>
        obtain ⟨htsEq, ptm, pseen2⟩ := parse_timestamp_match p2 p1 sod pm
        by_cases hdbc : p1.last_zone_name = some z ∧
            ∃ t0, p1.last_zone_time = some t0 ∧
              (parse_timestamp p1 sod).1 - t0 < p1.zone_debounce_seconds
        · obtain ⟨hname, t0, ht0, hdb⟩ := hdbc
          have hres1 := parse_line_zone_debounced (nowf k) s1 p1 l ts z sod t0
            hcl hts hname ht0 hdb
          have hres2 := parse_line_zone_debounced (nowf k) s2 p2 l ts z sod t0
            hcl hts (by rw [pm.lzn]; exact hname) (by rw [pm.lzt]; exact ht0)
            (by rw [htsEq, pm.dbs]; exact hdb)
          rw [hres1] at hm hseed inv' hb' ⊢
          rw [hres2]
          refine ih (k + 1) s1 s2 _ _ hls' hb' inv' ?_ hm ?_
          · exact ⟨ptm.cchar, by rw [htsEq, pm.cchar], ptm.czid, ptm.cdate, ptm.lts,
              ptm.pcorpse, ptm.ldate, ptm.bm, ptm.pend, ptm.zc, ptm.lzn, ptm.lzt,
              ptm.dbs⟩
          · intro key hk
            have h2 := hseed key hk
            show key ∈ (parse_timestamp p2 sod).2.seen_events
            rw [pseen2]
            exact h2
        · have hdbc2 : ¬ (p2.last_zone_name = some z ∧
              ∃ t0, p2.last_zone_time = some t0 ∧
                (parse_timestamp p2 sod).1 - t0 < p2.zone_debounce_seconds) := by
            intro ⟨h1, t0, h2, h3⟩
            rw [pm.lzn] at h1
            rw [pm.lzt] at h2
            rw [htsEq, pm.dbs] at h3
            exact hdbc ⟨h1, t0, h2, h3⟩
          have hres1 := parse_line_zone_normal (nowf k) s1 p1 l ts z sod hcl hts hdbc
          have hres2 := parse_line_zone_normal (nowf k) s2 p2 l ts z sod hcl hts hdbc2
          have hcz1 : create_zone_entry s1 z p1.current_character
              (parse_timestamp p1 sod).1 p1.log_date = (Z.zone_id, s1) := by
            rw [inv.pchar]
            exact create_zone_entry_reuse s1 z none (parse_timestamp p1 sod).1
              p1.log_date Z
              (by rw [inv.zones]; exact findLastOpen_single Z inv.zchar inv.zopen)
              inv.zname
          rw [hcz1, hb] at hres1
          simp only [eq_self_iff_true, if_true] at hres1
          rw [hres1] at hm hseed inv' hb' ⊢
          have jinv := (finishRun_single_zone z ld Z nowf rest (k + 1) s1 _ hls'
            hb' inv').1
          have hcz2 : create_zone_entry s2 z p2.current_character
              (parse_timestamp p2 sod).1 p2.log_date = (Z.zone_id, s2) := by
            rw [pm.cchar, inv.pchar]
            exact create_zone_entry_reuse s2 z none (parse_timestamp p2 sod).1
              p2.log_date Z
              (by rw [hm.zones, jinv.zones]; exact findLastOpen_single Z inv.zchar inv.zopen)
              inv.zname
          rw [hcz2, pm.bm, hb] at hres2
          simp only [eq_self_iff_true, if_true] at hres2
          rw [hres2]
          refine ih (k + 1) s1 s2 _ _ hls' hb' inv' ?_ hm ?_
          · exact ⟨ptm.cchar, by rw [htsEq, pm.cchar], rfl, ptm.cdate, ptm.lts,
              ptm.pcorpse, ptm.ldate, ptm.bm, ptm.pend,
              (by
                show aupdate (z, p2.current_character) Z.zone_id
                    (parse_timestamp p2 sod).2.zones_created =
                  aupdate (z, p1.current_character) Z.zone_id
                    (parse_timestamp p1 sod).2.zones_created
                rw [pm.cchar, ptm.zc]),
              rfl, by rw [htsEq], ptm.dbs⟩
          · intro key hk
            have h2 := hseed key hk
            show key ∈ (parse_timestamp p2 sod).2.seen_events
            rw [pseen2]
            exact h2
    | corpseL npc_id npc_name tsOpt =>
      cases tsOpt with
      | some tstr =>
        cases hts : hmsToSec tstr with
        | none =>
          have hres1 : parse_line (nowf k) s1 p1 l = (s1, p1, none) := by
            simp only [parse_line, hcl, hts]
          have hres2 : parse_line (nowf k) s2 p2 l = (s2, p2, none) := by
            simp only [parse_line, hcl, hts]
          rw [hres1] at hm hseed ⊢
          rw [hres2]
          exact ih (k + 1) s1 s2 p1 p2 hls' hb inv pm hm hseed
        | some sod =>
          obtain ⟨htsEq, ptm, pseen2⟩ := parse_timestamp_match p2 p1 sod pm
          have hres1 : parse_line (nowf k) s1 p1 l =
              (s1, { (parse_timestamp p1 sod).2 with
                      pending_corpse :=
                        some (npc_id, stripStr npc_name, (parse_timestamp p1 sod).1) },
               none) := by
            simp only [parse_line, hcl, hts]
          have hres2 : parse_line (nowf k) s2 p2 l =
              (s2, { (parse_timestamp p2 sod).2 with
                      pending_corpse :=
                        some (npc_id, stripStr npc_name, (parse_timestamp p2 sod).1) },
               none) := by
            simp only [parse_line, hcl, hts]
          rw [hres1] at hm hseed inv' hb' ⊢
          rw [hres2]
          refine ih (k + 1) s1 s2 _ _ hls' hb' inv' ?_ hm ?_
          · exact ⟨ptm.cchar, ptm.czone, ptm.czid, ptm.cdate, ptm.lts,
              by rw [htsEq], ptm.ldate, ptm.bm, ptm.pend, ptm.zc, ptm.lzn,
              ptm.lzt, ptm.dbs⟩
          · intro key hk
            have h2 := hseed key hk
            show key ∈ (parse_timestamp p2 sod).2.seen_events
            rw [pseen2]
            exact h2
      | none =>
        have hres1 : parse_line (nowf k) s1 p1 l =
            (s1, { p1 with
                    pending_corpse := some (npc_id, stripStr npc_name, nowf k) },
             none) := by
          simp only [parse_line, hcl]
        have hres2 : parse_line (nowf k) s2 p2 l =
            (s2, { p2 with
                    pending_corpse := some (npc_id, stripStr npc_name, nowf k) },
             none) := by
          simp only [parse_line, hcl]
        rw [hres1] at hm hseed inv' hb' ⊢
        rw [hres2]
        refine ih (k + 1) s1 s2 _ _ hls' hb' inv' ?_ hm hseed
        exact ⟨pm.cchar, pm.czone, pm.czid, pm.cdate, pm.lts, rfl, pm.ldate,
          pm.bm, pm.pend, pm.zc, pm.lzn, pm.lzt, pm.dbs⟩
    | restL dm wm =>
      cases dm with
      | none =>
        cases wm with
        | none =>
          have hres1 : parse_line (nowf k) s1 p1 l = (s1, p1, none) := by
            simp only [parse_line, hcl]
          have hres2 : parse_line (nowf k) s2 p2 l = (s2, p2, none) := by
            simp only [parse_line, hcl]
          rw [hres1] at hm hseed ⊢
          rw [hres2]
          exact ih (k + 1) s1 s2 p1 p2 hls' hb inv pm hm hseed
        | some amount =>
          have hres1 : parse_line (nowf k) s1 p1 l =
              (add_wisdom s1 Z.zone_id amount, p1, none) := by
            simp only [parse_line, hcl]
            rw [inv.pzid, truthyId_pos Z.zone_id inv.zid]
            rfl
          have hres2 : parse_line (nowf k) s2 p2 l =
              (add_wisdom s2 Z.zone_id amount, p2, none) := by
            simp only [parse_line, hcl]
            rw [pm.czid, inv.pzid, truthyId_pos Z.zone_id inv.zid]
            rfl
          rw [hres1] at hm hseed inv' hb' ⊢
          rw [hres2]
          refine ih (k + 1) (add_wisdom s1 Z.zone_id amount)
            (add_wisdom s2 Z.zone_id amount) p1 p2 hls' hb inv' pm ?_ hseed
          exact ⟨hm.players, hm.zones, hm.events, hm.pmap, hm.pinfo, hm.al,
            hm.np, hm.nz, hm.ne⟩
      | some d =>
        cases hpc : p1.pending_corpse with
        | none =>
          have hpc2 : p2.pending_corpse = none := by rw [pm.pcorpse]; exact hpc
          cases wm with
          | none =>
            have hres1 : parse_line (nowf k) s1 p1 l = (s1, p1, none) := by
              simp only [parse_line, hcl, hpc]
            have hres2 : parse_line (nowf k) s2 p2 l = (s2, p2, none) := by
              simp only [parse_line, hcl, hpc2]
            rw [hres1] at hm hseed ⊢
            rw [hres2]
            exact ih (k + 1) s1 s2 p1 p2 hls' hb inv pm hm hseed
          | some amount =>
            have hres1 : parse_line (nowf k) s1 p1 l =
                (add_wisdom s1 Z.zone_id amount, p1, none) := by
              simp only [parse_line, hcl, hpc]
              rw [inv.pzid, truthyId_pos Z.zone_id inv.zid]
              rfl
            have hres2 : parse_line (nowf k) s2 p2 l =
                (add_wisdom s2 Z.zone_id amount, p2, none) := by
              simp only [parse_line, hcl, hpc2]
              rw [pm.czid, inv.pzid, truthyId_pos Z.zone_id inv.zid]
              rfl
            rw [hres1] at hm hseed inv' hb' ⊢
            rw [hres2]
            refine ih (k + 1) (add_wisdom s1 Z.zone_id amount)
              (add_wisdom s2 Z.zone_id amount) p1 p2 hls' hb inv' pm ?_ hseed
            exact ⟨hm.players, hm.zones, hm.events, hm.pmap, hm.pinfo, hm.al,
              hm.np, hm.nz, hm.ne⟩
        | some pc =>
          rcases pc with ⟨npc_id, npc_name, cts⟩
          have hpc2 : p2.pending_corpse = some (npc_id, npc_name, cts) := by
            rw [pm.pcorpse]
            exact hpc
          by_cases hzero : d.health_dmg = 0 ∧ d.armor_dmg = 0
          · have hres1 : parse_line (nowf k) s1 p1 l = (s1, p1, none) := by
              simp only [parse_line, hcl, hpc]
              rw [if_pos hzero]
            have hres2 : parse_line (nowf k) s2 p2 l = (s2, p2, none) := by
              simp only [parse_line, hcl, hpc2]
              rw [if_pos hzero]
            rw [hres1] at hm hseed ⊢
            rw [hres2]
            exact ih (k + 1) s1 s2 p1 p2 hls' hb inv pm hm hseed
          · set event1 : DamageEvent :=
              { player_name := stripStr d.player_name, health_dmg := d.health_dmg,
                armor_dmg := d.armor_dmg, aggro_percent := d.aggro_raw,
                npc_id := npc_id, npc_name := npc_name,
                zone_name := (p1.current_zone.map (·.name)).getD "Unknown",
                timestamp := cts, character_name := p1.current_character,
                zone_id := p1.current_zone_id } with hev1
            set event2 : DamageEvent :=
              { player_name := stripStr d.player_name, health_dmg := d.health_dmg,
                armor_dmg := d.armor_dmg, aggro_percent := d.aggro_raw,
                npc_id := npc_id, npc_name := npc_name,
                zone_name := (p2.current_zone.map (·.name)).getD "Unknown",
                timestamp := cts, character_name := p2.current_character,
                zone_id := p2.current_zone_id } with hev2
            have hevEq : event2 = event1 := by
              rw [hev1, hev2, pm.czone, pm.cchar, pm.czid]
            have hbufEq : p2.pending_events ++ [event2] =
                p1.pending_events ++ [event1] := by
              rw [pm.pend, hevEq]
            have hinv1 : SingleZoneInv A ld Z s1
                { p1 with pending_events := p1.pending_events ++ [event1] } :=
              ⟨inv.zones, inv.zname, inv.zchar, inv.zopen, inv.zdate, inv.zid,
               inv.pdate, inv.pchar, inv.pzid,
               (by
                 intro e he
                 rcases List.mem_append.mp he with h | h
                 · exact inv.pend e h
                 · rcases List.mem_singleton.mp h with rfl
                   rw [hev1]
                   exact inv.pzid),
               inv.stored, inv.seen, inv.pids, inv.pnext⟩
            by_cases hbs : BATCH_SIZE ≤ (p1.pending_events ++ [event1]).length
            · have hres1 : parse_line (nowf k) s1 p1 l =
                  ((flush_batch s1
                      { p1 with pending_events := p1.pending_events ++ [event1] }).1,
                   (flush_batch s1
                      { p1 with pending_events := p1.pending_events ++ [event1] }).2.1,
                   some event1) := by
                simp only [parse_line, hcl, hpc]
                rw [if_neg hzero, hb]
                simp only [eq_self_iff_true, if_true]
                rw [if_pos hbs]
              have hres2 : parse_line (nowf k) s2 p2 l =
                  ((flush_batch s2
                      { p2 with pending_events := p2.pending_events ++ [event2] }).1,
                   (flush_batch s2
                      { p2 with pending_events := p2.pending_events ++ [event2] }).2.1,
                   some event2) := by
                simp only [parse_line, hcl, hpc2]
                rw [if_neg hzero, pm.bm, hb]
                simp only [eq_self_iff_true, if_true]
                rw [if_pos (by rw [hbufEq]; exact hbs)]
              obtain ⟨ji, jg, ⟨se, jp⟩, jcov⟩ := flush_batch_single_zone A ld Z s1
                { p1 with pending_events := p1.pending_events ++ [event1] } hinv1
              rw [hres1] at hm hseed inv' hb' ⊢
              rw [hres2]
              obtain ⟨jinvS, jgrowS⟩ := finishRun_single_zone A ld Z nowf rest
                (k + 1) _ _ hls' hb' inv'
              obtain ⟨zS, ⟨uS, eS⟩, ⟨vS, mS⟩⟩ := jgrowS
              have hq : flush_batch s2
                  { p2 with pending_events := p2.pending_events ++ [event2] } =
                  (s2, { { p2 with pending_events := p2.pending_events ++ [event2] }
                          with pending_events := [] }, 0) := by
                refine flush_batch_replay Z s2 _ inv.zid ?_ ?_ ?_
                · intro e he
                  show e.zone_id = some Z.zone_id
                  rw [show ({ p2 with pending_events :=
                      p2.pending_events ++ [event2] } : LogParser).pending_events =
                      p1.pending_events ++ [event1] from hbufEq] at he
                  exact hinv1.pend e he
                · intro e he
                  rw [show ({ p2 with pending_events :=
                      p2.pending_events ++ [event2] } : LogParser).pending_events =
                      p1.pending_events ++ [event1] from hbufEq] at he
                  obtain ⟨pid, hmap, _, _⟩ := jcov e he
                  refine ⟨pid, ?_⟩
                  rw [hm.pmap, mS]
                  exact alookup_append_some _ _ _ pid hmap
                · intro e he
                  rw [show ({ p2 with pending_events :=
                      p2.pending_events ++ [event2] } : LogParser).pending_events =
                      p1.pending_events ++ [event1] from hbufEq] at he
                  obtain ⟨pid, hmap, _, hkey⟩ := jcov e he
                  have hkeq : flushKey s2.player_name_to_id Z.zone_id e =
                      flushKey (flush_batch s1 { p1 with pending_events :=
                        p1.pending_events ++ [event1] }).1.player_name_to_id
                        Z.zone_id e := by
                    rw [flushKey, flushKey, hm.pmap, mS,
                      alookup_append_some _ _ _ pid hmap, hmap]
                  rw [hkeq]
                  show _ ∈ ({ p2 with pending_events :=
                    p2.pending_events ++ [event2] } : LogParser).seen_events
                  refine hseed _ ?_
                  rw [eS, List.map_append]
                  exact List.mem_append_left _ hkey
              rw [hq]
              refine ih (k + 1) _ s2 _ _ hls' hb' inv' ?_ hm hseed
              rw [jp]
              exact ⟨pm.cchar, pm.czone, pm.czid, pm.cdate, pm.lts, pm.pcorpse,
                pm.ldate, pm.bm, rfl, pm.zc, pm.lzn, pm.lzt, pm.dbs⟩
            · have hres1 : parse_line (nowf k) s1 p1 l =
                  (s1, { p1 with pending_events := p1.pending_events ++ [event1] },
                   some event1) := by
                simp only [parse_line, hcl, hpc]
                rw [if_neg hzero, hb]
                simp only [eq_self_iff_true, if_true]
                rw [if_neg hbs]
              have hres2 : parse_line (nowf k) s2 p2 l =
                  (s2, { p2 with pending_events := p2.pending_events ++ [event2] },
                   some event2) := by
                simp only [parse_line, hcl, hpc2]
                rw [if_neg hzero, pm.bm, hb]
                simp only [eq_self_iff_true, if_true]
                rw [if_neg (by rw [hbufEq]; exact hbs)]
              rw [hres1] at hm hseed inv' hb' ⊢
              rw [hres2]
              refine ih (k + 1) s1 s2 _ _ hls' hb' inv' ?_ hm hseed
              exact ⟨pm.cchar, pm.czone, pm.czid, pm.cdate, pm.lts, pm.pcorpse,
                pm.ldate, pm.bm, hbufEq, pm.zc, pm.lzn, pm.lzt, pm.dbs⟩

theorem seed_covers (A ld : String) (Z : ZoneRec) (S : PandasDataStore)
    (P : LogParser) (inv : SingleZoneInv A ld Z S P) :
    ∀ key ∈ S.events_list.map eventKey,
      key ∈ get_all_existing_event_keys S (some ld) := by
  intro key hk
  unfold get_all_existing_event_keys
  by_cases he : S.events_list = []
  · rw [he] at hk
    exact absurd hk (List.not_mem_nil key)
  · rw [if_neg he]
    dsimp only
    by_cases hld : ld = ""
    · rw [if_pos hld]
      exact hk
    · rw [if_neg hld]
      have hfz : S.zones_list.filter (fun z => z.log_date = some ld) = [Z] := by
        rw [inv.zones]
        have : (fun (z : ZoneRec) => (decide (z.log_date = some ld))) Z = true := by
          simp [inv.zdate]
        simp [List.filter, this]
      have hfe : S.events_list.filter (fun e =>
          match e.zone_id with
          | some z => z ∈ ((S.zones_list.filter
              (fun z => z.log_date = some ld)).map (·.zone_id))
          | none => false) = S.events_list := by
        rw [List.filter_eq_self]
        intro e he'
        rw [inv.stored e he', hfz]
        simp
      rw [hfe]
      exact hk

theorem storeMatch_keys (T S : PandasDataStore) (h : StoreMatch T S)
    (d : Option String) :
    get_all_existing_event_keys T d = get_all_existing_event_keys S d := by
  unfold get_all_existing_event_keys
  rw [h.events, h.zones]

/-- **C1 (amended).** Batch re-import is idempotent for single-zone files:
when the first line is a zone transition with a parseable time and every
further line either re-enters the same zone, reports a corpse search, or is
a damage/wisdom/unrecognized line (no character switches, no other zone
name), then importing the file twice with the same log date leaves the
event table, the zone table and the player table exactly as after the first
import, and the signature set (`get_all_existing_event_keys`) after run 2
equals the one after run 1.  Multi-zone files break this (see the
counterexample): re-entering zone names alternately forces fresh zone ids,
so every re-parsed event carries an unseen signature. -/
theorem C1_batch_dedup_amended
    (nowf : Nat → Int) (day0 : Int) (aliases : List (String × String))
    (A ts ld l₀ : String) (sod : Nat) (rest : List String)
    (h₀ : classifyLine l₀ = CLine.zoneL ts A)
    (hts : hmsToSec ts = some sod)
    (hrest : ∀ l ∈ rest, singleZoneLineB A l = true) :
    let S := load_worker nowf day0 (initStore aliases) (l₀ :: rest) ld
    let T := load_worker nowf day0 S (l₀ :: rest) ld
    T.events_list = S.events_list ∧
    T.zones_list = S.zones_list ∧
    T.players_list = S.players_list ∧
    get_all_existing_event_keys T (some ld) =
      get_all_existing_event_keys S (some ld) := by
  intro S T
  have hnd1 : ¬ ((start_batch_mode (set_log_date (initParser day0) ld)
        ([] : List EventKey)).last_zone_name = some A ∧
      ∃ t0, (start_batch_mode (set_log_date (initParser day0) ld)
        ([] : List EventKey)).last_zone_time = some t0 ∧
        (parse_timestamp (start_batch_mode (set_log_date (initParser day0) ld)
          ([] : List EventKey)) sod).1 - t0 <
        (start_batch_mode (set_log_date (initParser day0) ld)
          ([] : List EventKey)).zone_debounce_seconds) := by
    intro h
    have h1 : (none : Option String) = some A := h.1
    cases h1
  have hres1 := parse_line_zone_normal (nowf 0) (initStore aliases)
    (start_batch_mode (set_log_date (initParser day0) ld) ([] : List EventKey))
    l₀ ts A sod h₀ hts hnd1
  have hcz1 : create_zone_entry (initStore aliases) A
      (start_batch_mode (set_log_date (initParser day0) ld)
        ([] : List EventKey)).current_character
      (parse_timestamp (start_batch_mode (set_log_date (initParser day0) ld)
        ([] : List EventKey)) sod).1
      (start_batch_mode (set_log_date (initParser day0) ld)
        ([] : List EventKey)).log_date =
      ((initStore aliases).next_zone_id,
       { initStore aliases with
           next_zone_id := (initStore aliases).next_zone_id + 1,
           zones_list := (initStore aliases).zones_list ++
             [{ zone_id := (initStore aliases).next_zone_id, name := A,
                character_name := (start_batch_mode (set_log_date (initParser day0) ld)
                  ([] : List EventKey)).current_character,
                entered_time := (parse_timestamp (start_batch_mode
                  (set_log_date (initParser day0) ld) ([] : List EventKey)) sod).1,
                left_time := none,
                log_date := (start_batch_mode (set_log_date (initParser day0) ld)
                  ([] : List EventKey)).log_date }] }) :=
    create_zone_entry_fresh_none (initStore aliases) A _ _ _ rfl
  rw [hcz1] at hres1
  have hinv1 : SingleZoneInv A ld
      { zone_id := 1, name := A, character_name := none,
        entered_time := (parse_timestamp (start_batch_mode
          (set_log_date (initParser day0) ld) ([] : List EventKey)) sod).1,
        left_time := none, log_date := some ld }
      (parse_line (nowf 0) (initStore aliases)
        (start_batch_mode (set_log_date (initParser day0) ld) ([] : List EventKey)) l₀).1
      (parse_line (nowf 0) (initStore aliases)
        (start_batch_mode (set_log_date (initParser day0) ld) ([] : List EventKey)) l₀).2.1
      := by
    rw [hres1]
    refine ⟨rfl, rfl, rfl, rfl, rfl, Nat.le_refl 1, rfl, rfl, rfl, ?_, ?_, ?_, ?_,
      Nat.le_refl 1⟩
    · intro e he
      exact absurd he (List.not_mem_nil e)
    · intro e he
      exact absurd he (List.not_mem_nil e)
    · intro k hk
      exact absurd hk (List.not_mem_nil k)
    · intro q hq
      exact absurd hq (List.not_mem_nil q)
  have hbP1 : (parse_line (nowf 0) (initStore aliases)
      (start_batch_mode (set_log_date (initParser day0) ld) ([] : List EventKey))
      l₀).2.1.batch_mode = true := by
    rw [hres1]
    rfl
  have hfin1 : S = finishRun nowf 1
      (parse_line (nowf 0) (initStore aliases)
        (start_batch_mode (set_log_date (initParser day0) ld) ([] : List EventKey)) l₀).1
      (parse_line (nowf 0) (initStore aliases)
        (start_batch_mode (set_log_date (initParser day0) ld) ([] : List EventKey)) l₀).2.1
      rest := rfl
  obtain ⟨jinvS, jgrowS⟩ := finishRun_single_zone A ld
    { zone_id := 1, name := A, character_name := none,
      entered_time := (parse_timestamp (start_batch_mode
        (set_log_date (initParser day0) ld) ([] : List EventKey)) sod).1,
      left_time := none, log_date := some ld }
    nowf rest 1 _ _ hrest hbP1 hinv1
  rw [← hfin1] at jinvS
  -- run 2, line 0
  have hnd2 : ¬ ((start_batch_mode (set_log_date (initParser day0) ld)
        (get_all_existing_event_keys S (some ld))).last_zone_name = some A ∧
      ∃ t0, (start_batch_mode (set_log_date (initParser day0) ld)
        (get_all_existing_event_keys S (some ld))).last_zone_time = some t0 ∧
        (parse_timestamp (start_batch_mode (set_log_date (initParser day0) ld)
          (get_all_existing_event_keys S (some ld))) sod).1 - t0 <
        (start_batch_mode (set_log_date (initParser day0) ld)
          (get_all_existing_event_keys S (some ld))).zone_debounce_seconds) := by
    intro h
    have h1 : (none : Option String) = some A := h.1
    cases h1
  have hres2 := parse_line_zone_normal (nowf 0) S
    (start_batch_mode (set_log_date (initParser day0) ld)
      (get_all_existing_event_keys S (some ld)))
    l₀ ts A sod h₀ hts hnd2
  have hcz2 : create_zone_entry S A
      (start_batch_mode (set_log_date (initParser day0) ld)
        (get_all_existing_event_keys S (some ld))).current_character
      (parse_timestamp (start_batch_mode (set_log_date (initParser day0) ld)
        (get_all_existing_event_keys S (some ld))) sod).1
      (start_batch_mode (set_log_date (initParser day0) ld)
        (get_all_existing_event_keys S (some ld))).log_date = (1, S) := by
    have hfl : findLastOpen (start_batch_mode (set_log_date (initParser day0) ld)
        (get_all_existing_event_keys S (some ld))).current_character S.zones_list =
        some ⟨1, A, none,
          (parse_timestamp (start_batch_mode
            (set_log_date (initParser day0) ld) ([] : List EventKey)) sod).1,
          none, some ld⟩ := by
      rw [jinvS.zones]
      exact findLastOpen_single _ rfl rfl
    exact create_zone_entry_reuse S A _ _ _ _ hfl rfl
  rw [hcz2] at hres2
  have hfin2 : T = finishRun nowf 1
      (parse_line (nowf 0) S
        (start_batch_mode (set_log_date (initParser day0) ld)
          (get_all_existing_event_keys S (some ld))) l₀).1
      (parse_line (nowf 0) S
        (start_batch_mode (set_log_date (initParser day0) ld)
          (get_all_existing_event_keys S (some ld))) l₀).2.1
      rest := rfl
  obtain ⟨htsEq, ptm, pseen2⟩ := parse_timestamp_match
    (start_batch_mode (set_log_date (initParser day0) ld)
      (get_all_existing_event_keys S (some ld)))
    (start_batch_mode (set_log_date (initParser day0) ld) ([] : List EventKey)) sod
    ⟨rfl, rfl, rfl, rfl, rfl, rfl, rfl, rfl, rfl, rfl, rfl, rfl, rfl⟩
  have hrep := replay_single_zone A ld
    { zone_id := 1, name := A, character_name := none,
      entered_time := (parse_timestamp (start_batch_mode
        (set_log_date (initParser day0) ld) ([] : List EventKey)) sod).1,
      left_time := none, log_date := some ld }
    nowf rest 1
    (parse_line (nowf 0) (initStore aliases)
      (start_batch_mode (set_log_date (initParser day0) ld) ([] : List EventKey)) l₀).1
    (parse_line (nowf 0) S
      (start_batch_mode (set_log_date (initParser day0) ld)
        (get_all_existing_event_keys S (some ld))) l₀).1
    (parse_line (nowf 0) (initStore aliases)
      (start_batch_mode (set_log_date (initParser day0) ld) ([] : List EventKey)) l₀).2.1
    (parse_line (nowf 0) S
      (start_batch_mode (set_log_date (initParser day0) ld)
        (get_all_existing_event_keys S (some ld))) l₀).2.1
    hrest hbP1 hinv1 ?pm ?hm ?seed
  case pm =>
    rw [hres1, hres2]
    refine ⟨ptm.cchar, ?_, rfl, ptm.cdate, ptm.lts, ptm.pcorpse,
      ptm.ldate, ptm.bm, ptm.pend, ?_, rfl, ?_, ptm.dbs⟩
    · show some (⟨A, (parse_timestamp (start_batch_mode (set_log_date (initParser day0) ld)
          (get_all_existing_event_keys S (some ld))) sod).1,
          (start_batch_mode (set_log_date (initParser day0) ld)
            (get_all_existing_event_keys S (some ld))).current_character⟩ : ZoneInfo) =
        some (⟨A, (parse_timestamp (start_batch_mode (set_log_date (initParser day0) ld)
          ([] : List EventKey)) sod).1,
          (start_batch_mode (set_log_date (initParser day0) ld)
            ([] : List EventKey)).current_character⟩ : ZoneInfo)
      rw [htsEq]
      rfl
    · show aupdate (A, (start_batch_mode (set_log_date (initParser day0) ld)
          (get_all_existing_event_keys S (some ld))).current_character)
          ((1, S)).1
          (parse_timestamp (start_batch_mode (set_log_date (initParser day0) ld)
            (get_all_existing_event_keys S (some ld))) sod).2.zones_created =
        aupdate (A, (start_batch_mode (set_log_date (initParser day0) ld)
          ([] : List EventKey)).current_character)
          (((initStore aliases).next_zone_id,
            { initStore aliases with
                next_zone_id := (initStore aliases).next_zone_id + 1,
                zones_list := (initStore aliases).zones_list ++
                  [{ zone_id := (initStore aliases).next_zone_id, name := A,
                     character_name := (start_batch_mode (set_log_date (initParser day0) ld)
                       ([] : List EventKey)).current_character,
                     entered_time := (parse_timestamp (start_batch_mode
                       (set_log_date (initParser day0) ld) ([] : List EventKey)) sod).1,
                     left_time := none,
                     log_date := (start_batch_mode (set_log_date (initParser day0) ld)
                       ([] : List EventKey)).log_date }] }) : Nat × PandasDataStore).1
          (parse_timestamp (start_batch_mode (set_log_date (initParser day0) ld)
            ([] : List EventKey)) sod).2.zones_created
      rw [ptm.zc]
      rfl
    · show some ((parse_timestamp (start_batch_mode (set_log_date (initParser day0) ld)
          (get_all_existing_event_keys S (some ld))) sod).1) =
        some ((parse_timestamp (start_batch_mode (set_log_date (initParser day0) ld)
          ([] : List EventKey)) sod).1)
      rw [htsEq]
  case hm =>
    rw [hres2]
    show StoreMatch S _
    rw [← hfin1]
    exact ⟨rfl, rfl, rfl, rfl, rfl, rfl, rfl, rfl, rfl⟩
  case seed =>
    intro key hk
    rw [hres2]
    show key ∈ (parse_timestamp (start_batch_mode (set_log_date (initParser day0) ld)
      (get_all_existing_event_keys S (some ld))) sod).2.seen_events
    rw [pseen2]
    show key ∈ get_all_existing_event_keys S (some ld)
    rw [← hfin1] at hk
    exact seed_covers A ld _ S _ jinvS key hk
  rw [← hfin1, ← hfin2] at hrep
  exact ⟨hrep.events, hrep.zones, hrep.players,
    storeMatch_keys T S hrep (some ld)⟩

/-- Witness for the amended C1: a concrete three-line single-zone file
(zone entry, corpse search, one damage line), imported twice with log date
2024-01-01, discharging every hypothesis of the theorem. -/
theorem C1_batch_dedup_amended_witness :
    classifyLine "[10:00:00] LOADING LEVEL AreaOne" =
      CLine.zoneL "10:00:00" "AreaOne" ∧
    hmsToSec "10:00:00" = some 36000 ∧
    (∀ l ∈ ["[10:00:01] ProcessTalkScreen(7, Search Corpse of Rat, x)",
            "Alice: 10 health dmg"], singleZoneLineB "AreaOne" l = true) ∧
    (let S := load_worker (fun _ => 0) 0 (initStore [])
        ("[10:00:00] LOADING LEVEL AreaOne" ::
          ["[10:00:01] ProcessTalkScreen(7, Search Corpse of Rat, x)",
           "Alice: 10 health dmg"]) "2024-01-01"
     let T := load_worker (fun _ => 0) 0 S
        ("[10:00:00] LOADING LEVEL AreaOne" ::
          ["[10:00:01] ProcessTalkScreen(7, Search Corpse of Rat, x)",
           "Alice: 10 health dmg"]) "2024-01-01"
     T.events_list = S.events_list ∧
     T.zones_list = S.zones_list ∧
     T.players_list = S.players_list ∧
     get_all_existing_event_keys T (some "2024-01-01") =
       get_all_existing_event_keys S (some "2024-01-01")) :=
  ⟨rfl, rfl, by decide,
   C1_batch_dedup_amended (fun _ => 0) 0 [] "AreaOne" "10:00:00" "2024-01-01"
     "[10:00:00] LOADING LEVEL AreaOne" 36000
     ["[10:00:01] ProcessTalkScreen(7, Search Corpse of Rat, x)",
      "Alice: 10 health dmg"]
     rfl rfl (by decide)⟩
